import Mathlib

/-!
# gin-compress: negotiation, response encoder, request decoder

A shallow embedding of the Go package `compress` (files `middleware.go`,
`bodyWriter.go`, `bodyReader.go`, `algo.go`, `options.go` and the four codec
files) together with theorems about it.

Conventions of the embedding.

* Go `string` values are sequences of characters (`String`, or `List Char`
  inside the string helpers).
* Go `int` values are `Int`; the code only compares and adds lengths, so no
  wrap-around is involved.
* Functions of the Go standard library and of the codec libraries that the
  package calls are parameters of the embedding (`GoLib`, `Codec`); theorems
  are stated for every value of these parameters, under the documented
  contract of the library function where one is needed.
* A Go panic is the `Except.error` result of a model function.
-/

namespace Compress

/-! ## String helpers (package `strings`) -/

/-- Go `strings.ReplaceAll(s, " ", "")`. -/
def removeSpaces (s : List Char) : List Char :=
  s.filter (fun c => c != ' ')

/-- Go `strings.Split(s, sep)` for a separator of one character: the pieces
between the separators, `[""]` for the empty string. -/
def split (sep : Char) : List Char → List (List Char)
  | [] => [[]]
  | c :: cs =>
    if c = sep then [] :: split sep cs
    else
      match split sep cs with
      | [] => [[c]]
      | p :: ps => (c :: p) :: ps

/-- Go `strings.HasPrefix(s, "q=")`. -/
def hasPrefixQ (s : List Char) : Bool :=
  List.isPrefixOf ['q', '='] s

/-- Go `strings.Join(elems, ", ")` on character sequences. -/
def joinChars : List (List Char) → List Char
  | [] => []
  | [a] => a
  | a :: b :: rest => a ++ [',', ' '] ++ joinChars (b :: rest)

/-- Go `strings.Join(elems, ", ")`. -/
def joinCommaSpace (elems : List String) : String :=
  String.mk (joinChars (elems.map String.data))

/-- Go `strings.Contains(s, substr)` on character sequences. -/
def containsSub (substr : List Char) : List Char → Bool
  | [] => substr.isEmpty
  | c :: cs => List.isPrefixOf substr (c :: cs) || containsSub substr cs

/-! ## Algorithm registry (`algo.go`, `options.go`) -/

/-- Go `algorithmConfig`: options of one compression algorithm. -/
structure algorithmConfig where
  enable : Bool
  compressLevel : Int
  priority : Int
deriving DecidableEq, Repr

/-- The package variable `algorithms`: a map with the four fixed keys
`zstd`, `gzip`, `br`, `deflate`; only the configuration of each entry can
change. -/
structure Algorithms where
  zstd : algorithmConfig
  gzip : algorithmConfig
  br : algorithmConfig
  deflate : algorithmConfig
deriving DecidableEq, Repr

def ZSTD : String := "zstd"
def GZIP : String := "gzip"
def BROTLI : String := "br"
def DEFLATE : String := "deflate"

/-- Map lookup `algorithms[k]` with its `ok` flag. -/
def Algorithms.get (A : Algorithms) (k : String) : Option algorithmConfig :=
  if k = ZSTD then some A.zstd
  else if k = GZIP then some A.gzip
  else if k = BROTLI then some A.br
  else if k = DEFLATE then some A.deflate
  else none

/-- Go `getEnabledAlgorithms`: the sub-map of `algorithms` whose entries have
`enable` set, as a lookup function. -/
def getEnabledAlgorithms (A : Algorithms) (k : String) : Option algorithmConfig :=
  match A.get k with
  | some cfg => if cfg.enable then some cfg else none
  | none => none

/-- The registry as `newAlgorithmZstd`, `newAlgorithmGzip`,
`newAlgorithmBrotli` and `newAlgorithmDeflate` build it. The compression
levels are the library defaults (`zstd.SpeedDefault = 2`,
`flate.DefaultCompression = -1`, `brotli.DefaultCompression = 6`). -/
def defaultAlgorithms : Algorithms where
  zstd := { enable := true, compressLevel := 2, priority := 100 }
  gzip := { enable := true, compressLevel := -1, priority := 300 }
  br := { enable := true, compressLevel := 6, priority := 400 }
  deflate := { enable := true, compressLevel := -1, priority := 200 }

/-! ## Negotiation (`selectAlgorithm`, `middleware.go`) -/

/-- Go `acceptableEncoding`: one parsed entry of `Accept-Encoding`. -/
structure acceptableEncoding where
  encoding : String
  q : Int
deriving DecidableEq, Repr

/-- Standard-library functions used by `selectAlgorithm`. -/
structure GoLib where
  /-- `strings.ToLower`. -/
  toLower : List Char → List Char
  /-- `strconv.ParseFloat(s, 64)` followed by the conversion `int(q * 1000)`;
  `none` when `ParseFloat` reports an error. -/
  parseWeight : List Char → Option Int
  /-- `sort.Slice` on a slice of `acceptableEncoding`. -/
  sortSlice : (acceptableEncoding → acceptableEncoding → Bool) →
    List acceptableEncoding → List acceptableEncoding

/-- Contract of `sort.Slice`: the slice is rearranged (a permutation), and
for a `less` that is a strict weak order no element is `less` than one placed
before it. Nothing is said about the order of equivalent elements: the sort
is not stable. -/
def SortSliceSpec {α : Type}
    (sortSlice : (α → α → Bool) → List α → List α) : Prop :=
  ∀ (less : α → α → Bool) (xs : List α),
    (∀ a b, less a b = true → less b a = false) →
    (∀ a b c, less a b = false → less b c = false → less a c = false) →
    (sortSlice less xs).Perm xs ∧
      (sortSlice less xs).Pairwise (fun a b => less b a = false)

/-- Priority of a token in the map of enabled algorithms,
`allowedEncodings[tok].getConfig().priority`. The comparison function only
runs on entries that passed the filter, whose tokens are keys of the map; the
value for other tokens is never used. -/
def priorityOf (allowed : String → Option algorithmConfig) (tok : String) : Int :=
  match allowed tok with
  | some cfg => cfg.priority
  | none => 0

/-- The `less` closure handed to `sort.Slice`: weight first, then priority. -/
def less (allowed : String → Option algorithmConfig)
    (a b : acceptableEncoding) : Bool :=
  if a.q = b.q then
    decide (priorityOf allowed a.encoding < priorityOf allowed b.encoding)
  else
    decide (a.q < b.q)

/-- One iteration of the parsing loop, up to the filter: the entry, and the
text of the weight when `ParseFloat` rejected it (`c.Error(err)`). -/
def parseEntry (L : GoLib) (encoding : List Char) :
    acceptableEncoding × Option String :=
  let parts := split ';' encoding
  let tok := String.mk (parts.headD [])
  match parts with
  | _ :: p1 :: _ =>
    if hasPrefixQ p1 then
      match L.parseWeight (p1.drop 2) with
      | some q => ({ encoding := tok, q := q }, none)
      | none => ({ encoding := tok, q := 1000 }, some (String.mk (p1.drop 2)))
    else ({ encoding := tok, q := 1000 }, none)
  | _ => ({ encoding := tok, q := 1000 }, none)

/-- The filter of the parsing loop:
`if _, ok := allowedEncodings[acc.encoding]; ok && acc.q > 0`. -/
def acceptable (allowed : String → Option algorithmConfig)
    (acc : acceptableEncoding) : Bool :=
  (allowed acc.encoding).isSome && decide (acc.q > 0)

/-- The normalised header,
`strings.ToLower(strings.ReplaceAll(header, " ", ""))`. -/
def normalize (L : GoLib) (header : String) : List Char :=
  L.toLower (removeSpaces header.data)

/-- Go `selectAlgorithm`. The argument `header` is
`c.GetHeader("Accept-Encoding")`. The result is the returned token (`""` for
none) and the errors recorded on the context with `c.Error`, in order. -/
def selectAlgorithm (L : GoLib) (A : Algorithms) (header : String) :
    String × List String :=
  let acceptEncodings := normalize L header
  if acceptEncodings = [] then ("", [])
  else
    let allowedEncodings := getEnabledAlgorithms A
    let encodings := split ',' acceptEncodings
    let parsed := encodings.map (parseEntry L)
    let errors := parsed.filterMap (fun p => p.2)
    let acceptableEncodings := (parsed.map (fun p => p.1)).filter (acceptable allowedEncodings)
    if acceptableEncodings.length = 0 then ("", errors)
    else
      let sorted := L.sortSlice (less allowedEncodings) acceptableEncodings
      (((sorted.getLast?).map (fun e => e.encoding)).getD "", errors)

/-- The entries of an `Accept-Encoding` declaration as the parsing loop reads
them: one `(token, weight)` pair per comma-separated piece. -/
def entries (L : GoLib) (header : String) : List acceptableEncoding :=
  (split ',' (normalize L header)).map (fun s => (parseEntry L s).1)

/-- The entries that survive the filter: token enabled and weight `> 0`. -/
def survivors (L : GoLib) (A : Algorithms) (header : String) :
    List acceptableEncoding :=
  (entries L header).filter (acceptable (getEnabledAlgorithms A))

/-! ### A concrete standard library, used to evaluate examples -/

/-- ASCII lower-casing; `strings.ToLower` agrees with it on ASCII text. -/
def asciiToLower (s : List Char) : List Char :=
  s.map Char.toLower

/-- Value of a string of decimal digits, `none` if another character occurs. -/
def digitsValue (cs : List Char) : Option Nat :=
  cs.foldl (fun acc c =>
    match acc with
    | some n => if c.isDigit then some (10 * n + (c.toNat - '0'.toNat)) else none
    | none => none) (some 0)

/-- The weight `int(q * 1000)` for the texts `0`, `1`, `0.d`, `0.dd` and
`0.ddd` (`d` a decimal digit), on which the floating-point product is exact.
Every other text is reported as malformed; the examples use none. -/
def decimalWeight (s : List Char) : Option Int :=
  match s with
  | ['0'] => some 0
  | ['1'] => some 1000
  | '0' :: '.' :: frac =>
    if frac.length = 0 ∨ 3 < frac.length then none
    else
      match digitsValue frac with
      | some n => some (Int.ofNat (n * 10 ^ (3 - frac.length)))
      | none => none
  | _ => none

/-- One pass of the inner loop of insertion sort: `x` moves towards the front
past every element it is `less` than. The list is the sorted prefix, last
element first. -/
def bubbleIn {α : Type} (less : α → α → Bool) (x : α) : List α → List α
  | [] => [x]
  | y :: ys => if less x y then y :: bubbleIn less x ys else x :: y :: ys

/-- Insertion sort, the routine `sort.Slice` runs on short slices. -/
def insertionSort {α : Type} (less : α → α → Bool) (xs : List α) : List α :=
  (xs.foldl (fun acc x => bubbleIn less x acc) []).reverse

/-- A standard library for examples. -/
def goLib : GoLib where
  toLower := asciiToLower
  parseWeight := decimalWeight
  sortSlice := insertionSort

/-! ## Bytes, headers and the response writer of the framework -/

/-- A byte slice `[]byte`; a byte is a number below 256, and the model never
computes with the values. -/
abbrev Bytes := List Nat

/-- Go `[]byte(s)`: the UTF-8 encoding of the string. -/
def bytesOf (s : String) : Bytes :=
  s.data.flatMap (fun c => (String.utf8EncodeChar c).map UInt8.toNat)

/-- Go `http.Header` with canonical keys: the values of each key. -/
abbrev Header := List (String × List String)

/-- Go `Header.Get`: the first value of the key, `""` if there is none. -/
def Header.Get (h : Header) (key : String) : String :=
  match h.lookup key with
  | some (v :: _) => v
  | _ => ""

/-- Go `Header.Del`. -/
def Header.Del (h : Header) (key : String) : Header :=
  h.filter (fun p => p.1 != key)

/-- Go `Header.Set`: the key gets the single value `value`. -/
def Header.Set (h : Header) (key value : String) : Header :=
  Header.Del h key ++ [(key, [value])]

/-- Go `gin.Context.Header(key, value)`: an empty value deletes the key. -/
def ginHeader (h : Header) (key value : String) : Header :=
  if value = "" then Header.Del h key else Header.Set h key value

/-- The `gin.ResponseWriter` of the framework, as far as this package uses
it: the response headers, the bytes written to the network so far, the status
and the size the framework reports (`-1` until something is written). -/
structure ResponseWriter where
  header : Header
  body : Bytes
  status : Int
  size : Int
deriving DecidableEq, Repr

/-- Go `Write` of the framework writer: the bytes go to the network. -/
def ResponseWriter.Write (w : ResponseWriter) (b : Bytes) : ResponseWriter :=
  { w with body := w.body ++ b, size := (if w.size < 0 then 0 else w.size) + b.length }

/-! ## Codecs and pooled compressors (`algo.go`) -/

/-- A streaming compressor of a codec library, seen from outside: the bytes
it emits to its destination on `Write(b)` and on `Close`, both depending on
the chunks written since the last `Reset`; and the matching decompression of
a whole stream (`none` when the stream is corrupt). -/
structure Codec where
  onWrite : List Bytes → Bytes → Bytes
  onClose : List Bytes → Bytes
  decompress : Bytes → Option Bytes

/-- Output of a compressor that has seen `hist` while it is fed `chunks`. -/
def Codec.stream (K : Codec) (hist : List Bytes) : List Bytes → Bytes
  | [] => []
  | c :: cs => K.onWrite hist c ++ Codec.stream K (hist ++ [c]) cs

/-- Everything a compressor emits when it is fed `chunks` and then closed. -/
def Codec.compress (K : Codec) (chunks : List Bytes) : Bytes :=
  Codec.stream K [] chunks ++ K.onClose chunks

/-- The codec round trip: decompressing the output for `chunks` gives their
concatenation. -/
def Codec.RoundTrip (K : Codec) : Prop :=
  ∀ chunks : List Bytes, K.decompress (Codec.compress K chunks) = some chunks.flatten

/-- Destination of a compressor: the response writer of the request, or
`ioutil.Discard`. -/
inductive Dest where
  | sink
  | discard
deriving DecidableEq, Repr

/-- A `resettableCompressor` (a `gzip.Writer`, `zlib.Writer`, `brotli.Writer`
or `zstd.Encoder`): its destination, the chunks written since the last
`Reset`, and whether `Close` ran since then. -/
structure resettableCompressor where
  dst : Dest
  written : List Bytes
  closed : Bool
deriving DecidableEq, Repr

/-- Go `Reset(w)`. -/
def resettableCompressor.Reset (_z : resettableCompressor) (dst : Dest) :
    resettableCompressor :=
  { dst := dst, written := [], closed := false }

/-- Go `makeCompressor`: a new compressor on `ioutil.Discard`. The compression
level is taken to be valid for the codec, as the documentation of
`WithCompressLevel` requires. -/
def makeCompressor : resettableCompressor :=
  { dst := Dest.discard, written := [], closed := false }

/-- An entry of `algorithms` as the response writer uses it: the token and
the idle instances of `compressorPool`. -/
structure algorithm where
  name : String
  compressorPool : List resettableCompressor
deriving DecidableEq, Repr

/-- Go `sync.Pool.Get`: an idle instance when there is one, else `New()`. -/
def poolGet (pool : List resettableCompressor) :
    resettableCompressor × List resettableCompressor :=
  match pool with
  | [] => (makeCompressor, [])
  | z :: rest => (z, rest)

/-- Go `sync.Pool.Put`. -/
def poolPut (pool : List resettableCompressor) (z : resettableCompressor) :
    List resettableCompressor :=
  z :: pool

/-- Go `wrappedWriter`; the pool `p` is the pool of the algorithm. -/
structure wrappedWriter where
  w : resettableCompressor
  c : Bool
deriving DecidableEq, Repr

/-- Go `getWriter(w)` of the four algorithms: take a compressor from the pool,
`Reset` it to the response writer, wrap it. -/
def algorithm.getWriter (a : algorithm) : wrappedWriter × algorithm :=
  let (gw, rest) := poolGet a.compressorPool
  ({ w := gw.Reset Dest.sink, c := false }, { a with compressorPool := rest })

/-- What the environment does to one call into the compressor or the
network: `none` lets it succeed, `some n` makes it fail after `n` bytes. -/
abbrev Fault := Option Nat

/-- The part of `b` a call under `fault` consumes. -/
def accepted (fault : Fault) (b : Bytes) : Bytes :=
  match fault with
  | none => b
  | some n => b.take n

/-- Go `Write` of the underlying compressor: the chunk is recorded and the
emitted bytes are written to the destination (`sink` is the response writer
of the request). Result: compressor, sink, byte count, error flag. -/
def resettableCompressor.Write (K : Codec) (z : resettableCompressor) (sink : ResponseWriter)
    (b : Bytes) (fault : Fault) : resettableCompressor × ResponseWriter × Int × Bool :=
  let a := accepted fault b
  let out := K.onWrite z.written a
  ({ z with written := z.written ++ [a] },
   (match z.dst with
    | Dest.sink => sink.Write out
    | Dest.discard => sink),
   (a.length : Int), fault.isSome)

/-- Go `Close` of the underlying compressor: the trailer is written to the
destination. -/
def resettableCompressor.Close (K : Codec) (z : resettableCompressor) (sink : ResponseWriter)
    (fault : Fault) : resettableCompressor × ResponseWriter × Bool :=
  ({ z with closed := true },
   (match z.dst with
    | Dest.sink => sink.Write (accepted fault (K.onClose z.written))
    | Dest.discard => sink),
   fault.isSome)

/-- Go `wrappedWriter.Write`. -/
def wrappedWriter.Write (K : Codec) (w : wrappedWriter) (sink : ResponseWriter) (b : Bytes)
    (fault : Fault) : Except String (wrappedWriter × ResponseWriter × Int × Bool) :=
  if w.c then Except.error "attempted to write to a closed writer"
  else
    let (z, sink1, n, err) := w.w.Write K sink b fault
    Except.ok ({ w with w := z }, sink1, n, err)

/-- Go `wrappedWriter.Close`: the flag is set, the compressor is closed, then
(deferred, in this order) reset to `ioutil.Discard` and put into the pool.
Result: wrapper, pool, sink, error flag of the compressor's `Close`. -/
def wrappedWriter.Close (K : Codec) (w : wrappedWriter) (pool : List resettableCompressor)
    (sink : ResponseWriter) (fault : Fault) :
    Except String (wrappedWriter × List resettableCompressor × ResponseWriter × Bool) :=
  if w.c then Except.error "attempted to close a compressor that has already been closed"
  else
    let (z, sink1, err) := w.w.Close K sink fault
    let z1 := z.Reset Dest.discard
    Except.ok ({ w := z1, c := true }, poolPut pool z1, sink1, err)

/-! ## Response encoder (`bodyWriter.go`) -/

/-- Go `respWriter`. The buffer `buf` is `none` once it has been set to `nil`;
`compressor` is `none` while it is `nil`. -/
structure respWriter where
  ResponseWriter : ResponseWriter
  threshold : Int
  algo : algorithm
  buf : Option Bytes
  bytesWritten : Int
  compressor : Option wrappedWriter
deriving DecidableEq, Repr

/-- Go `newResponseWriter(c, swapSize, algo)`; `w` is `c.Writer`. -/
def newResponseWriter (w : ResponseWriter) (swapSize : Int) (algo : algorithm) : respWriter :=
  { ResponseWriter := w, threshold := swapSize, algo := algo, buf := some [],
    bytesWritten := 0, compressor := none }

/-- Go `Swapped`: `rw.buf == nil`. -/
def respWriter.Swapped (rw : respWriter) : Bool :=
  rw.buf.isNone

/-- Go `Size`. -/
def respWriter.Size (rw : respWriter) : Int :=
  rw.bytesWritten

/-- Go `Written`. -/
def respWriter.Written (rw : respWriter) : Bool :=
  decide (rw.bytesWritten > 0)

/-- The faults of the two calls one `Write` can make into the compressor:
the drain of the buffer (`io.Copy`) and the write of the chunk. -/
structure Faults where
  copy : Fault
  write : Fault
deriving DecidableEq, Repr

/-- No fault: every call succeeds. -/
def noFault : Faults :=
  { copy := none, write := none }

/-- The second half of `Write`: route `b` to the compressor or the buffer and
count it. -/
def respWriter.route (K : Codec) (rw : respWriter) (b : Bytes) (fault : Fault) :
    Except String (respWriter × Int × Bool) :=
  match rw.buf with
  | some buffered =>
    -- bytes.Buffer.Write never fails
    Except.ok ({ rw with buf := some (buffered ++ b),
                         bytesWritten := rw.bytesWritten + b.length }, (b.length : Int), false)
  | none =>
    match rw.compressor with
    | none => Except.error "nil pointer dereference"
    | some w =>
      match w.Write K rw.ResponseWriter b fault with
      | Except.error e => Except.error e
      | Except.ok (w1, sink1, n, err) =>
        let rw1 := { rw with compressor := some w1, ResponseWriter := sink1 }
        if err then Except.ok (rw1, n, true)
        else Except.ok ({ rw1 with bytesWritten := rw1.bytesWritten + n }, n, false)

/-- Go `Write(b)`. Result: the writer, the returned count and the error flag; a
panic is `Except.error`. -/
def respWriter.Write (K : Codec) (rw : respWriter) (b : Bytes) (f : Faults) :
    Except String (respWriter × Int × Bool) :=
  let rw0 := { rw with ResponseWriter :=
    { rw.ResponseWriter with header := Header.Del rw.ResponseWriter.header "Content-Length" } }
  match rw0.buf with
  | none => rw0.route K b f.write
  | some buffered =>
    if ((buffered.length : Int) + (b.length : Int) ≥ rw0.threshold) then
      let (w, algo1) := rw0.algo.getWriter
      let rw1 := { rw0 with compressor := some w, algo := algo1 }
      -- io.Copy(rw.compressor, rw.buf): one Write of the buffered bytes, none if empty
      if buffered.length = 0 then
        { rw1 with buf := none }.route K b f.write
      else
        match w.Write K rw1.ResponseWriter buffered f.copy with
        | Except.error e => Except.error e
        | Except.ok (w1, sink1, n, err) =>
          let rw2 := { rw1 with compressor := some w1, ResponseWriter := sink1 }
          if err then Except.ok ({ rw2 with buf := some (buffered.drop n.toNat) }, n, true)
          else { rw2 with buf := none }.route K b f.write
    else rw0.route K b f.write

/-- Go `WriteString(s)`. -/
def respWriter.WriteString (K : Codec) (rw : respWriter) (s : String) (f : Faults) :
    Except String (respWriter × Int × Bool) :=
  rw.Write K (bytesOf s) f

/-- Go `Close`. `fault` is the fault of the one call it makes: the copy of the
buffer to the response writer, or the `Close` of the compressor. Result: the
writer and the error flag. -/
def respWriter.Close (K : Codec) (rw : respWriter) (fault : Fault) :
    Except String (respWriter × Bool) :=
  match rw.buf with
  | some buffered =>
    if buffered.length = 0 then Except.ok (rw, false)
    else
      let a := accepted fault buffered
      Except.ok ({ rw with ResponseWriter := rw.ResponseWriter.Write a,
                           buf := some (buffered.drop a.length) }, fault.isSome)
  | none =>
    match rw.compressor with
    | none => Except.error "nil pointer dereference"
    | some w =>
      match w.Close K rw.algo.compressorPool rw.ResponseWriter fault with
      | Except.error e => Except.error e
      | Except.ok (w1, pool1, sink1, err) =>
        Except.ok ({ rw with compressor := some w1,
                             algo := { rw.algo with compressorPool := pool1 },
                             ResponseWriter := sink1 }, err)

/-- A sequence of writes that meet no fault. -/
def respWriter.writeAll (K : Codec) (rw : respWriter) : List Bytes → Except String respWriter
  | [] => Except.ok rw
  | b :: bs =>
    match rw.Write K b noFault with
    | Except.error e => Except.error e
    | Except.ok (rw1, _, _) => respWriter.writeAll K rw1 bs

/-- Total number of bytes of a sequence of chunks. -/
def totalLength (chunks : List Bytes) : Int :=
  (chunks.flatten.length : Int)

/-! ## Request decoder (`decompressRequest`, `bodyReader.go`) -/

/-- An `io.ReadCloser` on the request path: the body the request arrived
with, or the decompressor that `algorithms[enc].getReader(src)` builds on the
reader `src`. -/
inductive Reader where
  | raw (content : Bytes)
  | decomp (enc : String) (src : Reader)
deriving DecidableEq, Repr

/-- Go `compressedBodyReader`: the constructed layers, in construction order. -/
structure compressedBodyReader where
  decomps : List Reader
deriving DecidableEq, Repr

/-- The value of `c.Request.Body`. -/
inductive RequestBody where
  | absent
  | plain (r : Reader)
  | composed (br : compressedBodyReader)
deriving DecidableEq, Repr

/-- The reader that serves `Read` on a request body: the body itself, or for
a `compressedBodyReader` the last layer, `c.decomps[len(c.decomps)-1]`
(`compressedBodyReader.Read`). `none` for a nil body and for a chain without
layers, on which `Read` panics. -/
def RequestBody.reader : RequestBody → Option Reader
  | RequestBody.absent => none
  | RequestBody.plain r => some r
  | RequestBody.composed br => br.decomps.getLast?

/-- The request as the package sees it. -/
structure Request where
  Header : Header
  Body : RequestBody
deriving DecidableEq, Repr

/-- The decompression side of the codec libraries. `opens enc src` tells
whether building a decompressor for `enc` on `src` succeeds (`gzip.NewReader`
and `zlib.NewReader` read the stream header at once and fail on a bad one;
`Reset` of the pooled brotli and zstd readers can fail too); `decompress` is
the decompression of a whole stream, `none` on a corrupt one. -/
structure DecodeLib where
  opens : String → Reader → Bool
  decompress : String → Bytes → Option Bytes

/-- Go `getReader(r)` of the four algorithms: the decompressor on `r`, or a
panic when the library reports an error. -/
def getReader (D : DecodeLib) (enc : String) (r : Reader) : Except String Reader :=
  if D.opens enc r then Except.ok (Reader.decomp enc r)
  else Except.error "decompressor construction failed"

/-- The bytes a reader yields up to the end of the stream, `none` when a
layer meets a corrupt stream. -/
def Reader.content (D : DecodeLib) : Reader → Option Bytes
  | Reader.raw content => some content
  | Reader.decomp enc src =>
    match Reader.content D src with
    | some bytes => D.decompress enc bytes
    | none => none

/-- Go `compressOptions`. `excludeFunc` is `none` when it is nil. -/
structure compressOptions where
  excludeFunc : Option (Request → Bool)
  minCompressBytes : Int
  maxDecodeSteps : Int
  skipDecompressRequest : Bool

/-- Go `newCompressOptions`. -/
def newCompressOptions : compressOptions :=
  { excludeFunc := some (fun _ => false), minCompressBytes := 512, maxDecodeSteps := 1,
    skipDecompressRequest := false }

/-- The declared encodings:
`strings.Split(strings.ReplaceAll(c.GetHeader("Content-Encoding"), " ", ""), ",")`. -/
def declaredEncodings (h : Header) : List String :=
  (split ',' (removeSpaces (Header.Get h "Content-Encoding").data)).map String.mk

/-- The peeling loop of `decompressRequest`. The argument `k` is `i + 1` for
the loop variable `i`, so `k = 0` is `i = -1`; the result is the final `i + 1`
and the readers. -/
def peel (A : Algorithms) (D : DecodeLib) (encodings : List String) (maxDecodeSteps : Int)
    (body : Reader) : Nat → List Reader → Except String (Nat × List Reader)
  | 0, readers => Except.ok (0, readers)
  | k + 1, readers =>
    if (k : Int) ≥ (encodings.length : Int) - maxDecodeSteps then
      let enc := encodings.getD k ""
      let w := (readers.getLast?).getD body
      match A.get enc with
      | some _ =>
        match getReader D enc w with
        | Except.ok r => peel A D encodings maxDecodeSteps body k (readers ++ [r])
        | Except.error e => Except.error e
      | none => Except.ok (k + 1, readers)
    else Except.ok (k + 1, readers)

/-- Go `decompressRequest`. Result: the request after the call, the reader whose
`Close` is returned (`none` for a nil function), and whether the returned
error is non-nil; a panic is `Except.error`. -/
def decompressRequest (A : Algorithms) (D : DecodeLib) (cfg : compressOptions) (c : Request) :
    Except String (Request × Option compressedBodyReader × Bool) :=
  if cfg.skipDecompressRequest then Except.ok (c, none, false)
  else
    let encodings := declaredEncodings c.Header
    match c.Body.reader with
    | none => Except.ok (c, none, false)
    | some body =>
      if encodings.length = 0 then Except.ok (c, none, false)
      else
        match peel A D encodings cfg.maxDecodeSteps body encodings.length [] with
        | Except.error e => Except.error e
        | Except.ok (k, readers) =>
          if readers.length = 0 then Except.ok (c, none, false)
          else
            let h1 := Header.Del c.Header "Content-Length"
            let h2 :=
              if k = 0 then Header.Del h1 "Content-Encoding"
              else Header.Set h1 "Content-Encoding" (joinCommaSpace (encodings.take k))
            let br : compressedBodyReader := { decomps := readers }
            Except.ok ({ Header := h2, Body := RequestBody.composed br }, some br, false)

/-- Number of layers behind the returned closer. -/
def layerCount : Option compressedBodyReader → Nat
  | none => 0
  | some br => br.decomps.length

/-- Length of the longest suffix of the declared list made of recognized
tokens (keys of `algorithms`). -/
def recognizedSuffix (A : Algorithms) (encodings : List String) : Nat :=
  (encodings.reverse.takeWhile (fun e => (A.get e).isSome)).length

/-- The layers built on `body` for the tokens `toks`, first token first: each
layer is the decompressor of its token on the layer before it. -/
def layers (body : Reader) : List String → List Reader
  | [] => []
  | t :: ts => Reader.decomp t body :: layers (Reader.decomp t body) ts

/-- A body encoded with the declared encodings, applied in declared order. -/
def encodeAll (compress : String → Bytes → Bytes) (encodings : List String) (payload : Bytes) :
    Bytes :=
  encodings.foldl (fun acc enc => compress enc acc) payload

/-- A decoding library for examples: every construction succeeds, and a
stream is its token's first letter followed by the data. -/
def tagDecodeLib : DecodeLib where
  opens := fun _ _ => true
  decompress := fun enc x =>
    match x with
    | [] => none
    | t :: rest => if (enc.data.headD ' ').toNat = t then some rest else none

/-- The compression that `tagDecodeLib` undoes. -/
def tagCompress (enc : String) (x : Bytes) : Bytes :=
  (enc.data.headD ' ').toNat :: x

/-! ## The middleware (`Handler`, `shouldCompress`, `middleware.go`) -/

/-- Go `len(getEnabledAlgorithms()) > 0`. -/
def anyEnabled (A : Algorithms) : Bool :=
  A.zstd.enable || A.gzip.enable || A.br.enable || A.deflate.enable

/-- Go `shouldCompress`. -/
def shouldCompress (A : Algorithms) (cfg : compressOptions) (c : Request) : Bool :=
  if containsSub "text/event-stream".data (Header.Get c.Header "Accept").data
      || containsSub "Upgrade".data (Header.Get c.Header "Connection").data then false
  else if (match cfg.excludeFunc with
      | some f => f c
      | none => false) then false
  else anyEnabled A

/-- What `Handler` leaves behind: the request as the application saw it, the
response writer of the framework (headers and bytes sent), the response
encoder when one was installed, the chain whose `Close` is deferred, the
errors recorded on the context, and the status of an abort. -/
structure HandlerResult where
  request : Request
  writer : ResponseWriter
  encoder : Option respWriter
  closer : Option compressedBodyReader
  errors : List String
  aborted : Option Int

/-- Go `Handler`. The application logic `c.Next()` is the producer `app`: given
the request after decoding, the chunks it writes to `c.Writer`; every write
and the final `Close` meet no fault. `K algo` is the codec behind the
compressors of `algorithms[algo]` and `pools algo` its idle compressors. -/
def Handler (L : GoLib) (A : Algorithms) (D : DecodeLib) (K : String → Codec)
    (pools : String → List resettableCompressor) (cfg : compressOptions)
    (c : Request) (w : ResponseWriter) (app : Request → List Bytes) :
    Except String HandlerResult :=
  match decompressRequest A D cfg c with
  | Except.error e => Except.error e
  | Except.ok (c1, cf, err) =>
    if err then
      Except.ok { request := c1, writer := w, encoder := none, closer := none,
                  errors := ["decompress"], aborted := some 400 }
    else
      let sel := selectAlgorithm L A (Header.Get c1.Header "Accept-Encoding")
      let algo := sel.1
      if algo = "" || !shouldCompress A cfg c1 then
        let w1 := (app c1).foldl ResponseWriter.Write w
        let w2 := { w1 with header := ginHeader w1.header "Content-Length" (toString w1.size) }
        Except.ok { request := c1, writer := w2, encoder := none, closer := cf,
                    errors := sel.2, aborted := none }
      else
        let rw := newResponseWriter w cfg.minCompressBytes
          { name := algo, compressorPool := pools algo }
        match rw.writeAll (K algo) (app c1) with
        | Except.error e => Except.error e
        | Except.ok rw1 =>
          match rw1.Close (K algo) none with
          | Except.error e => Except.error e
          | Except.ok (rw2, _) =>
            let h1 :=
              if rw2.Swapped then
                ginHeader (ginHeader rw2.ResponseWriter.header "Vary" "Accept-Encoding")
                  "Content-Encoding" algo
              else rw2.ResponseWriter.header
            let h2 := ginHeader h1 "Content-Length" (toString rw2.Size)
            let w2 := { rw2.ResponseWriter with header := h2 }
            Except.ok { request := c1, writer := w2,
                        encoder := some { rw2 with ResponseWriter := w2 }, closer := cf,
                        errors := sel.2, aborted := none }

/-- Example request: `GET /small` with `Accept-Encoding: gzip, zstd, br`. -/
def smallRequest : Request :=
  { Header := [("Accept-Encoding", ["gzip, zstd, br"])], Body := RequestBody.absent }

/-- Example request: `Content-Encoding: gzip, deflate`, the body being the
payload `[7, 8]` encoded with gzip and then with deflate. -/
def twoLayerRequest : Request :=
  { Header := [("Content-Length", ["4"]), ("Content-Encoding", ["gzip, deflate"])],
    Body := RequestBody.plain
      (Reader.raw (encodeAll tagCompress ["gzip", "deflate"] [7, 8])) }

/-- Example request: `Content-Encoding: gzipButDifferentLol, deflate`. -/
def unknownLayerRequest : Request :=
  { Header := [("Content-Encoding", ["gzipButDifferentLol, deflate"])],
    Body := RequestBody.plain (Reader.raw (tagCompress "deflate" [7, 8])) }

/-- A small codec for examples: the data is stored as it comes and `Close`
appends the number of bytes stored as a trailer; decompression checks the
trailer and removes it. -/
def storedCodec : Codec where
  onWrite := fun _ b => b
  onClose := fun hist => [hist.flatten.length]
  decompress := fun x =>
    match x.getLast? with
    | some n => if n + 1 = x.length then some x.dropLast else none
    | none => none

/-- A response writer of the framework on which nothing has been written. -/
def freshWriter : ResponseWriter :=
  { header := [], body := [], status := 200, size := -1 }

/-! ## Pooled decompressors and the close of the chain (`algo.go`, `bodyReader.go`) -/

/-- A `resettableDecompressor` (a pooled `brotli.Reader` or `zstd.Decoder`):
the source it is bound to, `none` after `Reset(nil)`. -/
structure resettableDecompressor where
  src : Option Reader
deriving DecidableEq, Repr

/-- Go `Reset(r)` of a decompressor. -/
def resettableDecompressor.Reset (_z : resettableDecompressor) (r : Option Reader) :
    resettableDecompressor :=
  { src := r }

/-- Go `wrappedReader`; the pool `p` is passed to `Close`. -/
structure wrappedReader where
  r : resettableDecompressor
  c : Bool
deriving DecidableEq, Repr

/-- Go `wrappedReader.Read`: a panic on a closed wrapper, else the `Read` of the
underlying decompressor, whose outcome is `read`. -/
def wrappedReader.Read {α : Type} (read : resettableDecompressor → α) (r : wrappedReader) :
    Except String α :=
  if r.c then Except.error "attempted to read from a closed reader"
  else Except.ok (read r.r)

/-- Go `wrappedReader.Close`: nothing on a closed wrapper; otherwise the flag is
set, the decompressor is reset to a nil source and (deferred) put into the
pool. Result: wrapper, pool, and whether the returned error is non-nil. -/
def wrappedReader.Close (r : wrappedReader) (pool : List resettableDecompressor) :
    wrappedReader × List resettableDecompressor × Bool :=
  if r.c then (r, pool, false)
  else
    let z := r.r.Reset none
    ({ r := z, c := true }, z :: pool, false)

/-- Go `Close` of one layer of the chain. The brotli and zstd layers are
`wrappedReader`s, whose `Close` returns nil; the gzip and deflate layers are
readers of the codec library, whose `Close` result is `libClose` (an error
text, or `none` for nil). -/
def Reader.Close (libClose : Reader → Option String) (r : Reader) : Option String :=
  match r with
  | Reader.decomp enc _ => if enc = BROTLI ∨ enc = ZSTD then none else libClose r
  | Reader.raw _ => libClose r

/-- The loop of `compressedBodyReader.Close` over the layers: the layers on
which `Close` was called, in order, and the returned error. -/
def closeLoop (libClose : Reader → Option String) :
    List Reader → List Reader × Option String
  | [] => ([], none)
  | dc :: rest =>
    match Reader.Close libClose dc with
    | some err => ([dc], some err)
    | none =>
      let (closed, res) := closeLoop libClose rest
      (dc :: closed, res)

/-- Go `compressedBodyReader.Close`. -/
def compressedBodyReader.Close (libClose : Reader → Option String)
    (c : compressedBodyReader) : List Reader × Option String :=
  closeLoop libClose c.decomps

/-! ## Options (`options.go`) -/

/-- Go `WithAlgo(algo, enable)`, applied: the `enable` field of the descriptor
of `algo` is set. For a token that is not a key of `algorithms` the map gives
a nil value and the call of `getConfig` on it panics. -/
def WithAlgo (algo : String) (enable : Bool) (A : Algorithms) : Except String Algorithms :=
  if algo = ZSTD then Except.ok { A with zstd := { A.zstd with enable := enable } }
  else if algo = GZIP then Except.ok { A with gzip := { A.gzip with enable := enable } }
  else if algo = BROTLI then Except.ok { A with br := { A.br with enable := enable } }
  else if algo = DEFLATE then Except.ok { A with deflate := { A.deflate with enable := enable } }
  else Except.error "nil pointer dereference"

/-- Go `WithMinCompressBytes(numBytes)`, applied. -/
def WithMinCompressBytes (numBytes : Int) (opts : compressOptions) : compressOptions :=
  { opts with minCompressBytes := numBytes }

/-! ## Views used by the statements -/

/-- The comma-separated pieces of the normalised `Accept-Encoding`
declaration, one per entry. -/
def pieces (L : GoLib) (header : String) : List (List Char) :=
  split ',' (normalize L header)

/-- The weight text of an entry whose weight is malformed: the second
`;`-separated part starts with `q=` and `ParseFloat` rejects the rest. `none`
for every other entry. -/
def malformedWeight (L : GoLib) (piece : List Char) : Option String :=
  match split ';' piece with
  | _ :: p1 :: _ =>
    if hasPrefixQ p1 then
      match L.parseWeight (p1.drop 2) with
      | some _ => none
      | none => some (String.mk (p1.drop 2))
    else none
  | _ => none

/-- A sequence of writes, each under its own faults. -/
def respWriter.writeSeq (K : Codec) (rw : respWriter) :
    List (Bytes × Faults) → Except String respWriter
  | [] => Except.ok rw
  | (b, f) :: rest =>
    match rw.Write K b f with
    | Except.error e => Except.error e
    | Except.ok (rw1, _, _) => respWriter.writeSeq K rw1 rest

/-- A call of the producer on the response writer. -/
inductive WriteOp where
  | write (b : Bytes)
  | writeString (s : String)
deriving DecidableEq, Repr

/-- The chunk a call hands over. -/
def WriteOp.bytes : WriteOp → Bytes
  | WriteOp.write b => b
  | WriteOp.writeString s => bytesOf s

/-- A sequence of `Write` and `WriteString` calls that meet no fault. -/
def respWriter.callAll (K : Codec) (rw : respWriter) : List WriteOp → Except String respWriter
  | [] => Except.ok rw
  | WriteOp.write b :: ops =>
    match rw.Write K b noFault with
    | Except.error e => Except.error e
    | Except.ok (rw1, _, _) => respWriter.callAll K rw1 ops
  | WriteOp.writeString s :: ops =>
    match rw.WriteString K s noFault with
    | Except.error e => Except.error e
    | Except.ok (rw1, _, _) => respWriter.callAll K rw1 ops

/-! ## More example data -/

/-- The registry after every algorithm has been disabled. -/
def noAlgorithms : Algorithms where
  zstd := { enable := false, compressLevel := 2, priority := 100 }
  gzip := { enable := false, compressLevel := -1, priority := 300 }
  br := { enable := false, compressLevel := 6, priority := 400 }
  deflate := { enable := false, compressLevel := -1, priority := 200 }

/-- The default registry with gzip disabled. -/
def gzipDisabled : Algorithms :=
  { defaultAlgorithms with gzip := { enable := false, compressLevel := -1, priority := 300 } }

/-- A decoding library for examples that checks the stream header when a
decompressor is built, as `gzip.NewReader` does: the source must start with
the tag of the token. -/
def strictDecodeLib : DecodeLib where
  opens := fun enc src =>
    match Reader.content tagDecodeLib src with
    | some (t :: _) => decide ((enc.data.headD ' ').toNat = t)
    | _ => false
  decompress := tagDecodeLib.decompress

/-- Example request: `Content-Encoding: gzip` with a body that does not start
with the gzip header. -/
def badGzipRequest : Request :=
  { Header := [("Content-Encoding", ["gzip"])],
    Body := RequestBody.plain (Reader.raw [110, 111]) }

/-- Example request: `Content-Encoding: gzip` with the payload `[7, 8]`
encoded with gzip. -/
def gzipRequest : Request :=
  { Header := [("Content-Encoding", ["gzip"])],
    Body := RequestBody.plain (Reader.raw (tagCompress "gzip" [7, 8])) }

/-- Example request: `Accept-Encoding: gzip` with `Connection: upgrade`. -/
def lowerUpgradeRequest : Request :=
  { Header := [("Accept-Encoding", ["gzip"]), ("Connection", ["upgrade"])],
    Body := RequestBody.absent }

/-- The chain for `Content-Encoding: br, gzip` on the body `[1]`: first the
gzip layer, then the brotli layer on it. -/
def brGzipChain : compressedBodyReader :=
  { decomps := layers (Reader.raw [1]) ["gzip", "br"] }

/-- A codec library whose gzip readers report an error on `Close` (the stream
turned out corrupt while it was read) and whose other readers close fine. -/
def gzipCloseFails (r : Reader) : Option String :=
  match r with
  | Reader.decomp enc _ => if enc = GZIP then some "gzip: invalid checksum" else none
  | Reader.raw _ => none

/-- Example request: `Accept-Encoding: gzip` with `Connection: Upgrade`. -/
def upperUpgradeRequest : Request :=
  { Header := [("Accept-Encoding", ["gzip"]), ("Connection", ["Upgrade"])],
    Body := RequestBody.absent }

/-- Example request: `Content-Encoding: br` with a body that is not a brotli
stream. -/
def badBrotliRequest : Request :=
  { Header := [("Content-Encoding", ["br"])],
    Body := RequestBody.plain (Reader.raw [110, 111]) }

/-! ## Further options, `WriteHeader`, and the registry after an option -/

/-- Go `WithCompressLevel(algo, level)`, applied: the `compressLevel` field of
the descriptor of `algo` is set; an unknown token panics as in `WithAlgo`. -/
def WithCompressLevel (algo : String) (level : Int) (A : Algorithms) : Except String Algorithms :=
  if algo = ZSTD then Except.ok { A with zstd := { A.zstd with compressLevel := level } }
  else if algo = GZIP then Except.ok { A with gzip := { A.gzip with compressLevel := level } }
  else if algo = BROTLI then Except.ok { A with br := { A.br with compressLevel := level } }
  else if algo = DEFLATE then
    Except.ok { A with deflate := { A.deflate with compressLevel := level } }
  else Except.error "nil pointer dereference"

/-- Go `WithPriority(algo, priority)`, applied: the `priority` field of the
descriptor of `algo` is set; an unknown token panics as in `WithAlgo`. -/
def WithPriority (algo : String) (priority : Int) (A : Algorithms) : Except String Algorithms :=
  if algo = ZSTD then Except.ok { A with zstd := { A.zstd with priority := priority } }
  else if algo = GZIP then Except.ok { A with gzip := { A.gzip with priority := priority } }
  else if algo = BROTLI then Except.ok { A with br := { A.br with priority := priority } }
  else if algo = DEFLATE then Except.ok { A with deflate := { A.deflate with priority := priority } }
  else Except.error "nil pointer dereference"

/-- The package variable `algorithms` after an option has been applied to it:
the registry the option returns, and the registry as it was when the option
panicked (the panic comes from the call of `getConfig` on the nil map value,
which is evaluated before anything is assigned). -/
def registryAfter (opt : Algorithms → Except String Algorithms) (A : Algorithms) : Algorithms :=
  match opt A with
  | Except.ok A1 => A1
  | Except.error _ => A

/-- Go `WriteHeader` of the framework writer (gin): the status is recorded
unless the headers are already on the wire; headers and body are not
touched. -/
def ResponseWriter.WriteHeader (w : ResponseWriter) (code : Int) : ResponseWriter :=
  if code > 0 ∧ w.status ≠ code then
    if w.size ≥ 0 then w else { w with status := code }
  else w

/-- Go `respWriter.WriteHeader(code)`: `Content-Length` is deleted, then the
status goes to the framework writer. -/
def respWriter.WriteHeader (rw : respWriter) (code : Int) : respWriter :=
  let w0 : Compress.ResponseWriter :=
    { rw.ResponseWriter with header := Header.Del rw.ResponseWriter.header "Content-Length" }
  { rw with ResponseWriter := w0.WriteHeader code }

/-- The writer with `Content-Length` already deleted from its headers. -/
def respWriter.withoutContentLength (rw : respWriter) : respWriter :=
  { rw with ResponseWriter :=
      { rw.ResponseWriter with header := Header.Del rw.ResponseWriter.header "Content-Length" } }

/-- An algorithm whose pool holds two idle compressors. -/
def twoIdle : algorithm :=
  { name := "gzip", compressorPool := [makeCompressor, makeCompressor] }

/-- A response writer of the framework that carries a `Content-Length` and a
`Content-Type` set by the producer. -/
def lengthWriter : ResponseWriter :=
  { header := [("Content-Length", ["10"]), ("Content-Type", ["text/plain"])],
    body := [], status := 200, size := -1 }

/-- A fault that makes the drain of the buffer fail before any byte is
taken. -/
def copyFails : Faults :=
  { copy := some 0, write := none }

/-- The contract of `strings.ToLower` that the negotiation relies on: it maps
the text character by character, and only a comma is mapped to a comma. -/
def CharwiseLower (toLower : List Char → List Char) : Prop :=
  ∃ f : Char → Char, (∀ s, toLower s = s.map f) ∧ ∀ c, f c = ',' ↔ c = ','

/-- The enabled algorithms have pairwise distinct priorities. -/
def DistinctPriorities (A : Algorithms) : Prop :=
  ∀ (k1 k2 : String) (c1 c2 : algorithmConfig),
    getEnabledAlgorithms A k1 = some c1 → getEnabledAlgorithms A k2 = some c2 →
    c1.priority = c2.priority → k1 = k2

/-! ## The response writer over a framework writer that records its calls -/

/-- A call that reaches the framework writer, with the response headers as
they are when the call arrives: body bytes (`Write`) or a status
(`WriteHeader`). -/
inductive Forwarded where
  | body (header : Header) (b : Bytes)
  | status (header : Header) (code : Int)
deriving DecidableEq, Repr

/-- The response headers at the moment of a call. -/
def Forwarded.header : Forwarded → Header
  | Forwarded.body h _ => h
  | Forwarded.status h _ => h

/-- The framework writer together with the calls it has received, oldest
first. -/
structure TracedWriter where
  w : ResponseWriter
  calls : List Forwarded
deriving DecidableEq, Repr

/-- Go `Header().Del(key)` on the framework writer: the header map changes,
nothing is forwarded. -/
def TracedWriter.DelHeader (s : TracedWriter) (key : String) : TracedWriter :=
  { s with w := { s.w with header := Header.Del s.w.header key } }

/-- Go `Write` of the framework writer, recorded with the headers of that
moment. -/
def TracedWriter.Write (s : TracedWriter) (b : Bytes) : TracedWriter :=
  { w := s.w.Write b, calls := s.calls ++ [Forwarded.body s.w.header b] }

/-- Go `WriteHeader` of the framework writer, recorded with the headers of
that moment. -/
def TracedWriter.WriteHeader (s : TracedWriter) (code : Int) : TracedWriter :=
  { w := s.w.WriteHeader code, calls := s.calls ++ [Forwarded.status s.w.header code] }

/-- Go `Write` of the underlying compressor, as `resettableCompressor.Write`,
on a framework writer that records. -/
def resettableCompressor.WriteTraced (K : Codec) (z : resettableCompressor)
    (sink : TracedWriter) (b : Bytes) (fault : Fault) :
    resettableCompressor × TracedWriter × Int × Bool :=
  let a := accepted fault b
  let out := K.onWrite z.written a
  ({ z with written := z.written ++ [a] },
   (match z.dst with
    | Dest.sink => sink.Write out
    | Dest.discard => sink),
   (a.length : Int), fault.isSome)

/-- Go `wrappedWriter.Write` on a framework writer that records. -/
def wrappedWriter.WriteTraced (K : Codec) (w : wrappedWriter) (sink : TracedWriter)
    (b : Bytes) (fault : Fault) : Except String (wrappedWriter × TracedWriter × Int × Bool) :=
  if w.c then Except.error "attempted to write to a closed writer"
  else
    let (z, sink1, n, err) := w.w.WriteTraced K sink b fault
    Except.ok ({ w with w := z }, sink1, n, err)

/-- Go `respWriter` whose embedded `gin.ResponseWriter` records its calls. -/
structure tracedRespWriter where
  ResponseWriter : TracedWriter
  threshold : Int
  algo : algorithm
  buf : Option Bytes
  bytesWritten : Int
  compressor : Option wrappedWriter
deriving DecidableEq, Repr

/-- The `respWriter` behind a traced one: the record of calls is dropped. -/
def tracedRespWriter.erase (t : tracedRespWriter) : respWriter :=
  { ResponseWriter := t.ResponseWriter.w, threshold := t.threshold, algo := t.algo,
    buf := t.buf, bytesWritten := t.bytesWritten, compressor := t.compressor }

/-- The result of a traced `Write` with the record of calls dropped. -/
def eraseResult (r : tracedRespWriter × Int × Bool) : respWriter × Int × Bool :=
  (r.1.erase, r.2.1, r.2.2)

/-- The second half of `Write`, as `respWriter.route`. -/
def tracedRespWriter.route (K : Codec) (rw : tracedRespWriter) (b : Bytes) (fault : Fault) :
    Except String (tracedRespWriter × Int × Bool) :=
  match rw.buf with
  | some buffered =>
    -- bytes.Buffer.Write never fails
    Except.ok ({ rw with buf := some (buffered ++ b),
                         bytesWritten := rw.bytesWritten + b.length }, (b.length : Int), false)
  | none =>
    match rw.compressor with
    | none => Except.error "nil pointer dereference"
    | some w =>
      match w.WriteTraced K rw.ResponseWriter b fault with
      | Except.error e => Except.error e
      | Except.ok (w1, sink1, n, err) =>
        let rw1 := { rw with compressor := some w1, ResponseWriter := sink1 }
        if err then Except.ok (rw1, n, true)
        else Except.ok ({ rw1 with bytesWritten := rw1.bytesWritten + n }, n, false)

/-- Go `Write(b)`, statement by statement as `respWriter.Write`: first
`rw.Header().Del("Content-Length")`, then the commit test, the drain of the
buffer into the compressor, and the write of `b`. -/
def tracedRespWriter.Write (K : Codec) (rw : tracedRespWriter) (b : Bytes) (f : Faults) :
    Except String (tracedRespWriter × Int × Bool) :=
  let rw0 := { rw with ResponseWriter := rw.ResponseWriter.DelHeader "Content-Length" }
  match rw0.buf with
  | none => rw0.route K b f.write
  | some buffered =>
    if ((buffered.length : Int) + (b.length : Int) ≥ rw0.threshold) then
      let (w, algo1) := rw0.algo.getWriter
      let rw1 := { rw0 with compressor := some w, algo := algo1 }
      -- io.Copy(rw.compressor, rw.buf): one Write of the buffered bytes, none if empty
      if buffered.length = 0 then
        { rw1 with buf := none }.route K b f.write
      else
        match w.WriteTraced K rw1.ResponseWriter buffered f.copy with
        | Except.error e => Except.error e
        | Except.ok (w1, sink1, n, err) =>
          let rw2 := { rw1 with compressor := some w1, ResponseWriter := sink1 }
          if err then Except.ok ({ rw2 with buf := some (buffered.drop n.toNat) }, n, true)
          else { rw2 with buf := none }.route K b f.write
    else rw0.route K b f.write

/-- Go `WriteString(s)`. -/
def tracedRespWriter.WriteString (K : Codec) (rw : tracedRespWriter) (s : String)
    (f : Faults) : Except String (tracedRespWriter × Int × Bool) :=
  rw.Write K (bytesOf s) f

/-- Go `WriteHeader(code)`: first `rw.Header().Del("Content-Length")`, then
`rw.ResponseWriter.WriteHeader(code)`. -/
def tracedRespWriter.WriteHeader (rw : tracedRespWriter) (code : Int) : tracedRespWriter :=
  { rw with ResponseWriter :=
      (rw.ResponseWriter.DelHeader "Content-Length").WriteHeader code }

/-- A traced writer in the middle of a response: two bytes are buffered, the
threshold is 4, nothing has been forwarded yet, and the producer has set
`Content-Length: 10` and `Content-Type` since the last write. -/
def midResponse : tracedRespWriter :=
  { ResponseWriter := { w := lengthWriter, calls := [] }, threshold := 4, algo := twoIdle,
    buf := some [1, 2], bytesWritten := 2, compressor := none }

/-! ## Lemmas: negotiation -/

theorem less_eq_false_iff (allowed : String → Option algorithmConfig)
    (a b : acceptableEncoding) :
    less allowed a b = false ↔
      b.q ≤ a.q ∧ (b.q = a.q → priorityOf allowed b.encoding ≤ priorityOf allowed a.encoding) := by
  unfold less
  by_cases hq : a.q = b.q
  · rw [if_pos hq, decide_eq_false_iff_not, not_lt]
    constructor
    · intro h
      exact ⟨le_of_eq hq.symm, fun _ => h⟩
    · intro h
      exact h.2 hq.symm
  · rw [if_neg hq, decide_eq_false_iff_not, not_lt]
    constructor
    · intro h
      exact ⟨h, fun h' => absurd h'.symm hq⟩
    · intro h
      exact h.1

theorem less_asymm (allowed : String → Option algorithmConfig)
    (a b : acceptableEncoding) (h : less allowed a b = true) :
    less allowed b a = false := by
  rw [less_eq_false_iff]
  have hn : ¬ (less allowed a b = false) := by simp [h]
  rw [less_eq_false_iff] at hn
  by_contra hc
  apply hn
  constructor
  · by_contra h1
    apply hc
    exact ⟨by omega, fun h2 => by omega⟩
  · intro h1
    by_contra h2
    apply hc
    exact ⟨by omega, fun _ => by omega⟩

theorem less_negTrans (allowed : String → Option algorithmConfig)
    (a b c : acceptableEncoding) (h1 : less allowed a b = false)
    (h2 : less allowed b c = false) : less allowed a c = false := by
  rw [less_eq_false_iff] at *
  obtain ⟨h1q, h1p⟩ := h1
  obtain ⟨h2q, h2p⟩ := h2
  refine ⟨by omega, fun h => ?_⟩
  have e1 : b.q = a.q := by omega
  have e2 : c.q = b.q := by omega
  have := h1p e1
  have := h2p e2
  omega

theorem enabled_ne_empty (A : Algorithms) (k : String)
    (h : (getEnabledAlgorithms A k).isSome = true) : k ≠ "" := by
  intro hk
  subst hk
  simp [getEnabledAlgorithms, Algorithms.get, ZSTD, GZIP, BROTLI, DEFLATE] at h

theorem mem_survivors (L : GoLib) (A : Algorithms) (header : String)
    (e : acceptableEncoding) :
    e ∈ survivors L A header ↔
      e ∈ entries L header ∧ (getEnabledAlgorithms A e.encoding).isSome = true ∧ 0 < e.q := by
  simp [survivors, acceptable, List.mem_filter]

theorem survivors_of_empty (L : GoLib) (A : Algorithms) (header : String)
    (h : normalize L header = []) : survivors L A header = [] := by
  simp [survivors, entries, h, split, parseEntry, acceptable, getEnabledAlgorithms,
    Algorithms.get, ZSTD, GZIP, BROTLI, DEFLATE]

/-- The returned token, in terms of the surviving entries. -/
theorem selectAlgorithm_fst (L : GoLib) (A : Algorithms) (header : String) :
    (selectAlgorithm L A header).1 =
      if survivors L A header = [] then ""
      else (((L.sortSlice (less (getEnabledAlgorithms A)) (survivors L A header)).getLast?).map
        (fun e => e.encoding)).getD "" := by
  by_cases hn : normalize L header = []
  · simp [selectAlgorithm, hn, survivors_of_empty L A header hn]
  · by_cases hs : survivors L A header = []
    · have hs' := hs
      simp only [survivors, entries] at hs'
      simp [selectAlgorithm, hn, hs, List.map_map, Function.comp_def, hs']
    · have hs' := hs
      simp only [survivors, entries] at hs'
      simp only [selectAlgorithm, hn, if_false, hs, List.map_map, Function.comp_def,
        List.length_eq_zero, hs']
      simp [survivors, entries]

theorem pairwise_getLast {α : Type} (R : α → α → Prop) (l : List α) (e : α)
    (hp : l.Pairwise R) (hl : l.getLast? = some e) :
    ∀ x ∈ l, R x e ∨ x = e := by
  obtain ⟨ys, rfl⟩ := List.getLast?_eq_some_iff.mp hl
  intro x hx
  rw [List.pairwise_append] at hp
  rcases List.mem_append.mp hx with h | h
  · exact Or.inl (hp.2.2 x h e (by simp))
  · right
    simpa using h

/-- Under the contract of `sort.Slice`, a non-empty result is the token of a
surviving entry that no surviving entry beats. -/
theorem selectAlgorithm_spec (L : GoLib) (A : Algorithms) (header : String)
    (hsort : SortSliceSpec L.sortSlice) (hs : survivors L A header ≠ []) :
    ∃ e ∈ survivors L A header, e.encoding = (selectAlgorithm L A header).1 ∧
      ∀ x ∈ survivors L A header, less (getEnabledAlgorithms A) e x = false := by
  obtain ⟨hperm, hpair⟩ := hsort (less (getEnabledAlgorithms A)) (survivors L A header)
    (less_asymm _) (less_negTrans _)
  rw [selectAlgorithm_fst, if_neg hs]
  cases hl : (L.sortSlice (less (getEnabledAlgorithms A)) (survivors L A header)).getLast? with
  | none =>
    rw [List.getLast?_eq_none_iff] at hl
    rw [hl] at hperm
    exact absurd hperm.symm.eq_nil hs
  | some e =>
    refine ⟨e, hperm.mem_iff.mp (List.mem_of_getLast?_eq_some hl), by simp, ?_⟩
    intro x hx
    rcases pairwise_getLast _ _ e hpair hl x (hperm.mem_iff.mpr hx) with h | h
    · exact h
    · subst h
      cases hxx : less (getEnabledAlgorithms A) x x
      · rfl
      · have := less_asymm _ _ _ hxx
        rw [hxx] at this
        exact absurd this (by simp)

theorem selectAlgorithm_none_of_no_survivor (L : GoLib) (A : Algorithms) (header : String)
    (hs : survivors L A header = []) : (selectAlgorithm L A header).1 = "" := by
  rw [selectAlgorithm_fst, if_pos hs]

theorem bubbleIn_perm {α : Type} (less : α → α → Bool) (x : α) (l : List α) :
    (bubbleIn less x l).Perm (x :: l) := by
  induction l with
  | nil => simp [bubbleIn]
  | cons y ys ih =>
    unfold bubbleIn
    split
    · exact (List.Perm.cons y ih).trans (List.Perm.swap x y ys)
    · exact List.Perm.refl _

theorem bubbleIn_pairwise {α : Type} (less : α → α → Bool)
    (hasymm : ∀ a b, less a b = true → less b a = false)
    (hneg : ∀ a b c, less a b = false → less b c = false → less a c = false)
    (x : α) (l : List α) (hl : l.Pairwise (fun a b => less a b = false)) :
    (bubbleIn less x l).Pairwise (fun a b => less a b = false) := by
  induction l with
  | nil => simp [bubbleIn]
  | cons y ys ih =>
    rw [List.pairwise_cons] at hl
    unfold bubbleIn
    by_cases hxy : less x y = true
    · rw [if_pos hxy, List.pairwise_cons]
      refine ⟨?_, ih hl.2⟩
      intro z hz
      rcases List.mem_cons.mp ((bubbleIn_perm less x ys).mem_iff.mp hz) with h | h
      · subst h
        exact hasymm _ _ hxy
      · exact hl.1 z h
    · rw [if_neg hxy]
      have hxy' : less x y = false := by simpa using hxy
      rw [List.pairwise_cons]
      refine ⟨?_, List.pairwise_cons.mpr hl⟩
      intro z hz
      rcases List.mem_cons.mp hz with h | h
      · subst h
        exact hxy'
      · exact hneg _ _ _ hxy' (hl.1 z h)

theorem foldl_bubbleIn {α : Type} (less : α → α → Bool)
    (hasymm : ∀ a b, less a b = true → less b a = false)
    (hneg : ∀ a b c, less a b = false → less b c = false → less a c = false)
    (xs acc : List α) (hacc : acc.Pairwise (fun a b => less a b = false)) :
    (xs.foldl (fun acc x => bubbleIn less x acc) acc).Perm (xs.reverse ++ acc) ∧
      (xs.foldl (fun acc x => bubbleIn less x acc) acc).Pairwise
        (fun a b => less a b = false) := by
  induction xs generalizing acc with
  | nil => simpa using hacc
  | cons x xs ih =>
    obtain ⟨hp, hs⟩ := ih (bubbleIn less x acc) (bubbleIn_pairwise less hasymm hneg x acc hacc)
    refine ⟨?_, hs⟩
    simp only [List.foldl_cons, List.reverse_cons, List.append_assoc, List.singleton_append]
    exact hp.trans (List.Perm.append_left _ (bubbleIn_perm less x acc))

/-- Insertion sort meets the contract of `sort.Slice`. -/
theorem insertionSort_spec {α : Type} : SortSliceSpec (insertionSort (α := α)) := by
  intro less xs hasymm hneg
  obtain ⟨hp, hs⟩ := foldl_bubbleIn less hasymm hneg xs [] List.Pairwise.nil
  unfold insertionSort
  constructor
  · refine (List.reverse_perm _).trans (hp.trans ?_)
    rw [List.append_nil]
    exact List.reverse_perm xs
  · rw [List.pairwise_reverse]
    exact hs

/-- A returned token belongs to a surviving entry that no surviving entry
beats on (weight, priority). -/
theorem selectAlgorithm_result_entry (L : GoLib) (A : Algorithms) (header : String)
    (hsort : SortSliceSpec L.sortSlice) (t : String)
    (hret : (selectAlgorithm L A header).1 = t) (ht : t ≠ "") :
    ∃ e ∈ entries L header, e.encoding = t ∧
      (getEnabledAlgorithms A e.encoding).isSome = true ∧ 0 < e.q ∧
      ∀ x ∈ entries L header,
        (getEnabledAlgorithms A x.encoding).isSome = true → 0 < x.q →
          x.q ≤ e.q ∧
          (x.q = e.q → priorityOf (getEnabledAlgorithms A) x.encoding
            ≤ priorityOf (getEnabledAlgorithms A) e.encoding) := by
  have hs : survivors L A header ≠ [] := by
    intro h
    exact ht (hret ▸ selectAlgorithm_none_of_no_survivor L A header h)
  obtain ⟨e, he, hetok, hmax⟩ := selectAlgorithm_spec L A header hsort hs
  rw [mem_survivors] at he
  refine ⟨e, he.1, hetok.trans hret, he.2.1, he.2.2, ?_⟩
  intro x hx hxen hxq
  exact (less_eq_false_iff _ e x).mp (hmax x ((mem_survivors L A header x).mpr ⟨hx, hxen, hxq⟩))

/-! ## Lemmas: response encoder -/

theorem Header.Del_Del (h : Header) (key : String) :
    Header.Del (Header.Del h key) key = Header.Del h key := by
  simp [Header.Del, List.filter_filter]

theorem Codec.stream_append (K : Codec) (hist xs ys : List Bytes) :
    Codec.stream K hist (xs ++ ys) = Codec.stream K hist xs ++ Codec.stream K (hist ++ xs) ys := by
  induction xs generalizing hist with
  | nil => simp [Codec.stream]
  | cons x xs ih => simp [Codec.stream, ih, List.append_assoc]

theorem totalLength_cons (b : Bytes) (bs : List Bytes) :
    totalLength (b :: bs) = (b.length : Int) + totalLength bs := by
  simp [totalLength]

theorem totalLength_nonneg (bs : List Bytes) : 0 ≤ totalLength bs := by
  unfold totalLength
  omega

/-- One fault-free `Write` on a writer that is still buffering and stays
below the threshold. -/
theorem Write_buffer (K : Codec) (rw : respWriter) (b buffered : Bytes)
    (hbuf : rw.buf = some buffered)
    (hlt : (buffered.length : Int) + (b.length : Int) < rw.threshold) :
    ∃ rw1, rw.Write K b noFault = Except.ok (rw1, (b.length : Int), false) ∧
      rw1.buf = some (buffered ++ b) ∧ rw1.compressor = rw.compressor ∧
      rw1.threshold = rw.threshold ∧ rw1.algo = rw.algo ∧
      rw1.bytesWritten = rw.bytesWritten + b.length ∧
      rw1.ResponseWriter.body = rw.ResponseWriter.body ∧
      rw1.ResponseWriter.header = Header.Del rw.ResponseWriter.header "Content-Length" := by
  have hn : ¬ ((buffered.length : Int) + (b.length : Int) ≥ rw.threshold) := by omega
  simp [respWriter.Write, respWriter.route, hbuf, hn]

/-- One fault-free `Write` on a writer that is still buffering and reaches
the threshold: the compressor is taken from the pool and receives the
buffered bytes (when there are any) and then the chunk. -/
theorem Write_commit (K : Codec) (rw : respWriter) (b buffered : Bytes)
    (hbuf : rw.buf = some buffered)
    (hge : rw.threshold ≤ (buffered.length : Int) + (b.length : Int)) :
    ∃ rw1 w, rw.Write K b noFault = Except.ok (rw1, (b.length : Int), false) ∧
      rw1.buf = none ∧ rw1.compressor = some w ∧ w.c = false ∧ w.w.dst = Dest.sink ∧
      w.w.written = (if buffered.length = 0 then [] else [buffered]) ++ [b] ∧
      rw1.threshold = rw.threshold ∧
      rw1.algo = (rw.algo.getWriter).2 ∧
      rw1.bytesWritten = rw.bytesWritten + b.length ∧
      rw1.ResponseWriter.body = rw.ResponseWriter.body ++ Codec.stream K [] w.w.written ∧
      rw1.ResponseWriter.header = Header.Del rw.ResponseWriter.header "Content-Length" := by
  have hge' : (buffered.length : Int) + (b.length : Int) ≥ rw.threshold := hge
  by_cases he : buffered.length = 0
  · have hb : rw.threshold ≤ (b.length : Int) := by
      rw [he] at hge
      simpa using hge
    simp [respWriter.Write, respWriter.route, hbuf, hb, he, algorithm.getWriter,
      wrappedWriter.Write, resettableCompressor.Write, resettableCompressor.Reset,
      accepted, noFault, ResponseWriter.Write, Codec.stream]
  · simp [respWriter.Write, respWriter.route, hbuf, hge', he, algorithm.getWriter,
      wrappedWriter.Write, resettableCompressor.Write, resettableCompressor.Reset,
      accepted, noFault, ResponseWriter.Write, Codec.stream]

/-- One fault-free `Write` on a writer that has swapped to its compressor. -/
theorem Write_swapped (K : Codec) (rw : respWriter) (b : Bytes) (w : wrappedWriter)
    (hbuf : rw.buf = none) (hc : rw.compressor = some w) (hopen : w.c = false)
    (hdst : w.w.dst = Dest.sink) :
    ∃ rw1 w1, rw.Write K b noFault = Except.ok (rw1, (b.length : Int), false) ∧
      rw1.buf = none ∧ rw1.compressor = some w1 ∧ w1.c = false ∧ w1.w.dst = Dest.sink ∧
      w1.w.written = w.w.written ++ [b] ∧
      rw1.threshold = rw.threshold ∧ rw1.algo = rw.algo ∧
      rw1.bytesWritten = rw.bytesWritten + b.length ∧
      rw1.ResponseWriter.body = rw.ResponseWriter.body ++ K.onWrite w.w.written b ∧
      rw1.ResponseWriter.header = Header.Del rw.ResponseWriter.header "Content-Length" := by
  simp [respWriter.Write, respWriter.route, hbuf, hc, hopen, hdst,
    wrappedWriter.Write, resettableCompressor.Write, accepted, noFault, ResponseWriter.Write]

/-- Fault-free writes on a writer that has swapped: every chunk goes to the
compressor, in order, and the sink grows by what the compressor emits. -/
theorem writeAll_swapped (K : Codec) (chunks : List Bytes) :
    ∀ (rw : respWriter) (w : wrappedWriter), rw.buf = none → rw.compressor = some w →
      w.c = false → w.w.dst = Dest.sink →
      ∃ rw1 w1, rw.writeAll K chunks = Except.ok rw1 ∧
        rw1.buf = none ∧ rw1.compressor = some w1 ∧ w1.c = false ∧ w1.w.dst = Dest.sink ∧
        w1.w.written = w.w.written ++ chunks ∧
        rw1.threshold = rw.threshold ∧ rw1.algo = rw.algo ∧
        rw1.bytesWritten = rw.bytesWritten + totalLength chunks ∧
        rw1.ResponseWriter.body = rw.ResponseWriter.body ++ Codec.stream K w.w.written chunks ∧
        rw1.ResponseWriter.header =
          (if chunks = [] then rw.ResponseWriter.header
           else Header.Del rw.ResponseWriter.header "Content-Length") := by
  induction chunks with
  | nil =>
    intro rw w hbuf hc hopen hdst
    exact ⟨rw, w, rfl, hbuf, hc, hopen, hdst, by simp, rfl, rfl, by simp [totalLength],
      by simp [Codec.stream], by simp⟩
  | cons b bs ih =>
    intro rw w hbuf hc hopen hdst
    obtain ⟨rw1, w1, hw, hbuf1, hc1, hopen1, hdst1, hwr1, hthr1, halgo1, hcnt1, hbody1, hhdr1⟩ :=
      Write_swapped K rw b w hbuf hc hopen hdst
    obtain ⟨rw2, w2, hw2, hbuf2, hc2, hopen2, hdst2, hwr2, hthr2, halgo2, hcnt2, hbody2, hhdr2⟩ :=
      ih rw1 w1 hbuf1 hc1 hopen1 hdst1
    refine ⟨rw2, w2, ?_, hbuf2, hc2, hopen2, hdst2, ?_, hthr2.trans hthr1, halgo2.trans halgo1,
      ?_, ?_, ?_⟩
    · simp only [respWriter.writeAll, hw]
      exact hw2
    · rw [hwr2, hwr1]
      simp
    · rw [hcnt2, hcnt1, totalLength_cons]
      omega
    · rw [hbody2, hbody1, hwr1]
      simp [Codec.stream, List.append_assoc]
    · rw [hhdr2, hhdr1]
      by_cases hbs : bs = []
      · simp [hbs]
      · simp [hbs, Header.Del_Del]

/-- Fault-free writes on a writer that is buffering `buffered`: it keeps
buffering while the total stays below the threshold, and otherwise swaps at
the first chunk that reaches it, handing the compressor the buffered bytes,
that chunk and the later chunks. -/
theorem writeAll_buffering (K : Codec) (chunks : List Bytes) :
    ∀ (rw : respWriter) (buffered : Bytes), rw.buf = some buffered →
      ∃ rw1, rw.writeAll K chunks = Except.ok rw1 ∧
        rw1.threshold = rw.threshold ∧
        rw1.bytesWritten = rw.bytesWritten + totalLength chunks ∧
        rw1.ResponseWriter.header =
          (if chunks = [] then rw.ResponseWriter.header
           else Header.Del rw.ResponseWriter.header "Content-Length") ∧
        ((chunks = [] ∨ (buffered.length : Int) + totalLength chunks < rw.threshold) →
          rw1.buf = some (buffered ++ chunks.flatten) ∧ rw1.compressor = rw.compressor ∧
          rw1.algo = rw.algo ∧ rw1.ResponseWriter.body = rw.ResponseWriter.body) ∧
        (chunks ≠ [] → rw.threshold ≤ (buffered.length : Int) + totalLength chunks →
          rw1.buf = none ∧ rw1.algo = (rw.algo.getWriter).2 ∧
          ∃ w1 pre c post, rw1.compressor = some w1 ∧ w1.c = false ∧ w1.w.dst = Dest.sink ∧
            chunks = pre ++ c :: post ∧
            (pre ≠ [] → (buffered.length : Int) + totalLength pre < rw.threshold) ∧
            rw.threshold ≤ (buffered.length : Int) + totalLength pre + (c.length : Int) ∧
            w1.w.written =
              (if (buffered ++ pre.flatten).length = 0 then [] else [buffered ++ pre.flatten])
                ++ c :: post ∧
            rw1.ResponseWriter.body =
              rw.ResponseWriter.body ++ Codec.stream K [] w1.w.written) := by
  induction chunks with
  | nil =>
    intro rw buffered hbuf
    refine ⟨rw, rfl, rfl, by simp [totalLength], by simp, ?_, ?_⟩
    · intro _
      exact ⟨by simpa using hbuf, rfl, rfl, rfl⟩
    · intro h
      exact absurd rfl h
  | cons b bs ih =>
    intro rw buffered hbuf
    by_cases hlt : (buffered.length : Int) + (b.length : Int) < rw.threshold
    · obtain ⟨rw1, hw, hbuf1, hc1, hthr1, halgo1, hcnt1, hbody1, hhdr1⟩ :=
        Write_buffer K rw b buffered hbuf hlt
      obtain ⟨rw2, hw2, hthr2, hcnt2, hhdr2, hlow2, hhigh2⟩ := ih rw1 (buffered ++ b) hbuf1
      have hlen : (((buffered ++ b).length : Nat) : Int)
          = (buffered.length : Int) + (b.length : Int) := by
        simp
      refine ⟨rw2, ?_, hthr2.trans hthr1, ?_, ?_, ?_, ?_⟩
      · simp only [respWriter.writeAll, hw]
        exact hw2
      · rw [hcnt2, hcnt1, totalLength_cons]
        omega
      · rw [hhdr2, hhdr1]
        by_cases hbs : bs = []
        · simp [hbs]
        · simp [hbs, Header.Del_Del]
      · intro h
        have h' : bs = [] ∨ (((buffered ++ b).length : Nat) : Int) + totalLength bs
            < rw1.threshold := by
          rcases h with h | h
          · exact absurd h (by simp)
          · right
            rw [hlen, hthr1]
            rw [totalLength_cons] at h
            omega
        obtain ⟨h1, h2, h3, h4⟩ := hlow2 h'
        refine ⟨?_, h2.trans hc1, h3.trans halgo1, h4.trans hbody1⟩
        rw [h1]
        simp [List.append_assoc]
      · intro _ hge
        have hbs : bs ≠ [] := by
          intro hbs
          subst hbs
          simp [totalLength] at hge
          omega
        have hge' : rw1.threshold ≤ (((buffered ++ b).length : Nat) : Int) + totalLength bs := by
          rw [hlen, hthr1]
          rw [totalLength_cons] at hge
          omega
        obtain ⟨h1, h2, w1, pre, c, post, h3, h4, h5, h6, h7, h7b, h8, h9⟩ := hhigh2 hbs hge'
        refine ⟨h1, by rw [h2, halgo1], w1, b :: pre, c, post, h3, h4, h5, by simp [h6], ?_, ?_,
          ?_, ?_⟩
        · intro _
          rw [totalLength_cons]
          by_cases hpre : pre = []
          · subst hpre
            simp only [totalLength, List.flatten_nil, List.length_nil]
            omega
          · have := h7 hpre
            rw [hlen, hthr1] at this
            omega
        · rw [totalLength_cons]
          rw [hlen, hthr1] at h7b
          omega
        · rw [h8]
          simp [List.append_assoc]
        · rw [h9, hbody1]
    · have hge : rw.threshold ≤ (buffered.length : Int) + (b.length : Int) := by omega
      obtain ⟨rw1, w, hw, hbuf1, hc1, hopen1, hdst1, hwr1, hthr1, halgo1, hcnt1, hbody1, hhdr1⟩ :=
        Write_commit K rw b buffered hbuf hge
      obtain ⟨rw2, w2, hw2, hbuf2, hc2, hopen2, hdst2, hwr2, hthr2, halgo2, hcnt2, hbody2,
        hhdr2⟩ := writeAll_swapped K bs rw1 w hbuf1 hc1 hopen1 hdst1
      refine ⟨rw2, ?_, hthr2.trans hthr1, ?_, ?_, ?_, ?_⟩
      · simp only [respWriter.writeAll, hw]
        exact hw2
      · rw [hcnt2, hcnt1, totalLength_cons]
        omega
      · rw [hhdr2, hhdr1]
        by_cases hbs : bs = []
        · simp [hbs]
        · simp [hbs, Header.Del_Del]
      · intro h
        rcases h with h | h
        · exact absurd h (by simp)
        · rw [totalLength_cons] at h
          have := totalLength_nonneg bs
          omega
      · intro _ _
        refine ⟨hbuf2, halgo2.trans halgo1, w2, [], b, bs, hc2, hopen2, hdst2, by simp, ?_, ?_,
          ?_, ?_⟩
        · intro h
          exact absurd rfl h
        · simp only [totalLength, List.flatten_nil, List.length_nil]
          omega
        · rw [hwr2, hwr1]
          simp
        · rw [hbody2, hbody1, hwr2, Codec.stream_append, List.append_assoc]
          simp

/-- Fault-free `Close` of a writer that never swapped: the buffer is copied
to the response writer as it is. -/
theorem Close_buffering (K : Codec) (rw : respWriter) (buffered : Bytes)
    (hbuf : rw.buf = some buffered) :
    ∃ rw1, rw.Close K none = Except.ok (rw1, false) ∧
      rw1.Swapped = false ∧
      rw1.ResponseWriter.body = rw.ResponseWriter.body ++ buffered ∧
      rw1.ResponseWriter.header = rw.ResponseWriter.header ∧
      rw1.bytesWritten = rw.bytesWritten ∧ rw1.compressor = rw.compressor ∧
      rw1.algo = rw.algo := by
  by_cases he : buffered.length = 0
  · have hnil : buffered = [] := List.length_eq_zero.mp he
    simp [respWriter.Close, hbuf, hnil, respWriter.Swapped]
  · simp [respWriter.Close, hbuf, he, respWriter.Swapped, accepted, ResponseWriter.Write]

/-- Fault-free `Close` of a writer that swapped: the compressor is closed,
its trailer reaches the sink, and the compressor goes back to the pool,
reset to the discard sink. -/
theorem Close_swapped (K : Codec) (rw : respWriter) (w : wrappedWriter)
    (hbuf : rw.buf = none) (hc : rw.compressor = some w) (hopen : w.c = false)
    (hdst : w.w.dst = Dest.sink) :
    ∃ rw1, rw.Close K none = Except.ok (rw1, false) ∧
      rw1.Swapped = true ∧
      rw1.ResponseWriter.body = rw.ResponseWriter.body ++ K.onClose w.w.written ∧
      rw1.ResponseWriter.header = rw.ResponseWriter.header ∧
      rw1.bytesWritten = rw.bytesWritten ∧
      rw1.compressor = some { w := makeCompressor, c := true } ∧
      rw1.algo.compressorPool = poolPut rw.algo.compressorPool makeCompressor := by
  simp [respWriter.Close, hbuf, hc, hopen, hdst, wrappedWriter.Close,
    resettableCompressor.Close, resettableCompressor.Reset, accepted, ResponseWriter.Write,
    respWriter.Swapped, makeCompressor]

theorem storedCodec_stream (hist chunks : List Bytes) :
    Codec.stream storedCodec hist chunks = chunks.flatten := by
  induction chunks generalizing hist with
  | nil => rfl
  | cons c cs ih =>
    simp only [Codec.stream, List.flatten_cons, ih]
    rfl

theorem storedCodec_roundTrip : Codec.RoundTrip storedCodec := by
  intro chunks
  rw [Codec.compress, storedCodec_stream]
  simp [storedCodec]

/-! ## Lemmas: strings and headers -/

theorem split_ne_nil (sep : Char) (s : List Char) : split sep s ≠ [] := by
  induction s with
  | nil => simp [split]
  | cons c cs ih =>
    unfold split
    split
    · simp
    · split <;> simp

theorem split_no_sep (sep : Char) (s : List Char) : ∀ t ∈ split sep s, sep ∉ t := by
  induction s with
  | nil =>
    intro t ht
    simp [split] at ht
    subst ht
    simp
  | cons c cs ih =>
    intro t ht
    unfold split at ht
    by_cases hc : c = sep
    · rw [if_pos hc] at ht
      rcases List.mem_cons.mp ht with h | h
      · subst h
        simp
      · exact ih t h
    · rw [if_neg hc] at ht
      cases hs : split sep cs with
      | nil => exact absurd hs (split_ne_nil sep cs)
      | cons q qs =>
        rw [hs] at ht ih
        rcases List.mem_cons.mp ht with h | h
        · subst h
          intro hmem
          rcases List.mem_cons.mp hmem with h1 | h1
          · exact hc h1.symm
          · exact ih q (by simp) h1
        · exact ih t (by simp [h])

theorem split_subset (sep : Char) (s : List Char) : ∀ t ∈ split sep s, ∀ x ∈ t, x ∈ s := by
  induction s with
  | nil =>
    intro t ht x hx
    simp [split] at ht
    subst ht
    exact absurd hx (List.not_mem_nil x)
  | cons c cs ih =>
    intro t ht x hx
    unfold split at ht
    by_cases hc : c = sep
    · rw [if_pos hc] at ht
      rcases List.mem_cons.mp ht with h | h
      · subst h
        exact absurd hx (List.not_mem_nil x)
      · exact List.mem_cons_of_mem _ (ih t h x hx)
    · rw [if_neg hc] at ht
      cases hs : split sep cs with
      | nil => exact absurd hs (split_ne_nil sep cs)
      | cons q qs =>
        rw [hs] at ht ih
        rcases List.mem_cons.mp ht with h | h
        · subst h
          rcases List.mem_cons.mp hx with h1 | h1
          · subst h1
            simp
          · exact List.mem_cons_of_mem _ (ih q (by simp) x h1)
        · exact List.mem_cons_of_mem _ (ih t (by simp [h]) x hx)

theorem split_of_no_sep (sep : Char) (a : List Char) (h : sep ∉ a) : split sep a = [a] := by
  induction a with
  | nil => rfl
  | cons c cs ih =>
    have hc : ¬ c = sep := fun e => h (by simp [e])
    have hcs : sep ∉ cs := fun e => h (List.mem_cons_of_mem _ e)
    unfold split
    rw [if_neg hc, ih hcs]

theorem split_append_sep (sep : Char) (a rest : List Char) (h : sep ∉ a) :
    split sep (a ++ sep :: rest) = a :: split sep rest := by
  induction a with
  | nil => simp [split]
  | cons c cs ih =>
    have hc : ¬ c = sep := fun e => h (by simp [e])
    have hcs : sep ∉ cs := fun e => h (List.mem_cons_of_mem _ e)
    rw [List.cons_append, split, if_neg hc, ih hcs]

theorem removeSpaces_no_space (s : List Char) : ' ' ∉ removeSpaces s := by
  simp [removeSpaces, List.mem_filter]

theorem removeSpaces_of_no_space (a : List Char) (h : ' ' ∉ a) : removeSpaces a = a := by
  unfold removeSpaces
  rw [List.filter_eq_self]
  intro x hx
  have : x ≠ ' ' := fun e => h (e ▸ hx)
  simpa using this

theorem removeSpaces_append (a b : List Char) :
    removeSpaces (a ++ b) = removeSpaces a ++ removeSpaces b := by
  simp [removeSpaces]

/-- Joining tokens that contain neither a comma nor a space and splitting
the result gives the tokens back. -/
theorem split_joinChars (ts : List (List Char)) (hne : ts ≠ [])
    (hts : ∀ t ∈ ts, ',' ∉ t ∧ ' ' ∉ t) :
    split ',' (removeSpaces (joinChars ts)) = ts := by
  induction ts with
  | nil => exact absurd rfl hne
  | cons a rest ih =>
    have ha := hts a (by simp)
    cases rest with
    | nil =>
      simp only [joinChars]
      rw [removeSpaces_of_no_space a ha.2, split_of_no_sep ',' a ha.1]
    | cons b rest =>
      have ih' := ih (by simp) (fun t ht => hts t (List.mem_cons_of_mem _ ht))
      simp only [joinChars]
      rw [removeSpaces_append, removeSpaces_append, removeSpaces_of_no_space a ha.2]
      have hsep : removeSpaces [',', ' '] = [','] := by decide
      rw [hsep, List.append_assoc, List.singleton_append, split_append_sep ',' a _ ha.1, ih']

theorem lookup_Del (h : Header) (key k : String) :
    List.lookup k (Header.Del h key) = if k = key then none else List.lookup k h := by
  induction h with
  | nil => simp [Header.Del]
  | cons p ps ih =>
    obtain ⟨a, v⟩ := p
    unfold Header.Del at ih ⊢
    by_cases ha : a = key
    · subst ha
      by_cases hk : k = a
      · subst hk
        simpa [List.filter_cons] using ih
      · have hka : (k == a) = false := by simpa using hk
        simp only [List.filter_cons, bne_self_eq_false, Bool.false_eq_true, if_false, ih, hk,
          List.lookup_cons, hka]
    · have hne : (a != key) = true := by simpa using ha
      by_cases hk : k = a
      · subst hk
        simp [List.filter_cons, hne, ha, List.lookup_cons]
      · have hka : (k == a) = false := by simpa using hk
        simp only [List.filter_cons, hne, if_true, List.lookup_cons, hka, ih]

theorem lookup_append_of_none (h1 h2 : Header) (k : String) (hn : List.lookup k h1 = none) :
    List.lookup k (h1 ++ h2) = List.lookup k h2 := by
  induction h1 with
  | nil => rfl
  | cons p ps ih =>
    obtain ⟨a, v⟩ := p
    by_cases hk : (k == a) = true
    · simp [List.lookup_cons, hk] at hn
    · have hka : (k == a) = false := by simpa using hk
      simp only [List.lookup_cons, hka] at hn
      simp only [List.cons_append, List.lookup_cons, hka]
      exact ih hn

theorem lookup_append_of_some (h1 h2 : Header) (k : String) (v : List String)
    (hs : List.lookup k h1 = some v) : List.lookup k (h1 ++ h2) = some v := by
  induction h1 with
  | nil => simp at hs
  | cons p ps ih =>
    obtain ⟨a, w⟩ := p
    by_cases hk : (k == a) = true
    · simp only [List.lookup_cons, hk] at hs
      simp only [List.cons_append, List.lookup_cons, hk]
      exact hs
    · have hka : (k == a) = false := by simpa using hk
      simp only [List.lookup_cons, hka] at hs
      simp only [List.cons_append, List.lookup_cons, hka]
      exact ih hs

theorem lookup_Set (h : Header) (key value k : String) :
    List.lookup k (Header.Set h key value)
      = if k = key then some [value] else List.lookup k h := by
  unfold Header.Set
  by_cases hk : k = key
  · subst hk
    rw [lookup_append_of_none _ _ _ (by rw [lookup_Del]; simp)]
    simp [List.lookup_cons]
  · rw [if_neg hk]
    have hkb : (k == key) = false := by simpa using hk
    cases hl : List.lookup k h with
    | none =>
      rw [lookup_append_of_none _ _ _ (by rw [lookup_Del, if_neg hk]; exact hl)]
      simp [List.lookup_cons, hkb]
    | some v =>
      exact lookup_append_of_some _ _ _ _ (by rw [lookup_Del, if_neg hk]; exact hl)

theorem Get_Set (h : Header) (key value : String) :
    Header.Get (Header.Set h key value) key = value := by
  simp [Header.Get, lookup_Set]

theorem Get_Del (h : Header) (key : String) : Header.Get (Header.Del h key) key = "" := by
  simp [Header.Get, lookup_Del]

theorem Get_Set_ne (h : Header) (key value k : String) (hk : k ≠ key) :
    Header.Get (Header.Set h key value) k = Header.Get h k := by
  simp [Header.Get, lookup_Set, hk]

theorem Get_Del_ne (h : Header) (key k : String) (hk : k ≠ key) :
    Header.Get (Header.Del h key) k = Header.Get h k := by
  simp [Header.Get, lookup_Del, hk]

/-- The declared tokens contain neither a comma nor a space. -/
theorem declaredEncodings_clean (h : Header) :
    ∀ t ∈ declaredEncodings h, ',' ∉ t.data ∧ ' ' ∉ t.data := by
  intro t ht
  simp only [declaredEncodings, List.mem_map] at ht
  obtain ⟨l, hl, rfl⟩ := ht
  refine ⟨split_no_sep ',' _ l hl, ?_⟩
  intro hsp
  exact removeSpaces_no_space _ (split_subset ',' _ l hl ' ' hsp)

theorem declaredEncodings_ne_nil (h : Header) : declaredEncodings h ≠ [] := by
  simp [declaredEncodings, split_ne_nil]

/-- Rewriting `Content-Encoding` to a non-empty prefix of the declared tokens
declares exactly that prefix. -/
theorem declaredEncodings_Set (h h1 : Header) (m : Nat) (hm : 0 < m) :
    declaredEncodings
        (Header.Set h1 "Content-Encoding" (joinCommaSpace ((declaredEncodings h).take m)))
      = (declaredEncodings h).take m := by
  have hne : ((declaredEncodings h).take m).map String.data ≠ [] := by
    have := declaredEncodings_ne_nil h
    cases hd : declaredEncodings h with
    | nil => exact absurd hd this
    | cons a as =>
      cases m with
      | zero => exact absurd hm (by simp)
      | succ m => simp
  have hclean : ∀ t ∈ ((declaredEncodings h).take m).map String.data, ',' ∉ t ∧ ' ' ∉ t := by
    intro t ht
    rw [List.mem_map] at ht
    obtain ⟨x, hx, rfl⟩ := ht
    exact declaredEncodings_clean h x (List.mem_of_mem_take hx)
  have key : ∀ v : String, declaredEncodings (Header.Set h1 "Content-Encoding" v)
      = (split ',' (removeSpaces v.data)).map String.mk := by
    intro v
    simp [declaredEncodings, Get_Set]
  rw [key]
  simp only [joinCommaSpace]
  rw [split_joinChars _ hne hclean, List.map_map]
  have : (String.mk ∘ String.data) = id := by
    funext x
    rfl
  rw [this, List.map_id]

/-! ## Lemmas: request decoder -/

theorem take_succ_reverse (encodings : List String) (k : Nat) (hk : k < encodings.length) :
    (encodings.take (k + 1)).reverse = encodings.getD k "" :: (encodings.take k).reverse := by
  rw [List.take_succ, List.getD_eq_getElem?_getD, List.getElem?_eq_getElem hk]
  simp

theorem getReader_ok (D : DecodeLib) (enc : String) (w r : Reader)
    (h : getReader D enc w = Except.ok r) : r = Reader.decomp enc w := by
  unfold getReader at h
  split at h
  · injection h with h
    exact h.symm
  · exact absurd h (by simp)

/-- What the peeling loop returns: it peels
`min (steps left) (run of recognized tokens)` tokens from the end, and the
new readers are the layers for those tokens on the reader it started with. -/
theorem peel_spec (A : Algorithms) (D : DecodeLib) (encodings : List String)
    (maxDecodeSteps : Int) (body : Reader) :
    ∀ (k : Nat) (readers : List Reader), k ≤ encodings.length →
      ∀ (k1 : Nat) (readers1 : List Reader),
        peel A D encodings maxDecodeSteps body k readers = Except.ok (k1, readers1) →
        k1 = k - min (maxDecodeSteps - ((encodings.length : Int) - (k : Int))).toNat
                  (recognizedSuffix A (encodings.take k)) ∧
        readers1 = readers ++ layers ((readers.getLast?).getD body)
          ((encodings.take k).reverse.take
            (min (maxDecodeSteps - ((encodings.length : Int) - (k : Int))).toNat
              (recognizedSuffix A (encodings.take k)))) := by
  intro k
  induction k with
  | zero =>
    intro readers _ k1 readers1 h
    simp only [peel, Except.ok.injEq, Prod.mk.injEq] at h
    obtain ⟨h1, h2⟩ := h
    subst h1 h2
    simp [recognizedSuffix, layers]
  | succ k ih =>
    intro readers hk k1 readers1 h
    have hk' : k < encodings.length := hk
    have hrev := take_succ_reverse encodings k hk'
    unfold peel at h
    by_cases hcond : (k : Int) ≥ (encodings.length : Int) - maxDecodeSteps
    · rw [if_pos hcond] at h
      simp only at h
      cases hget : A.get (encodings.getD k "") with
      | none =>
        rw [hget] at h
        simp only [Except.ok.injEq, Prod.mk.injEq] at h
        obtain ⟨h1, h2⟩ := h
        subst h1 h2
        have hrun : recognizedSuffix A (encodings.take (k + 1)) = 0 := by
          unfold recognizedSuffix
          rw [hrev, List.takeWhile_cons_of_neg (by rw [hget]; simp)]
          rfl
        rw [hrun]
        simp [layers]
      | some cfg =>
        rw [hget] at h
        simp only at h
        cases hr : getReader D (encodings.getD k "") ((readers.getLast?).getD body) with
        | error e =>
          rw [hr] at h
          exact absurd h (by simp)
        | ok r =>
          rw [hr] at h
          simp only at h
          have hrd := getReader_ok D _ _ _ hr
          obtain ⟨h1, h2⟩ := ih (readers ++ [r]) (Nat.le_of_lt hk') k1 readers1 h
          have hrun : recognizedSuffix A (encodings.take (k + 1))
              = recognizedSuffix A (encodings.take k) + 1 := by
            unfold recognizedSuffix
            rw [hrev, List.takeWhile_cons_of_pos (by rw [hget]; rfl)]
            rfl
          have hbud : (maxDecodeSteps - ((encodings.length : Int) - ((k + 1 : Nat) : Int))).toNat
              = (maxDecodeSteps - ((encodings.length : Int) - (k : Int))).toNat + 1 := by
            push_cast
            omega
          rw [hrun, hbud, Nat.succ_min_succ]
          constructor
          · rw [h1]
            omega
          · rw [h2, hrev, List.take_succ_cons]
            subst hrd
            simp [layers]
    · rw [if_neg hcond] at h
      simp only [Except.ok.injEq, Prod.mk.injEq] at h
      obtain ⟨h1, h2⟩ := h
      subst h1 h2
      have hbud : (maxDecodeSteps - ((encodings.length : Int) - ((k + 1 : Nat) : Int))).toNat
          = 0 := by
        push_cast
        omega
      rw [hbud]
      simp [layers]

/-- The peeling loop returns when every decompressor can be built. -/
theorem peel_total (A : Algorithms) (D : DecodeLib) (encodings : List String)
    (maxDecodeSteps : Int) (body : Reader) (hopen : ∀ enc src, D.opens enc src = true) :
    ∀ (k : Nat) (readers : List Reader),
      ∃ res, peel A D encodings maxDecodeSteps body k readers = Except.ok res := by
  intro k
  induction k with
  | zero =>
    intro readers
    exact ⟨_, rfl⟩
  | succ k ih =>
    intro readers
    unfold peel
    by_cases hcond : (k : Int) ≥ (encodings.length : Int) - maxDecodeSteps
    · rw [if_pos hcond]
      simp only
      cases hget : A.get (encodings.getD k "") with
      | none => exact ⟨_, rfl⟩
      | some cfg =>
        simp only [getReader, hopen, if_true]
        exact ih _
    · rw [if_neg hcond]
      exact ⟨_, rfl⟩

theorem layers_length (body : Reader) (toks : List String) :
    (layers body toks).length = toks.length := by
  induction toks generalizing body with
  | nil => rfl
  | cons t ts ih => simp [layers, ih]

theorem recognizedSuffix_le (A : Algorithms) (encodings : List String) :
    recognizedSuffix A encodings ≤ encodings.length := by
  unfold recognizedSuffix
  calc (encodings.reverse.takeWhile (fun e => (A.get e).isSome)).length
      ≤ encodings.reverse.length := (List.takeWhile_sublist _).length_le
    _ = encodings.length := List.length_reverse encodings

theorem decompressRequest_inactive (A : Algorithms) (D : DecodeLib) (cfg : compressOptions)
    (c : Request) (h : cfg.skipDecompressRequest = true ∨ c.Body.reader = none) :
    decompressRequest A D cfg c = Except.ok (c, none, false) := by
  unfold decompressRequest
  rcases h with h | h
  · simp [h]
  · by_cases hs : cfg.skipDecompressRequest = true
    · simp [hs]
    · simp [hs, h]

/-- The function `decompressRequest` returns when every decompressor can be built. -/
theorem decompressRequest_total (A : Algorithms) (D : DecodeLib) (cfg : compressOptions)
    (c : Request) (hopen : ∀ enc src, D.opens enc src = true) :
    ∃ res, decompressRequest A D cfg c = Except.ok res := by
  unfold decompressRequest
  by_cases hs : cfg.skipDecompressRequest = true
  · exact ⟨_, by rw [if_pos hs]⟩
  · rw [if_neg hs]
    cases hb : c.Body.reader with
    | none => exact ⟨_, rfl⟩
    | some body =>
      simp only
      by_cases hl : (declaredEncodings c.Header).length = 0
      · exact ⟨_, by rw [if_pos hl]⟩
      · rw [if_neg hl]
        obtain ⟨⟨k, readers⟩, hp⟩ := peel_total A D (declaredEncodings c.Header)
          cfg.maxDecodeSteps body hopen (declaredEncodings c.Header).length []
        rw [hp]
        simp only
        by_cases hr : readers.length = 0
        · exact ⟨_, by rw [if_pos hr]⟩
        · exact ⟨_, by rw [if_neg hr]⟩

/-- What `decompressRequest` returns on a request with a body when
decompression is not switched off. -/
theorem decompressRequest_ok (A : Algorithms) (D : DecodeLib) (cfg : compressOptions)
    (c : Request) (body : Reader) (hskip : cfg.skipDecompressRequest = false)
    (hbody : c.Body.reader = some body) (c1 : Request) (closer : Option compressedBodyReader)
    (err : Bool) (h : decompressRequest A D cfg c = Except.ok (c1, closer, err)) :
    err = false ∧
    (min cfg.maxDecodeSteps.toNat (recognizedSuffix A (declaredEncodings c.Header)) = 0 →
      c1 = c ∧ closer = none) ∧
    (0 < min cfg.maxDecodeSteps.toNat (recognizedSuffix A (declaredEncodings c.Header)) →
      closer = some (compressedBodyReader.mk (layers body
        ((declaredEncodings c.Header).reverse.take
          (min cfg.maxDecodeSteps.toNat (recognizedSuffix A (declaredEncodings c.Header)))))) ∧
      c1.Body = RequestBody.composed (compressedBodyReader.mk (layers body
        ((declaredEncodings c.Header).reverse.take
          (min cfg.maxDecodeSteps.toNat (recognizedSuffix A (declaredEncodings c.Header)))))) ∧
      c1.Header =
        (if (declaredEncodings c.Header).length
            - min cfg.maxDecodeSteps.toNat (recognizedSuffix A (declaredEncodings c.Header)) = 0
         then Header.Del (Header.Del c.Header "Content-Length") "Content-Encoding"
         else Header.Set (Header.Del c.Header "Content-Length") "Content-Encoding"
           (joinCommaSpace ((declaredEncodings c.Header).take
             ((declaredEncodings c.Header).length
               - min cfg.maxDecodeSteps.toNat
                   (recognizedSuffix A (declaredEncodings c.Header))))))) := by
  have hle := recognizedSuffix_le A (declaredEncodings c.Header)
  unfold decompressRequest at h
  rw [if_neg (by simp [hskip]), hbody] at h
  simp only at h
  rw [if_neg (by simpa using declaredEncodings_ne_nil c.Header)] at h
  cases hp : peel A D (declaredEncodings c.Header) cfg.maxDecodeSteps body
      (declaredEncodings c.Header).length [] with
  | error e =>
    rw [hp] at h
    exact absurd h (by simp)
  | ok res =>
    obtain ⟨k, readers⟩ := res
    rw [hp] at h
    simp only at h
    obtain ⟨hk, hreaders⟩ := peel_spec A D (declaredEncodings c.Header) cfg.maxDecodeSteps
      body (declaredEncodings c.Header).length [] (le_refl _) k readers hp
    simp only [sub_self, sub_zero, List.take_length, List.nil_append, List.getLast?_nil,
      Option.getD_none] at hk hreaders
    have hlen : readers.length
        = min cfg.maxDecodeSteps.toNat (recognizedSuffix A (declaredEncodings c.Header)) := by
      rw [hreaders, layers_length, List.length_take, List.length_reverse]
      omega
    by_cases hz : readers.length = 0
    · rw [if_pos hz] at h
      simp only [Except.ok.injEq, Prod.mk.injEq] at h
      obtain ⟨h1, h2, h3⟩ := h
      refine ⟨h3.symm, fun _ => ⟨h1.symm, h2.symm⟩, fun hpos => ?_⟩
      omega
    · rw [if_neg hz] at h
      simp only [Except.ok.injEq, Prod.mk.injEq] at h
      obtain ⟨h1, h2, h3⟩ := h
      refine ⟨h3.symm, fun hzero => ?_, fun _ => ?_⟩
      · omega
      · subst h1 h2
        refine ⟨by rw [hreaders], by rw [hreaders], ?_⟩
        simp only [hk]

theorem recognizedSuffix_all (A : Algorithms) (encodings : List String)
    (h : ∀ t ∈ encodings, (A.get t).isSome = true) :
    recognizedSuffix A encodings = encodings.length := by
  unfold recognizedSuffix
  rw [List.takeWhile_eq_self_iff.mpr (fun x hx => h x (List.mem_reverse.mp hx)),
    List.length_reverse]

/-- The token after the recognized suffix is not recognized. -/
theorem recognizedSuffix_stop (A : Algorithms) (encodings : List String)
    (h : recognizedSuffix A encodings < encodings.length) :
    (A.get (encodings.getD (encodings.length - 1 - recognizedSuffix A encodings) "")).isSome
      = false := by
  have key : ∀ (l : List String),
      (l.takeWhile (fun e => (A.get e).isSome)).length < l.length →
      (A.get (l.getD (l.takeWhile (fun e => (A.get e).isSome)).length "")).isSome = false := by
    intro l
    induction l with
    | nil => intro hl; simp at hl
    | cons a as ih =>
      intro hl
      by_cases ha : (A.get a).isSome = true
      · rw [List.takeWhile_cons] at hl ⊢
        simp only [ha, if_true, List.length_cons, Nat.add_lt_add_iff_right] at hl ⊢
        simpa using ih hl
      · rw [List.takeWhile_cons]
        simp only [ha, Bool.false_eq_true, if_false]
        simpa using ha
  have hrev := key encodings.reverse (by simpa [recognizedSuffix] using h)
  unfold recognizedSuffix at h ⊢
  rw [List.getD_eq_getElem?_getD] at hrev ⊢
  rw [List.getElem?_reverse (by simpa using h)] at hrev
  exact hrev

/-- Layer `j` is the decompressor of token `j` on layer `j - 1`, or on the
body when `j = 0`. -/
theorem layers_getElem (toks : List String) :
    ∀ (body : Reader) (j : Nat), j < toks.length →
      (layers body toks)[j]? = some (Reader.decomp (toks.getD j "")
        (if j = 0 then body else (layers body toks).getD (j - 1) body)) := by
  induction toks with
  | nil => intro body j hj; simp at hj
  | cons t ts ih =>
    intro body j hj
    cases j with
    | zero => simp [layers]
    | succ j =>
      have hj' : j < ts.length := by simpa using hj
      have := ih (Reader.decomp t body) j hj'
      simp only [layers, List.getElem?_cons_succ, this]
      cases j with
      | zero => simp
      | succ j =>
        have hlt : j < (layers (Reader.decomp t body) ts).length := by
          rw [layers_length]
          omega
        simp [List.getElem?_eq_getElem hlt]

/-- The last layer is the composition of all decompressors on the body. -/
theorem layers_getLast (toks : List String) :
    ∀ (body : Reader), toks ≠ [] →
      (layers body toks).getLast? = some (toks.foldl (fun r t => Reader.decomp t r) body) := by
  induction toks with
  | nil => intro body h; exact absurd rfl h
  | cons t ts ih =>
    intro body _
    cases ts with
    | nil => simp [layers]
    | cons u us =>
      have := ih (Reader.decomp t body) (by simp)
      simp only [layers] at this ⊢
      rw [List.getLast?_cons_cons]
      exact this

theorem content_foldl_congr (D : DecodeLib) (toks : List String) :
    ∀ (r r1 : Reader), Reader.content D r = Reader.content D r1 →
      Reader.content D (toks.foldl (fun r t => Reader.decomp t r) r)
        = Reader.content D (toks.foldl (fun r t => Reader.decomp t r) r1) := by
  induction toks with
  | nil => intro r r1 h; exact h
  | cons t ts ih =>
    intro r r1 h
    simp only [List.foldl_cons]
    apply ih
    simp only [Reader.content, h]

/-- Undoing the declared encodings from the last to the first gives the
payload back, for codecs with the round-trip property. -/
theorem content_encodeAll (D : DecodeLib) (compress : String → Bytes → Bytes)
    (hrt : ∀ t x, D.decompress t (compress t x) = some x) (encodings : List String)
    (payload : Bytes) :
    Reader.content D (encodings.reverse.foldl (fun r t => Reader.decomp t r)
      (Reader.raw (encodeAll compress encodings payload))) = some payload := by
  induction encodings using List.reverseRecOn with
  | nil => simp [encodeAll, Reader.content]
  | append_singleton init t ih =>
    rw [List.reverse_append, List.reverse_singleton, List.singleton_append, List.foldl_cons]
    rw [content_foldl_congr D init.reverse _ (Reader.raw (encodeAll compress init payload))]
    · exact ih
    · simp [Reader.content, encodeAll, List.foldl_append, hrt]

/-- The two outcomes of a returning `decompressRequest`: nothing was done, or
`p >= 1` layers were peeled, `p` being the smaller of the step limit and the
length of the recognized suffix. -/
theorem decompressRequest_cases (A : Algorithms) (D : DecodeLib) (cfg : compressOptions)
    (c c1 : Request) (closer : Option compressedBodyReader) (err : Bool)
    (h : decompressRequest A D cfg c = Except.ok (c1, closer, err)) :
    err = false ∧
    ((c1 = c ∧ closer = none ∧
        (cfg.skipDecompressRequest = false → c.Body.reader ≠ none →
          min cfg.maxDecodeSteps.toNat (recognizedSuffix A (declaredEncodings c.Header)) = 0)) ∨
     (∃ body p, cfg.skipDecompressRequest = false ∧ c.Body.reader = some body ∧
        p = min cfg.maxDecodeSteps.toNat (recognizedSuffix A (declaredEncodings c.Header)) ∧
        0 < p ∧ p ≤ (declaredEncodings c.Header).length ∧
        closer = some (compressedBodyReader.mk
          (layers body ((declaredEncodings c.Header).reverse.take p))) ∧
        c1.Body = RequestBody.composed (compressedBodyReader.mk
          (layers body ((declaredEncodings c.Header).reverse.take p))) ∧
        c1.Header =
          (if (declaredEncodings c.Header).length - p = 0
           then Header.Del (Header.Del c.Header "Content-Length") "Content-Encoding"
           else Header.Set (Header.Del c.Header "Content-Length") "Content-Encoding"
             (joinCommaSpace ((declaredEncodings c.Header).take
               ((declaredEncodings c.Header).length - p)))))) := by
  by_cases hs : cfg.skipDecompressRequest = true
  · rw [decompressRequest_inactive A D cfg c (Or.inl hs)] at h
    simp only [Except.ok.injEq, Prod.mk.injEq] at h
    exact ⟨h.2.2.symm, Or.inl ⟨h.1.symm, h.2.1.symm, fun h1 => absurd hs (by simp [h1])⟩⟩
  · have hs' : cfg.skipDecompressRequest = false := by simpa using hs
    cases hb : c.Body.reader with
    | none =>
      rw [decompressRequest_inactive A D cfg c (Or.inr hb)] at h
      simp only [Except.ok.injEq, Prod.mk.injEq] at h
      exact ⟨h.2.2.symm, Or.inl ⟨h.1.symm, h.2.1.symm, fun _ h2 => absurd rfl h2⟩⟩
    | some body =>
      obtain ⟨herr, hzero, hpos⟩ := decompressRequest_ok A D cfg c body hs' hb c1 closer err h
      refine ⟨herr, ?_⟩
      by_cases hp : min cfg.maxDecodeSteps.toNat
          (recognizedSuffix A (declaredEncodings c.Header)) = 0
      · obtain ⟨h1, h2⟩ := hzero hp
        exact Or.inl ⟨h1, h2, fun _ _ => hp⟩
      · have hp' : 0 < min cfg.maxDecodeSteps.toNat
            (recognizedSuffix A (declaredEncodings c.Header)) := Nat.pos_of_ne_zero hp
        obtain ⟨h1, h2, h3⟩ := hpos hp'
        have hle := recognizedSuffix_le A (declaredEncodings c.Header)
        exact Or.inr ⟨body, _, hs', rfl, rfl, hp', by omega, h1, h2, h3⟩

theorem decompressRequest_error (A : Algorithms) (D : DecodeLib) (cfg : compressOptions)
    (c : Request) (e : String) (h : decompressRequest A D cfg c = Except.error e) :
    ∃ enc src, D.opens enc src = false := by
  by_contra hc
  have hopen : ∀ enc src, D.opens enc src = true := by
    intro enc src
    cases ho : D.opens enc src
    · exact absurd ⟨enc, src, ho⟩ hc
    · rfl
  obtain ⟨res, hres⟩ := decompressRequest_total A D cfg c hopen
  rw [hres] at h
  exact absurd h (by simp)

/-! ## Lemmas: middleware -/

theorem lookup_ginHeader (h : Header) (key value k : String) (hk : k ≠ key) :
    List.lookup k (ginHeader h key value) = List.lookup k h := by
  unfold ginHeader
  split
  · rw [lookup_Del, if_neg hk]
  · rw [lookup_Set, if_neg hk]

theorem foldl_Write (chunks : List Bytes) :
    ∀ w : ResponseWriter,
      (chunks.foldl ResponseWriter.Write w).body = w.body ++ chunks.flatten ∧
      (chunks.foldl ResponseWriter.Write w).header = w.header := by
  induction chunks with
  | nil => intro w; simp
  | cons b bs ih =>
    intro w
    obtain ⟨h1, h2⟩ := ih (w.Write b)
    simp only [List.foldl_cons, h1, h2, List.flatten_cons]
    simp [ResponseWriter.Write]

/-- The response encoder on a new writer, fed the producer's chunks and
closed without a fault: it always returns; below the threshold it passes the
bytes through unchanged, and otherwise it has swapped. -/
theorem encoder_run (K : Codec) (w : ResponseWriter) (threshold : Int) (algo : algorithm)
    (chunks : List Bytes) :
    ∃ rw1 rw2 err, (newResponseWriter w threshold algo).writeAll K chunks = Except.ok rw1 ∧
      rw1.Close K none = Except.ok (rw2, err) ∧
      ((chunks = [] ∨ totalLength chunks < threshold) →
        rw2.Swapped = false ∧ rw2.ResponseWriter.body = w.body ++ chunks.flatten) ∧
      ((chunks ≠ [] ∧ threshold ≤ totalLength chunks) → rw2.Swapped = true) ∧
      (∀ k, k ≠ "Content-Length" →
        List.lookup k rw2.ResponseWriter.header = List.lookup k w.header) := by
  obtain ⟨rw1, hw, _, _, hhdr, hlow, hhigh⟩ :=
    writeAll_buffering K chunks (newResponseWriter w threshold algo) [] rfl
  have hthr : (newResponseWriter w threshold algo).threshold = threshold := rfl
  have hbody : (newResponseWriter w threshold algo).ResponseWriter.body = w.body := rfl
  have hhead : (newResponseWriter w threshold algo).ResponseWriter.header = w.header := rfl
  rw [hthr, hbody] at hlow hhigh
  rw [hhead] at hhdr
  simp only [List.length_nil, Nat.cast_zero, zero_add, List.nil_append] at hlow hhigh
  have hlook : ∀ k, k ≠ "Content-Length" →
      List.lookup k rw1.ResponseWriter.header = List.lookup k w.header := by
    intro k hk
    rw [hhdr]
    split
    · rfl
    · rw [lookup_Del, if_neg hk]
  by_cases hl : chunks = [] ∨ totalLength chunks < threshold
  · obtain ⟨hbuf, _, _, hb⟩ := hlow hl
    obtain ⟨rw2, hcl, hsw, hb2, hh2, _⟩ := Close_buffering K rw1 chunks.flatten hbuf
    refine ⟨rw1, rw2, false, hw, hcl, fun _ => ⟨hsw, by rw [hb2, hb]⟩, ?_, ?_⟩
    · intro hh
      rcases hl with h | h
      · exact absurd h hh.1
      · omega
    · intro k hk
      rw [hh2]
      exact hlook k hk
  · have hne : chunks ≠ [] := fun h => hl (Or.inl h)
    have hge : threshold ≤ totalLength chunks := by
      by_contra h
      exact hl (Or.inr (by omega))
    obtain ⟨hbuf, _, ww, _, _, _, hc, hopen, hdst, _⟩ := hhigh hne hge
    obtain ⟨rw2, hcl, hsw, _, hh2, _⟩ := Close_swapped K rw1 ww hbuf hc hopen hdst
    refine ⟨rw1, rw2, false, hw, hcl, fun h => absurd h hl, fun _ => hsw, ?_⟩
    intro k hk
    rw [hh2]
    exact hlook k hk

/-! ## Theorems: negotiation -/

/-- C1: whenever `selectAlgorithm` returns a token `t` (a non-empty result),
`t` is the token of a surviving entry of the declaration (token enabled,
weight `> 0`), and every surviving entry has a weight that is not larger and,
at equal weight, a priority that is not larger. -/
theorem selectAlgorithm_returns_greatest (L : GoLib) (A : Algorithms) (header : String)
    (hsort : SortSliceSpec L.sortSlice) (t : String)
    (hret : (selectAlgorithm L A header).1 = t) (ht : t ≠ "") :
    ∃ e ∈ entries L header, e.encoding = t ∧
      (getEnabledAlgorithms A e.encoding).isSome = true ∧ 0 < e.q ∧
      ∀ x ∈ entries L header,
        (getEnabledAlgorithms A x.encoding).isSome = true → 0 < x.q →
          x.q ≤ e.q ∧
          (x.q = e.q → priorityOf (getEnabledAlgorithms A) x.encoding
            ≤ priorityOf (getEnabledAlgorithms A) e.encoding) :=
  selectAlgorithm_result_entry L A header hsort t hret ht

/-- C1, witness: `br;q=0.5, gzip;q=0.7, deflate;q=0.3` with the default
configuration yields `gzip`, the entry of greatest weight. -/
theorem selectAlgorithm_returns_greatest_witness :
    (selectAlgorithm goLib defaultAlgorithms "br;q=0.5, gzip;q=0.7, deflate;q=0.3").1 = "gzip" ∧
    ∃ e ∈ entries goLib "br;q=0.5, gzip;q=0.7, deflate;q=0.3", e.encoding = "gzip" ∧
      (getEnabledAlgorithms defaultAlgorithms e.encoding).isSome = true ∧ 0 < e.q ∧
      ∀ x ∈ entries goLib "br;q=0.5, gzip;q=0.7, deflate;q=0.3",
        (getEnabledAlgorithms defaultAlgorithms x.encoding).isSome = true → 0 < x.q →
          x.q ≤ e.q ∧
          (x.q = e.q → priorityOf (getEnabledAlgorithms defaultAlgorithms) x.encoding
            ≤ priorityOf (getEnabledAlgorithms defaultAlgorithms) e.encoding) :=
  ⟨by decide,
   selectAlgorithm_returns_greatest goLib defaultAlgorithms
     "br;q=0.5, gzip;q=0.7, deflate;q=0.3" insertionSort_spec "gzip" (by decide) (by decide)⟩

/-- C2, as stated, fails: in `gzip;q=0.5, br;q=0.5, gzip` the enabled tokens
`gzip` (priority 300) and `br` (priority 400) are listed with the same weight
500, and the result is the lower-priority token `gzip`, which the declaration
lists a second time with the default weight 1000. -/
theorem selectAlgorithm_tie_counterexample :
    ({ encoding := "gzip", q := 500 } : acceptableEncoding)
        ∈ entries goLib "gzip;q=0.5, br;q=0.5, gzip" ∧
    ({ encoding := "br", q := 500 } : acceptableEncoding)
        ∈ entries goLib "gzip;q=0.5, br;q=0.5, gzip" ∧
    (getEnabledAlgorithms defaultAlgorithms "gzip").isSome = true ∧
    (getEnabledAlgorithms defaultAlgorithms "br").isSome = true ∧
    priorityOf (getEnabledAlgorithms defaultAlgorithms) "gzip"
      < priorityOf (getEnabledAlgorithms defaultAlgorithms) "br" ∧
    (selectAlgorithm goLib defaultAlgorithms "gzip;q=0.5, br;q=0.5, gzip").1 = "gzip" := by
  decide

/-- C2, amended: when two entries with enabled tokens have the same weight
and the token of the first has the lower priority, that token is not the
result, provided the declaration lists it in no other entry with a larger
weight (for instance when every token is listed once). -/
theorem selectAlgorithm_tie_higher_priority (L : GoLib) (A : Algorithms) (header : String)
    (hsort : SortSliceSpec L.sortSlice) (a b : acceptableEncoding)
    (_ha : a ∈ entries L header) (hb : b ∈ entries L header)
    (hena : (getEnabledAlgorithms A a.encoding).isSome = true)
    (henb : (getEnabledAlgorithms A b.encoding).isSome = true)
    (hq : a.q = b.q)
    (hprio : priorityOf (getEnabledAlgorithms A) a.encoding
      < priorityOf (getEnabledAlgorithms A) b.encoding)
    (honly : ∀ x ∈ entries L header, x.encoding = a.encoding → x.q ≤ a.q) :
    (selectAlgorithm L A header).1 ≠ a.encoding := by
  intro hret
  have hne : a.encoding ≠ "" := enabled_ne_empty A a.encoding hena
  obtain ⟨e, he, hetok, _, heq, hmax⟩ :=
    selectAlgorithm_result_entry L A header hsort a.encoding hret hne
  have h1 : e.q ≤ a.q := honly e he hetok
  have hbq : 0 < b.q := by omega
  obtain ⟨h2, h3⟩ := hmax b hb henb hbq
  have h4 := h3 (by omega)
  rw [hetok] at h4
  omega

/-- C2, witness: `gzip, zstd, br` without weights and with the default
priorities zstd=100, deflate=200, gzip=300, br=400 yields `br`; `gzip` and
`br` tie on the weight and `gzip` is not the result. -/
theorem selectAlgorithm_tie_higher_priority_witness :
    (selectAlgorithm goLib defaultAlgorithms "gzip, zstd, br").1 = "br" ∧
    (selectAlgorithm goLib defaultAlgorithms "gzip, zstd, br").1 ≠ "gzip" :=
  ⟨by decide,
   selectAlgorithm_tie_higher_priority goLib defaultAlgorithms "gzip, zstd, br"
     insertionSort_spec { encoding := "gzip", q := 1000 } { encoding := "br", q := 1000 }
     (by decide) (by decide) (by decide) (by decide) (by decide) (by decide) (by decide)⟩

/-- C3, as stated, fails: `gzip;q=0, gzip` lists `gzip` with weight 0 and the
result is `gzip`, through the second entry. -/
theorem selectAlgorithm_zero_weight_counterexample :
    ({ encoding := "gzip", q := 0 } : acceptableEncoding) ∈ entries goLib "gzip;q=0, gzip" ∧
    (selectAlgorithm goLib defaultAlgorithms "gzip;q=0, gzip").1 = "gzip" := by
  decide

/-- C3, amended: a token `t` that the declaration lists with weight 0, and
in no entry with a positive weight, is never returned, whatever its priority
and whatever the entries of the other tokens are. -/
theorem selectAlgorithm_zero_weight_excluded (L : GoLib) (A : Algorithms) (header : String)
    (hsort : SortSliceSpec L.sortSlice) (t : String) (ht : t ≠ "")
    (_hlisted : ∃ e ∈ entries L header, e.encoding = t ∧ e.q = 0)
    (hall : ∀ e ∈ entries L header, e.encoding = t → e.q ≤ 0) :
    (selectAlgorithm L A header).1 ≠ t := by
  intro hret
  obtain ⟨e, he, hetok, _, heq, _⟩ :=
    selectAlgorithm_result_entry L A header hsort t hret ht
  have := hall e he hetok
  omega

/-- C3, witness: in `br;q=0, gzip` the token `br` has the highest priority
and weight 0; the result is `gzip`, not `br`. -/
theorem selectAlgorithm_zero_weight_excluded_witness :
    (selectAlgorithm goLib defaultAlgorithms "br;q=0, gzip").1 = "gzip" ∧
    (selectAlgorithm goLib defaultAlgorithms "br;q=0, gzip").1 ≠ "br" :=
  ⟨by decide,
   selectAlgorithm_zero_weight_excluded goLib defaultAlgorithms "br;q=0, gzip"
     insertionSort_spec "br" (by decide) (by decide) (by decide)⟩

/-- C4: `selectAlgorithm` returns none (the empty string) if and only if no
entry of the declaration survives the filter, that is every entry has a token
that is not enabled or a weight that is not positive; an empty declaration
gives none; in every other case the result is the token of a surviving entry.
Weights are integers on the scale 0..1000: when no entry has a negative
weight, an entry is discarded for its weight exactly when the weight is 0. -/
theorem selectAlgorithm_none_iff (L : GoLib) (A : Algorithms) (header : String)
    (hsort : SortSliceSpec L.sortSlice) :
    ((selectAlgorithm L A header).1 = "" ↔
      ∀ e ∈ entries L header,
        (getEnabledAlgorithms A e.encoding).isSome = false ∨ e.q ≤ 0) ∧
    ((∀ e ∈ entries L header, 0 ≤ e.q) →
      ((selectAlgorithm L A header).1 = "" ↔
        ∀ e ∈ entries L header,
          (getEnabledAlgorithms A e.encoding).isSome = false ∨ e.q = 0)) ∧
    (normalize L header = [] → (selectAlgorithm L A header).1 = "") ∧
    ((selectAlgorithm L A header).1 ≠ "" →
      ∃ e ∈ entries L header, e.encoding = (selectAlgorithm L A header).1 ∧
        (getEnabledAlgorithms A e.encoding).isSome = true ∧ 0 < e.q) := by
  have key : (selectAlgorithm L A header).1 = "" ↔
      ∀ e ∈ entries L header,
        (getEnabledAlgorithms A e.encoding).isSome = false ∨ e.q ≤ 0 := by
    constructor
    · intro hnone e he
      by_contra hc
      have hen : (getEnabledAlgorithms A e.encoding).isSome = true := by
        cases h : (getEnabledAlgorithms A e.encoding).isSome
        · exact absurd (Or.inl h) hc
        · rfl
      have hq : 0 < e.q := by
        by_contra h
        exact hc (Or.inr (by omega))
      have hs : survivors L A header ≠ [] := by
        intro h
        have hm := (mem_survivors L A header e).mpr ⟨he, hen, hq⟩
        rw [h] at hm
        exact absurd hm (List.not_mem_nil e)
      obtain ⟨x, hx, hxtok, _⟩ := selectAlgorithm_spec L A header hsort hs
      rw [mem_survivors] at hx
      exact enabled_ne_empty A x.encoding hx.2.1 (hxtok.trans hnone)
    · intro hall
      apply selectAlgorithm_none_of_no_survivor
      rw [List.eq_nil_iff_forall_not_mem]
      intro e he
      rw [mem_survivors] at he
      rcases hall e he.1 with h | h
      · rw [he.2.1] at h
        exact absurd h (by simp)
      · omega
  refine ⟨key, ?_, ?_, ?_⟩
  · intro hnn
    rw [key]
    constructor
    · intro h e he
      rcases h e he with h1 | h1
      · exact Or.inl h1
      · exact Or.inr (le_antisymm h1 (hnn e he))
    · intro h e he
      rcases h e he with h1 | h1
      · exact Or.inl h1
      · exact Or.inr (le_of_eq h1)
  · intro hn
    exact selectAlgorithm_none_of_no_survivor L A header (survivors_of_empty L A header hn)
  · intro hne
    obtain ⟨e, he, hetok, hen, hq, _⟩ :=
      selectAlgorithm_result_entry L A header hsort _ rfl hne
    exact ⟨e, he, hetok, hen, hq⟩

/-- C4, witness: a request without `Accept-Encoding` and the declaration
`doesnotexist` both give none. -/
theorem selectAlgorithm_none_iff_witness :
    (selectAlgorithm goLib defaultAlgorithms "").1 = "" ∧
    (selectAlgorithm goLib defaultAlgorithms "doesnotexist").1 = "" ∧
    ∀ e ∈ entries goLib "doesnotexist",
      (getEnabledAlgorithms defaultAlgorithms e.encoding).isSome = false ∨ e.q ≤ 0 :=
  ⟨by decide, by decide,
   (selectAlgorithm_none_iff goLib defaultAlgorithms "doesnotexist" insertionSort_spec).1.mp
     (by decide)⟩

/-! ## Theorems: response encoder -/

/-- C5: after a non-empty sequence of fault-free writes to a new
`respWriter`, every write has been accepted and the encoder is committed to
compression (`Swapped()` is true) exactly when the total number of bytes
written is at least the threshold. A single write of `threshold` bytes
therefore commits and a single write of `threshold - 1` bytes does not. -/
theorem Swapped_iff_threshold_reached (K : Codec) (w : ResponseWriter) (threshold : Int)
    (algo : algorithm) (chunks : List Bytes) (hne : chunks ≠ []) :
    ∃ rw1, (newResponseWriter w threshold algo).writeAll K chunks = Except.ok rw1 ∧
      rw1.Size = totalLength chunks ∧
      (rw1.Swapped = true ↔ threshold ≤ totalLength chunks) := by
  obtain ⟨rw1, hw, _, hcnt, _, hlow, hhigh⟩ :=
    writeAll_buffering K chunks (newResponseWriter w threshold algo) [] rfl
  have hsize : rw1.Size = totalLength chunks := by
    rw [respWriter.Size, hcnt]
    simp [newResponseWriter]
  refine ⟨rw1, hw, hsize, ?_⟩
  have hthr : (newResponseWriter w threshold algo).threshold = threshold := rfl
  rw [hthr] at hlow hhigh
  simp only [List.length_nil, Nat.cast_zero, zero_add] at hlow hhigh
  constructor
  · intro hsw
    by_contra hlt
    have hb := (hlow (Or.inr (by omega))).1
    simp [respWriter.Swapped, hb] at hsw
  · intro hge
    have hb := (hhigh hne hge).1
    simp [respWriter.Swapped, hb]

/-- C5, witness: with threshold 4, one write of 4 bytes commits and one write
of 3 bytes does not. -/
theorem Swapped_iff_threshold_reached_witness :
    (∃ rw1, (newResponseWriter freshWriter 4 { name := "gzip", compressorPool := [] }).writeAll
        storedCodec [[1, 2, 3, 4]] = Except.ok rw1 ∧
      rw1.Size = totalLength [[1, 2, 3, 4]] ∧
      (rw1.Swapped = true ↔ (4 : Int) ≤ totalLength [[1, 2, 3, 4]])) ∧
    (∃ rw1, (newResponseWriter freshWriter 4 { name := "gzip", compressorPool := [] }).writeAll
        storedCodec [[1, 2, 3, 4]] = Except.ok rw1 ∧ rw1.Swapped = true) ∧
    (∃ rw1, (newResponseWriter freshWriter 4 { name := "gzip", compressorPool := [] }).writeAll
        storedCodec [[1, 2, 3]] = Except.ok rw1 ∧ rw1.Swapped = false) :=
  ⟨Swapped_iff_threshold_reached storedCodec freshWriter 4
      { name := "gzip", compressorPool := [] } [[1, 2, 3, 4]] (by decide),
   ⟨_, rfl, by decide⟩, ⟨_, rfl, by decide⟩⟩

/-- C7: when a non-empty sequence of fault-free writes reaches the threshold,
the pooled compressor, bound to the response writer, is handed the bytes
buffered before the committing chunk (as one chunk, when there are any), then
the committing chunk, then every later chunk: in order, the concatenation of
all written chunks. The sink receives nothing but the output of that
compressor, and `Close` finalizes it (the trailer reaches the sink) and
releases it. Hence, for a codec with the round-trip property, decompressing
what the sink received gives the payload. -/
theorem committed_stream_is_payload (K : Codec) (w : ResponseWriter) (threshold : Int)
    (algo : algorithm) (chunks : List Bytes) (hne : chunks ≠ [])
    (hreach : threshold ≤ totalLength chunks) :
    ∃ rw1 ww pre c post,
      (newResponseWriter w threshold algo).writeAll K chunks = Except.ok rw1 ∧
      rw1.compressor = some ww ∧ ww.c = false ∧ ww.w.dst = Dest.sink ∧
      chunks = pre ++ c :: post ∧
      (pre ≠ [] → totalLength pre < threshold) ∧
      threshold ≤ totalLength pre + (c.length : Int) ∧
      ww.w.written = (if pre.flatten.length = 0 then [] else [pre.flatten]) ++ c :: post ∧
      ww.w.written.flatten = chunks.flatten ∧
      rw1.ResponseWriter.body = w.body ++ Codec.stream K [] ww.w.written ∧
      ∃ rw2, rw1.Close K none = Except.ok (rw2, false) ∧
        rw2.ResponseWriter.body = w.body ++ Codec.compress K ww.w.written ∧
        rw2.compressor = some { w := makeCompressor, c := true } ∧
        rw2.algo.compressorPool = poolPut (algo.getWriter).2.compressorPool makeCompressor ∧
        (K.RoundTrip → w.body = [] →
          K.decompress rw2.ResponseWriter.body = some chunks.flatten) := by
  obtain ⟨rw1, hw, _, _, _, _, hhigh⟩ :=
    writeAll_buffering K chunks (newResponseWriter w threshold algo) [] rfl
  have hthr : (newResponseWriter w threshold algo).threshold = threshold := rfl
  have halgo : (newResponseWriter w threshold algo).algo = algo := rfl
  have hbody : (newResponseWriter w threshold algo).ResponseWriter.body = w.body := rfl
  rw [hthr, halgo, hbody] at hhigh
  simp only [List.length_nil, Nat.cast_zero, zero_add, List.nil_append] at hhigh
  obtain ⟨hbuf1, halgo1, ww, pre, c, post, hc, hopen, hdst, hsplit, hpre, hcommit, hwr, hb⟩ :=
    hhigh hne hreach
  have hflat : ww.w.written.flatten = chunks.flatten := by
    rw [hwr, hsplit]
    by_cases he : pre.flatten.length = 0
    · have hnil : pre.flatten = [] := List.length_eq_zero.mp he
      simp [hnil]
    · rw [if_neg he]
      simp
  obtain ⟨rw2, hcl, _, hbody2, _, _, hcomp2, hpool2⟩ :=
    Close_swapped K rw1 ww hbuf1 hc hopen hdst
  refine ⟨rw1, ww, pre, c, post, hw, hc, hopen, hdst, hsplit, hpre, hcommit, hwr, hflat, hb,
    rw2, hcl, ?_, hcomp2, ?_, ?_⟩
  · rw [hbody2, hb, Codec.compress, List.append_assoc]
  · rw [hpool2, halgo1]
  · intro hrt hempty
    rw [hbody2, hb, hempty, List.nil_append]
    have := hrt ww.w.written
    rw [Codec.compress] at this
    rw [this, hflat]

/-- C7, witness: threshold 4 and the chunks `[1, 2]`, `[3, 4, 5]`, `[6]`; the
compressor receives `[1, 2]`, `[3, 4, 5]`, `[6]`, and decompressing what the
sink received gives `[1, 2, 3, 4, 5, 6]`. -/
theorem committed_stream_is_payload_witness :
    (∃ rw1 ww pre c post,
      (newResponseWriter freshWriter 4 { name := "gzip", compressorPool := [] }).writeAll
        storedCodec [[1, 2], [3, 4, 5], [6]] = Except.ok rw1 ∧
      rw1.compressor = some ww ∧ ww.c = false ∧ ww.w.dst = Dest.sink ∧
      [[1, 2], [3, 4, 5], [6]] = pre ++ c :: post ∧
      (pre ≠ [] → totalLength pre < 4) ∧
      (4 : Int) ≤ totalLength pre + (c.length : Int) ∧
      ww.w.written = (if pre.flatten.length = 0 then [] else [pre.flatten]) ++ c :: post ∧
      ww.w.written.flatten = [[1, 2], [3, 4, 5], [6]].flatten ∧
      rw1.ResponseWriter.body = freshWriter.body ++ Codec.stream storedCodec [] ww.w.written ∧
      ∃ rw2, rw1.Close storedCodec none = Except.ok (rw2, false) ∧
        rw2.ResponseWriter.body = freshWriter.body ++ Codec.compress storedCodec ww.w.written ∧
        rw2.compressor = some { w := makeCompressor, c := true } ∧
        rw2.algo.compressorPool =
          poolPut (algorithm.getWriter { name := "gzip", compressorPool := [] }).2.compressorPool
            makeCompressor ∧
        (storedCodec.RoundTrip → freshWriter.body = [] →
          storedCodec.decompress rw2.ResponseWriter.body
            = some [[1, 2], [3, 4, 5], [6]].flatten)) ∧
    (∃ rw1 rw2,
      (newResponseWriter freshWriter 4 { name := "gzip", compressorPool := [] }).writeAll
        storedCodec [[1, 2], [3, 4, 5], [6]] = Except.ok rw1 ∧
      rw1.Close storedCodec none = Except.ok (rw2, false) ∧
      rw2.ResponseWriter.body = [1, 2, 3, 4, 5, 6, 6] ∧
      storedCodec.decompress rw2.ResponseWriter.body = some [1, 2, 3, 4, 5, 6]) :=
  ⟨committed_stream_is_payload storedCodec freshWriter 4
      { name := "gzip", compressorPool := [] } [[1, 2], [3, 4, 5], [6]] (by decide) (by decide),
   ⟨_, _, rfl, rfl, by decide, by decide⟩⟩

/-! ## Theorems: request decoder -/

/-- C8: `decompressRequest` panics only when the library cannot build a
decompressor; when it returns, with `N` declared tokens and `p` peeled
layers: `p <= N`; if `p = 0` the request (body and every header) is
unchanged; if `p >= 1` the body is replaced by the chain, `Content-Length`
is removed, every other header but `Content-Encoding` is unchanged, and
`Content-Encoding` is removed when `p = N` and otherwise set to the first
`N - p` declared tokens joined by `", "`, so that exactly these tokens are
declared afterwards. When all `N` tokens are recognized and the step limit is
`k` with `1 <= k < N`, `k` layers are peeled and `N - k` tokens remain
declared. -/
theorem decompressRequest_rewrites_headers (A : Algorithms) (D : DecodeLib)
    (cfg : compressOptions) (c : Request) :
    (∀ e, decompressRequest A D cfg c = Except.error e → ∃ enc src, D.opens enc src = false) ∧
    ∀ (c1 : Request) (closer : Option compressedBodyReader) (err : Bool),
      decompressRequest A D cfg c = Except.ok (c1, closer, err) →
      layerCount closer ≤ (declaredEncodings c.Header).length ∧
      (layerCount closer = 0 → c1 = c) ∧
      (1 ≤ layerCount closer →
        (∃ br, closer = some br ∧ c1.Body = RequestBody.composed br) ∧
        List.lookup "Content-Length" c1.Header = none ∧
        (∀ key, key ≠ "Content-Length" → key ≠ "Content-Encoding" →
          List.lookup key c1.Header = List.lookup key c.Header) ∧
        (layerCount closer = (declaredEncodings c.Header).length →
          List.lookup "Content-Encoding" c1.Header = none) ∧
        (layerCount closer < (declaredEncodings c.Header).length →
          List.lookup "Content-Encoding" c1.Header
            = some [joinCommaSpace ((declaredEncodings c.Header).take
                ((declaredEncodings c.Header).length - layerCount closer))] ∧
          declaredEncodings c1.Header = (declaredEncodings c.Header).take
            ((declaredEncodings c.Header).length - layerCount closer))) ∧
      (cfg.skipDecompressRequest = false → c.Body.reader ≠ none →
        (∀ t ∈ declaredEncodings c.Header, (A.get t).isSome = true) →
        1 ≤ cfg.maxDecodeSteps →
        cfg.maxDecodeSteps < ((declaredEncodings c.Header).length : Int) →
        (layerCount closer : Int) = cfg.maxDecodeSteps ∧
        ((declaredEncodings c1.Header).length : Int)
          = ((declaredEncodings c.Header).length : Int) - cfg.maxDecodeSteps) := by
  refine ⟨fun e he => decompressRequest_error A D cfg c e he, ?_⟩
  intro c1 closer err h
  obtain ⟨_, hcases⟩ := decompressRequest_cases A D cfg c c1 closer err h
  rcases hcases with ⟨hc, hcl, hzero⟩ | ⟨body, p, hskip, hbody, hp, hpos, hle, hcl, hb, hh⟩
  · subst hc hcl
    refine ⟨by simp [layerCount], fun _ => rfl, fun h1 => ?_, ?_⟩
    · simp [layerCount] at h1
    · intro hs hb hall h1 hlt
      have hz := hzero hs hb
      rw [recognizedSuffix_all A _ hall] at hz
      omega
  · have hcount : layerCount closer = p := by
      rw [hcl]
      simp only [layerCount, layers_length, List.length_take, List.length_reverse]
      omega
    rw [hcount]
    have hsetcase : p < (declaredEncodings c.Header).length →
        c1.Header = Header.Set (Header.Del c.Header "Content-Length") "Content-Encoding"
          (joinCommaSpace ((declaredEncodings c.Header).take
            ((declaredEncodings c.Header).length - p))) := by
      intro hlt
      rw [hh, if_neg (by omega)]
    refine ⟨hle, fun h0 => by omega, fun _ => ⟨⟨_, hcl, hb⟩, ?_, ?_, ?_, ?_⟩, ?_⟩
    · rw [hh]
      split
      · rw [lookup_Del, if_neg (by decide), lookup_Del, if_pos rfl]
      · rw [lookup_Set, if_neg (by decide), lookup_Del, if_pos rfl]
    · intro key h1 h2
      rw [hh]
      split
      · rw [lookup_Del, if_neg h2, lookup_Del, if_neg h1]
      · rw [lookup_Set, if_neg h2, lookup_Del, if_neg h1]
    · intro heq
      rw [hh, if_pos (by omega), lookup_Del, if_pos rfl]
    · intro hlt
      rw [hsetcase hlt]
      exact ⟨by rw [lookup_Set, if_pos rfl], declaredEncodings_Set c.Header _ _ (by omega)⟩
    · intro _ _ hall h1 hlt
      rw [recognizedSuffix_all A _ hall] at hp
      have hpk : (p : Int) = cfg.maxDecodeSteps := by omega
      have hlt' : p < (declaredEncodings c.Header).length := by omega
      refine ⟨hpk, ?_⟩
      rw [hsetcase hlt', declaredEncodings_Set c.Header _ _ (by omega), List.length_take]
      omega

/-- C8, witness: `gzip, deflate` with step limit 1 leaves `gzip` declared,
removes `Content-Length`, and peels one layer. -/
theorem decompressRequest_rewrites_headers_witness :
    (∃ c1 closer,
      decompressRequest defaultAlgorithms tagDecodeLib newCompressOptions twoLayerRequest
        = Except.ok (c1, closer, false) ∧
      layerCount closer = 1 ∧ c1.Header = [("Content-Encoding", ["gzip"])] ∧
      (layerCount closer : Int) = newCompressOptions.maxDecodeSteps ∧
      ((declaredEncodings c1.Header).length : Int)
        = ((declaredEncodings twoLayerRequest.Header).length : Int)
          - newCompressOptions.maxDecodeSteps) :=
  ⟨_, _, rfl, by decide, by decide,
    ((decompressRequest_rewrites_headers defaultAlgorithms tagDecodeLib newCompressOptions
      twoLayerRequest).2 _ _ _ rfl).2.2.2 (by decide) (by decide) (by decide) (by decide)
      (by decide)⟩

/-- C9: on a request with a body, with decompression switched on and a step
limit of at least 1, `decompressRequest` panics only when the library cannot
build a decompressor, and when it returns it reports no error and has built
`min(maxDecodeSteps, r)` layers, `r` being the length of the longest suffix
of the declared list made of recognized tokens. The chain is never longer
than the step limit, and when an unrecognized token stops the peeling, that
token is the last token that stays declared. -/
theorem decompressRequest_layer_count (A : Algorithms) (D : DecodeLib)
    (cfg : compressOptions) (c : Request) (body : Reader)
    (hskip : cfg.skipDecompressRequest = false) (hbody : c.Body.reader = some body)
    (hsteps : 1 ≤ cfg.maxDecodeSteps) :
    (∀ e, decompressRequest A D cfg c = Except.error e → ∃ enc src, D.opens enc src = false) ∧
    ∀ (c1 : Request) (closer : Option compressedBodyReader) (err : Bool),
      decompressRequest A D cfg c = Except.ok (c1, closer, err) →
      err = false ∧
      layerCount closer
        = min cfg.maxDecodeSteps.toNat (recognizedSuffix A (declaredEncodings c.Header)) ∧
      (layerCount closer : Int) ≤ cfg.maxDecodeSteps ∧
      (recognizedSuffix A (declaredEncodings c.Header) < (declaredEncodings c.Header).length →
        (recognizedSuffix A (declaredEncodings c.Header) : Int) < cfg.maxDecodeSteps →
        (A.get ((declaredEncodings c.Header).getD
          ((declaredEncodings c.Header).length - 1
            - recognizedSuffix A (declaredEncodings c.Header)) "")).isSome = false ∧
        (declaredEncodings c1.Header).getLast?
          = some ((declaredEncodings c.Header).getD
              ((declaredEncodings c.Header).length - 1
                - recognizedSuffix A (declaredEncodings c.Header)) "")) := by
  refine ⟨fun e he => decompressRequest_error A D cfg c e he, ?_⟩
  intro c1 closer err h
  obtain ⟨herr, hcases⟩ := decompressRequest_cases A D cfg c c1 closer err h
  have hbne : c.Body.reader ≠ none := by simp [hbody]
  rcases hcases with ⟨hc, hcl, hzero⟩ | ⟨body1, p, _, _, hp, hpos, hle, hcl, hb, hh⟩
  · subst hc hcl
    have hz := hzero hskip hbne
    refine ⟨herr, by simp [layerCount, hz], by simp only [layerCount]; omega, ?_⟩
    intro hlt hlt2
    refine ⟨recognizedSuffix_stop A _ hlt, ?_⟩
    have hr0 : recognizedSuffix A (declaredEncodings c1.Header) = 0 := by omega
    rw [hr0, List.getLast?_eq_getElem?, List.getD_eq_getElem?_getD]
    have : (declaredEncodings c1.Header).length - 1 < (declaredEncodings c1.Header).length := by
      omega
    simp [List.getElem?_eq_getElem this]
  · have hcount : layerCount closer = p := by
      rw [hcl]
      simp only [layerCount, layers_length, List.length_take, List.length_reverse]
      omega
    rw [hcount]
    refine ⟨herr, hp, by omega, ?_⟩
    intro hlt hlt2
    refine ⟨recognizedSuffix_stop A _ hlt, ?_⟩
    have hpr : p = recognizedSuffix A (declaredEncodings c.Header) := by omega
    rw [hh, if_neg (by omega), declaredEncodings_Set c.Header _ _ (by omega),
      List.getLast?_eq_getElem?, List.length_take, List.getD_eq_getElem?_getD]
    have hidx : min ((declaredEncodings c.Header).length - p) (declaredEncodings c.Header).length
        - 1 = (declaredEncodings c.Header).length - 1
          - recognizedSuffix A (declaredEncodings c.Header) := by omega
    rw [hidx, List.getElem?_take_of_lt (by omega)]
    have : (declaredEncodings c.Header).length - 1
        - recognizedSuffix A (declaredEncodings c.Header) < (declaredEncodings c.Header).length := by
      omega
    simp [List.getElem?_eq_getElem this]

/-- C9, witness: `gzipButDifferentLol, deflate` with step limit 4 peels one
layer and leaves `gzipButDifferentLol` declared. -/
theorem decompressRequest_layer_count_witness :
    ∃ c1 closer,
      decompressRequest defaultAlgorithms tagDecodeLib
        { newCompressOptions with maxDecodeSteps := 4 } unknownLayerRequest
        = Except.ok (c1, closer, false) ∧
      layerCount closer = 1 ∧
      c1.Header = [("Content-Encoding", ["gzipButDifferentLol"])] ∧
      layerCount closer
        = min (4 : Int).toNat
            (recognizedSuffix defaultAlgorithms (declaredEncodings unknownLayerRequest.Header)) :=
  ⟨_, _, rfl, by decide, by decide,
    ((decompressRequest_layer_count defaultAlgorithms tagDecodeLib
      { newCompressOptions with maxDecodeSteps := 4 } unknownLayerRequest
      (Reader.raw (tagCompress "deflate" [7, 8])) rfl rfl (by decide)).2 _ _ _ rfl).2.1⟩

/-- C10: when `decompressRequest` returns a chain of `p` layers for `N`
declared tokens, layer `j` (in construction order) is the decompressor of the
declared token `N - 1 - j` and reads from layer `j - 1`, from the request
body when `j = 0`; the request body is replaced by the chain, whose reads
are served by layer `p - 1`. Hence, for codecs with
`decompress (compress x) = x`, a body obtained by applying the declared
encodings to a payload in declared order is read back as the payload when all
`N` layers are peeled. -/
theorem decompressRequest_chain_order (A : Algorithms) (D : DecodeLib)
    (cfg : compressOptions) (c c1 : Request) (br : compressedBodyReader) (err : Bool)
    (compress : String → Bytes → Bytes)
    (h : decompressRequest A D cfg c = Except.ok (c1, some br, err)) :
    ∃ body, c.Body.reader = some body ∧
      c1.Body = RequestBody.composed br ∧
      1 ≤ br.decomps.length ∧ br.decomps.length ≤ (declaredEncodings c.Header).length ∧
      (∀ j, j < br.decomps.length →
        br.decomps[j]? = some (Reader.decomp
          ((declaredEncodings c.Header).getD ((declaredEncodings c.Header).length - 1 - j) "")
          (if j = 0 then body else br.decomps.getD (j - 1) body))) ∧
      c1.Body.reader = br.decomps[br.decomps.length - 1]? ∧
      (∀ payload : Bytes, (∀ t x, D.decompress t (compress t x) = some x) →
        body = Reader.raw (encodeAll compress (declaredEncodings c.Header) payload) →
        br.decomps.length = (declaredEncodings c.Header).length →
        ∃ r, c1.Body.reader = some r ∧ Reader.content D r = some payload) := by
  obtain ⟨_, hcases⟩ := decompressRequest_cases A D cfg c c1 (some br) err h
  rcases hcases with ⟨_, hcl, _⟩ | ⟨body, p, _, hbody, _, hpos, hle, hcl, hb, _⟩
  · exact absurd hcl (by simp)
  · have hbr : br = compressedBodyReader.mk
        (layers body ((declaredEncodings c.Header).reverse.take p)) := by
      injection hcl
    have htl : ((declaredEncodings c.Header).reverse.take p).length = p := by
      rw [List.length_take, List.length_reverse]
      omega
    have hlen : br.decomps.length = p := by
      rw [hbr]
      simp only [layers_length, htl]
    refine ⟨body, hbody, by rw [hb, hbr], by omega, by omega, ?_, ?_, ?_⟩
    · intro j hj
      rw [hlen] at hj
      have hget := layers_getElem ((declaredEncodings c.Header).reverse.take p) body j
        (by rw [htl]; exact hj)
      have htok : ((declaredEncodings c.Header).reverse.take p).getD j ""
          = (declaredEncodings c.Header).getD ((declaredEncodings c.Header).length - 1 - j) ""
          := by
        rw [List.getD_eq_getElem?_getD, List.getD_eq_getElem?_getD,
          List.getElem?_take_of_lt hj, List.getElem?_reverse (by omega)]
      rw [htok] at hget
      rw [hbr]
      exact hget
    · rw [hb, hbr]
      simp only [RequestBody.reader]
      rw [List.getLast?_eq_getElem?]
    · intro payload hrt hraw hall
      have hpN : p = (declaredEncodings c.Header).length := by omega
      have htoks : (declaredEncodings c.Header).reverse.take p
          = (declaredEncodings c.Header).reverse := by
        rw [hpN]
        exact List.take_of_length_le (by simp)
      have hne : (declaredEncodings c.Header).reverse ≠ [] := by
        simpa using declaredEncodings_ne_nil c.Header
      refine ⟨_, ?_, content_encodeAll D compress hrt (declaredEncodings c.Header) payload⟩
      rw [hb, htoks]
      simp only [RequestBody.reader]
      rw [layers_getLast _ body hne, hraw]

/-- C10, witness: the payload `[7, 8]` encoded with gzip and then deflate,
declared as `gzip, deflate`, step limit 2: the first layer undoes deflate on
the body, the second undoes gzip on the first, and the replaced body reads
as `[7, 8]`. -/
theorem decompressRequest_chain_order_witness :
    ∃ c1 br,
      decompressRequest defaultAlgorithms tagDecodeLib
        { newCompressOptions with maxDecodeSteps := 2 } twoLayerRequest
        = Except.ok (c1, some br, false) ∧
      br.decomps = [Reader.decomp "deflate" (Reader.raw [100, 103, 7, 8]),
        Reader.decomp "gzip" (Reader.decomp "deflate" (Reader.raw [100, 103, 7, 8]))] ∧
      (∃ r, c1.Body.reader = some r ∧ Reader.content tagDecodeLib r = some [7, 8]) ∧
      ∃ body, twoLayerRequest.Body.reader = some body ∧
        c1.Body = RequestBody.composed br ∧
        1 ≤ br.decomps.length ∧
        br.decomps.length ≤ (declaredEncodings twoLayerRequest.Header).length ∧
        (∀ j, j < br.decomps.length →
          br.decomps[j]? = some (Reader.decomp
            ((declaredEncodings twoLayerRequest.Header).getD
              ((declaredEncodings twoLayerRequest.Header).length - 1 - j) "")
            (if j = 0 then body else br.decomps.getD (j - 1) body))) ∧
        c1.Body.reader = br.decomps[br.decomps.length - 1]? ∧
        (∀ payload : Bytes, (∀ t x, tagDecodeLib.decompress t (tagCompress t x) = some x) →
          body = Reader.raw (encodeAll tagCompress
            (declaredEncodings twoLayerRequest.Header) payload) →
          br.decomps.length = (declaredEncodings twoLayerRequest.Header).length →
          ∃ r, c1.Body.reader = some r ∧ Reader.content tagDecodeLib r = some payload) :=
  ⟨_, _, rfl, rfl, ⟨_, rfl, by decide⟩,
    decompressRequest_chain_order defaultAlgorithms tagDecodeLib
      { newCompressOptions with maxDecodeSteps := 2 } twoLayerRequest _ _ false tagCompress rfl⟩

/-! ## Theorems: middleware -/

/-- C6: `Handler` panics only when `decompressRequest` does. When it returns,
the `Content-Encoding` and `Vary` response headers differ from what they were
before only if the response encoder was installed and committed to
compression (`Swapped()`); and whenever negotiation yields none, or the total
body written stays below the threshold, the sink receives exactly the
concatenation of the chunks the producer wrote, in order, and both headers
are as they were before. -/
theorem Handler_passthrough (L : GoLib) (A : Algorithms) (D : DecodeLib) (K : String → Codec)
    (pools : String → List resettableCompressor) (cfg : compressOptions)
    (c : Request) (w : ResponseWriter) (app : Request → List Bytes) :
    (∀ e, Handler L A D K pools cfg c w app = Except.error e →
      decompressRequest A D cfg c = Except.error e) ∧
    ∀ res, Handler L A D K pools cfg c w app = Except.ok res →
      ((List.lookup "Content-Encoding" res.writer.header
            ≠ List.lookup "Content-Encoding" w.header ∨
          List.lookup "Vary" res.writer.header ≠ List.lookup "Vary" w.header) →
        ∃ rw, res.encoder = some rw ∧ rw.Swapped = true) ∧
      (((selectAlgorithm L A (Header.Get res.request.Header "Accept-Encoding")).1 = "" ∨
          totalLength (app res.request) < cfg.minCompressBytes) →
        res.writer.body = w.body ++ (app res.request).flatten ∧
        List.lookup "Content-Encoding" res.writer.header
          = List.lookup "Content-Encoding" w.header ∧
        List.lookup "Vary" res.writer.header = List.lookup "Vary" w.header) := by
  cases hd : decompressRequest A D cfg c with
  | error e0 =>
    simp [Handler, hd]
  | ok r =>
    obtain ⟨c1, cf, err⟩ := r
    obtain ⟨herr, _⟩ := decompressRequest_cases A D cfg c c1 cf err hd
    subst herr
    by_cases hbranch : ((selectAlgorithm L A (Header.Get c1.Header "Accept-Encoding")).1 = ""
        || !shouldCompress A cfg c1) = true
    · have hH : Handler L A D K pools cfg c w app = Except.ok
          { request := c1,
            writer := { (app c1).foldl ResponseWriter.Write w with
              header := ginHeader ((app c1).foldl ResponseWriter.Write w).header
                "Content-Length" (toString ((app c1).foldl ResponseWriter.Write w).size) },
            encoder := none, closer := cf,
            errors := (selectAlgorithm L A (Header.Get c1.Header "Accept-Encoding")).2,
            aborted := none } := by
        simp only [Handler, hd, Bool.false_eq_true, if_false, hbranch, if_true]
      obtain ⟨hb, hh⟩ := foldl_Write (app c1) w
      refine ⟨fun e he => by rw [hH] at he; exact absurd he (by simp), ?_⟩
      intro res hres
      rw [hH] at hres
      injection hres with hres
      subst hres
      have hce : List.lookup "Content-Encoding"
          (ginHeader ((app c1).foldl ResponseWriter.Write w).header "Content-Length"
            (toString ((app c1).foldl ResponseWriter.Write w).size))
          = List.lookup "Content-Encoding" w.header := by
        rw [lookup_ginHeader _ _ _ _ (by decide), hh]
      have hva : List.lookup "Vary"
          (ginHeader ((app c1).foldl ResponseWriter.Write w).header "Content-Length"
            (toString ((app c1).foldl ResponseWriter.Write w).size))
          = List.lookup "Vary" w.header := by
        rw [lookup_ginHeader _ _ _ _ (by decide), hh]
      refine ⟨fun hne => ?_, fun _ => ⟨hb, hce, hva⟩⟩
      rcases hne with h | h
      · exact absurd hce h
      · exact absurd hva h
    · obtain ⟨rw1, rw2, cerr, hw, hcl, hlow, hhigh, hlook⟩ :=
        encoder_run (K (selectAlgorithm L A (Header.Get c1.Header "Accept-Encoding")).1) w
          cfg.minCompressBytes
          { name := (selectAlgorithm L A (Header.Get c1.Header "Accept-Encoding")).1,
            compressorPool :=
              pools (selectAlgorithm L A (Header.Get c1.Header "Accept-Encoding")).1 }
          (app c1)
      have hH : ∃ h2, Handler L A D K pools cfg c w app = Except.ok
          { request := c1, writer := { rw2.ResponseWriter with header := h2 },
            encoder := some { rw2 with ResponseWriter :=
              { rw2.ResponseWriter with header := h2 } },
            closer := cf,
            errors := (selectAlgorithm L A (Header.Get c1.Header "Accept-Encoding")).2,
            aborted := none } ∧
          (rw2.Swapped = false → ∀ k, k ≠ "Content-Length" →
            List.lookup k h2 = List.lookup k rw2.ResponseWriter.header) := by
        refine ⟨ginHeader
          (if rw2.Swapped = true then
            ginHeader (ginHeader rw2.ResponseWriter.header "Vary" "Accept-Encoding")
              "Content-Encoding" (selectAlgorithm L A (Header.Get c1.Header "Accept-Encoding")).1
           else rw2.ResponseWriter.header)
          "Content-Length" (toString rw2.Size), ?_, ?_⟩
        · simp only [Handler, hd, Bool.false_eq_true, if_false, hbranch, hw, hcl]
        · intro hsw k hk
          rw [lookup_ginHeader _ _ _ _ hk, hsw]
          simp
      obtain ⟨h2, hH, hh2⟩ := hH
      refine ⟨fun e he => by rw [hH] at he; exact absurd he (by simp), ?_⟩
      intro res hres
      rw [hH] at hres
      injection hres with hres
      subst hres
      have halgo : (selectAlgorithm L A (Header.Get c1.Header "Accept-Encoding")).1 ≠ "" := by
        intro h
        apply hbranch
        simp [h]
      by_cases hl : app c1 = [] ∨ totalLength (app c1) < cfg.minCompressBytes
      · obtain ⟨hsw, hb⟩ := hlow hl
        have hce : List.lookup "Content-Encoding" h2
            = List.lookup "Content-Encoding" w.header := by
          rw [hh2 hsw _ (by decide), hlook _ (by decide)]
        have hva : List.lookup "Vary" h2 = List.lookup "Vary" w.header := by
          rw [hh2 hsw _ (by decide), hlook _ (by decide)]
        refine ⟨fun hne => ?_, fun _ => ⟨hb, hce, hva⟩⟩
        rcases hne with h | h
        · exact absurd hce h
        · exact absurd hva h
      · have hne : app c1 ≠ [] := fun h => hl (Or.inl h)
        have hge : cfg.minCompressBytes ≤ totalLength (app c1) := by
          by_contra h
          exact hl (Or.inr (by omega))
        have hsw := hhigh ⟨hne, hge⟩
        refine ⟨fun _ => ⟨_, rfl, by simpa [respWriter.Swapped] using hsw⟩, fun h => ?_⟩
        rcases h with h | h
        · exact absurd h halgo
        · have h' : totalLength (app c1) < cfg.minCompressBytes := h
          omega

/-- C6, witness: the 10-byte body `SMALL BODY` with threshold 512 and
`Accept-Encoding: gzip, zstd, br`: the sink receives the 10 bytes and neither
`Content-Encoding` nor `Vary` is set. -/
theorem Handler_passthrough_witness :
    ∃ res, Handler goLib defaultAlgorithms tagDecodeLib (fun _ => storedCodec) (fun _ => [])
        newCompressOptions smallRequest freshWriter (fun _ => [bytesOf "SMALL BODY"])
        = Except.ok res ∧
      (selectAlgorithm goLib defaultAlgorithms
        (Header.Get res.request.Header "Accept-Encoding")).1 = "br" ∧
      res.writer.header = [("Content-Length", ["10"])] ∧
      (res.writer.body = freshWriter.body ++ [bytesOf "SMALL BODY"].flatten ∧
        List.lookup "Content-Encoding" res.writer.header
          = List.lookup "Content-Encoding" freshWriter.header ∧
        List.lookup "Vary" res.writer.header = List.lookup "Vary" freshWriter.header) :=
  ⟨_, rfl, by decide, by decide,
    ((Handler_passthrough goLib defaultAlgorithms tagDecodeLib (fun _ => storedCodec)
      (fun _ => []) newCompressOptions smallRequest freshWriter
      (fun _ => [bytesOf "SMALL BODY"])).2 _ rfl).2 (Or.inr (by decide))⟩

/-! ## Lemmas and theorems: close of the chain and pooled wrappers -/

/-- When no layer fails, `Close` is called on every layer and nil is
returned. -/
theorem closeLoop_all_ok (libClose : Reader → Option String) (ds : List Reader)
    (h : ∀ d ∈ ds, Reader.Close libClose d = none) : closeLoop libClose ds = (ds, none) := by
  induction ds with
  | nil => rfl
  | cons d rest ih =>
    have hd := h d (by simp)
    have hrest := ih (fun x hx => h x (List.mem_cons_of_mem _ hx))
    simp [closeLoop, hd, hrest]

/-- The loop stops at the first layer whose `Close` fails: the layers after
it are not closed, and its error is returned. -/
theorem closeLoop_first_failure (libClose : Reader → Option String)
    (pre post : List Reader) (f : Reader) (e : String)
    (hpre : ∀ d ∈ pre, Reader.Close libClose d = none)
    (hf : Reader.Close libClose f = some e) :
    closeLoop libClose (pre ++ f :: post) = (pre ++ [f], some e) := by
  induction pre with
  | nil => simp [closeLoop, hf]
  | cons d rest ih =>
    have hd := hpre d (by simp)
    have hrest := ih (fun x hx => hpre x (List.mem_cons_of_mem _ hx))
    simp [closeLoop, hd, hrest]

/-- C11, the code at a failing input: the chain for `br, gzip` has the gzip
layer first and the brotli layer second; when the `Close` of the gzip layer
fails, `compressedBodyReader.Close` returns that error at once and `Close` is
never called on the brotli layer. In general the layers after the first
failing one are not closed. -/
theorem Close_skips_layers_after_failure :
    brGzipChain.decomps
      = [Reader.decomp "gzip" (Reader.raw [1]),
         Reader.decomp "br" (Reader.decomp "gzip" (Reader.raw [1]))] ∧
    compressedBodyReader.Close gzipCloseFails brGzipChain
      = ([Reader.decomp "gzip" (Reader.raw [1])], some "gzip: invalid checksum") ∧
    Reader.decomp "br" (Reader.decomp "gzip" (Reader.raw [1]))
      ∉ (compressedBodyReader.Close gzipCloseFails brGzipChain).1 ∧
    (∀ (libClose : Reader → Option String) (pre post : List Reader) (f : Reader) (e : String),
      (∀ d ∈ pre, Reader.Close libClose d = none) → Reader.Close libClose f = some e →
      compressedBodyReader.Close libClose (compressedBodyReader.mk (pre ++ f :: post))
        = (pre ++ [f], some e)) :=
  ⟨by decide, by decide, by decide,
    fun libClose pre post f e hpre hf => closeLoop_first_failure libClose pre post f e hpre hf⟩

/-- C12: the first `Close` of a `wrappedWriter` finalizes the compressor as
it is bound (the trailer goes to its destination, so before the rebinding),
puts exactly one instance into the pool, and that instance is the compressor
reset to the discard sink (so after the rebinding); this also holds when the
finalization fails, and the result of the finalization is returned. When the
pool held only instances bound to the discard sink, so it does afterwards.
On the closed wrapper every `Write` and every `Close` panics: no state comes
back, nothing is written and nothing is put into a pool. -/
theorem wrappedWriter_Close_once (K : Codec) (w : wrappedWriter)
    (pool : List resettableCompressor) (sink : ResponseWriter) (fault : Fault)
    (hopen : w.c = false) :
    ∃ w1, w.Close K pool sink fault
        = Except.ok (w1, makeCompressor :: pool, (w.w.Close K sink fault).2.1, fault.isSome) ∧
      (w.w.Close K sink fault).2.2 = fault.isSome ∧
      (w.w.dst = Dest.sink →
        (w.w.Close K sink fault).2.1 = sink.Write (accepted fault (K.onClose w.w.written))) ∧
      w1.c = true ∧ w1.w = makeCompressor ∧ makeCompressor.dst = Dest.discard ∧
      ((∀ z ∈ pool, z.dst = Dest.discard) →
        ∀ z ∈ makeCompressor :: pool, z.dst = Dest.discard) ∧
      (∀ sink1 b f,
        w1.Write K sink1 b f = Except.error "attempted to write to a closed writer") ∧
      (∀ pool1 sink1 f, w1.Close K pool1 sink1 f
        = Except.error "attempted to close a compressor that has already been closed") := by
  refine ⟨{ w := makeCompressor, c := true }, ?_, rfl, ?_, rfl, rfl, rfl, ?_, ?_, ?_⟩
  · simp [wrappedWriter.Close, hopen, resettableCompressor.Close, resettableCompressor.Reset,
      poolPut, makeCompressor]
  · intro hdst
    simp [resettableCompressor.Close, hdst]
  · intro hall z hz
    rcases List.mem_cons.mp hz with h | h
    · subst h
      rfl
    · exact hall z h
  · intro sink1 b f
    simp [wrappedWriter.Write]
  · intro pool1 sink1 f
    simp [wrappedWriter.Close]

/-- C12, witness: a wrapper on a compressor that has received `[1, 2]`; the
close fails after one byte of the trailer, the error is returned, and the
pool gets one compressor bound to the discard sink. -/
theorem wrappedWriter_Close_once_witness :
    wrappedWriter.Close storedCodec
        { w := { dst := Dest.sink, written := [[1, 2]], closed := false }, c := false }
        [] freshWriter (some 0)
      = Except.ok ({ w := makeCompressor, c := true }, [makeCompressor],
          { freshWriter with size := 0 }, true) ∧
    ∃ w1, wrappedWriter.Close storedCodec
        { w := { dst := Dest.sink, written := [[1, 2]], closed := false }, c := false }
        [] freshWriter none
        = Except.ok (w1, makeCompressor :: [],
            (resettableCompressor.Close storedCodec
              { dst := Dest.sink, written := [[1, 2]], closed := false } freshWriter none).2.1,
            (none : Fault).isSome) ∧
      (resettableCompressor.Close storedCodec
        { dst := Dest.sink, written := [[1, 2]], closed := false } freshWriter none).2.2
          = (none : Fault).isSome ∧
      ((resettableCompressor.mk Dest.sink [[1, 2]] false).dst = Dest.sink →
        (resettableCompressor.Close storedCodec
          { dst := Dest.sink, written := [[1, 2]], closed := false } freshWriter none).2.1
          = freshWriter.Write (accepted none (storedCodec.onClose [[1, 2]]))) ∧
      w1.c = true ∧ w1.w = makeCompressor ∧ makeCompressor.dst = Dest.discard ∧
      ((∀ z ∈ ([] : List resettableCompressor), z.dst = Dest.discard) →
        ∀ z ∈ makeCompressor :: [], z.dst = Dest.discard) ∧
      (∀ sink1 b f,
        w1.Write storedCodec sink1 b f = Except.error "attempted to write to a closed writer") ∧
      (∀ pool1 sink1 f, w1.Close storedCodec pool1 sink1 f
        = Except.error "attempted to close a compressor that has already been closed") :=
  ⟨rfl, wrappedWriter_Close_once storedCodec
    { w := { dst := Dest.sink, written := [[1, 2]], closed := false }, c := false }
    [] freshWriter none rfl⟩

/-- C13: the first `Close` of a `wrappedReader` unbinds the decompressor from
its source and puts it into the pool once, and returns nil; `Close` on any
wrapper followed by `Close` gives what the first `Close` gave (wrapper and
pool unchanged, nil returned); and `Read` on a closed wrapper panics without
reading. -/
theorem wrappedReader_Close_idempotent (r : wrappedReader)
    (pool : List resettableDecompressor) :
    (r.c = false →
      r.Close pool = ({ r := { src := none }, c := true }, { src := none } :: pool, false)) ∧
    (r.Close pool).1.c = true ∧
    (r.Close pool).2.2 = false ∧
    wrappedReader.Close (r.Close pool).1 (r.Close pool).2.1 = r.Close pool ∧
    (∀ (α : Type) (read : resettableDecompressor → α),
      wrappedReader.Read read (r.Close pool).1
        = Except.error "attempted to read from a closed reader") := by
  cases hc : r.c with
  | false =>
    refine ⟨fun _ => ?_, ?_, ?_, ?_, ?_⟩
    · simp [wrappedReader.Close, hc, resettableDecompressor.Reset]
    · simp [wrappedReader.Close, hc]
    · simp [wrappedReader.Close, hc]
    · simp [wrappedReader.Close, hc]
    · intro α read
      simp [wrappedReader.Close, wrappedReader.Read, hc]
  | true =>
    refine ⟨fun h => absurd h (by simp), ?_, ?_, ?_, ?_⟩
    · simp [wrappedReader.Close, hc]
    · simp [wrappedReader.Close, hc]
    · simp [wrappedReader.Close, hc]
    · intro α read
      simp [wrappedReader.Close, wrappedReader.Read, hc]

/-- C13, an instance: a brotli wrapper bound to the request body, closed
twice; the pool holds the decompressor once. -/
theorem wrappedReader_Close_idempotent_witness :
    wrappedReader.Close { r := { src := some (Reader.raw [1]) }, c := false } []
      = ({ r := { src := none }, c := true }, [{ src := none }], false) ∧
    wrappedReader.Close { r := { src := none }, c := true } [{ src := none }]
      = ({ r := { src := none }, c := true }, [{ src := none }], false) :=
  ⟨(wrappedReader_Close_idempotent { r := { src := some (Reader.raw [1]) }, c := false } []).1
    rfl, by decide⟩

/-! ## Lemmas and theorems: warnings of the negotiation -/

theorem parseEntry_snd (L : GoLib) (piece : List Char) :
    (parseEntry L piece).2 = malformedWeight L piece := by
  unfold parseEntry malformedWeight
  cases hs : split ';' piece with
  | nil => rfl
  | cons p0 rest =>
    cases rest with
    | nil => rfl
    | cons p1 rest1 =>
      simp only
      by_cases hq : hasPrefixQ p1 = true
      · simp only [hq, if_true]
        cases L.parseWeight (p1.drop 2) <;> rfl
      · simp only [hq, Bool.false_eq_true, if_false]

theorem parseEntry_malformed (L : GoLib) (piece : List Char) (t : String)
    (h : malformedWeight L piece = some t) : (parseEntry L piece).1.q = 1000 := by
  unfold malformedWeight at h
  unfold parseEntry
  cases hs : split ';' piece with
  | nil => rfl
  | cons p0 rest =>
    cases rest with
    | nil => rfl
    | cons p1 rest1 =>
      rw [hs] at h
      simp only at h ⊢
      by_cases hq : hasPrefixQ p1 = true
      · simp only [hq, if_true] at h ⊢
        cases hp : L.parseWeight (p1.drop 2) with
        | none => rfl
        | some q =>
          rw [hp] at h
          exact absurd h (by simp)
      · simp only [hq, Bool.false_eq_true, if_false]

/-- The errors that `selectAlgorithm` records: the weight text of every
malformed entry, in order of the declaration. -/
theorem selectAlgorithm_snd (L : GoLib) (A : Algorithms) (header : String) :
    (selectAlgorithm L A header).2 = (pieces L header).filterMap (malformedWeight L) := by
  have hfun : (fun p => (parseEntry L p).2) = malformedWeight L := by
    funext p
    exact parseEntry_snd L p
  by_cases hn : normalize L header = []
  · simp [selectAlgorithm, pieces, hn, split, malformedWeight]
  · unfold selectAlgorithm pieces
    simp only [hn, if_false]
    split <;> simp [List.filterMap_map, Function.comp_def, hfun]

theorem selectAlgorithm_some_of_survivor (L : GoLib) (A : Algorithms) (header : String)
    (hsort : SortSliceSpec L.sortSlice) (e : acceptableEncoding)
    (he : e ∈ survivors L A header) : (selectAlgorithm L A header).1 ≠ "" := by
  have hs : survivors L A header ≠ [] := by
    intro h
    rw [h] at he
    exact absurd he (List.not_mem_nil e)
  obtain ⟨x, hx, hxtok, _⟩ := selectAlgorithm_spec L A header hsort hs
  rw [mem_survivors] at hx
  intro hnone
  exact enabled_ne_empty A x.encoding hx.2.1 (hxtok.trans hnone)

/-- C14: an entry with a malformed weight (`bad`, between the entries `pre`
and `post`) makes `selectAlgorithm` record exactly one error, the weight
text, in the position of the entry, and gets the weight 1000. The entries
before and after it are the parses of their own pieces, the same as in a
declaration without the malformed entry, and so are their warnings. The
header is not rejected: when the token of the malformed entry is enabled, the
entry survives and a token is returned. -/
theorem malformed_weight_warns (L : GoLib) (A : Algorithms) (header : String)
    (hsort : SortSliceSpec L.sortSlice) (pre post : List (List Char)) (bad : List Char)
    (t : String) (hsplit : pieces L header = pre ++ bad :: post)
    (hbad : malformedWeight L bad = some t) :
    (selectAlgorithm L A header).2
      = pre.filterMap (malformedWeight L) ++ t :: post.filterMap (malformedWeight L) ∧
    (parseEntry L bad).1.q = 1000 ∧
    entries L header
      = pre.map (fun s => (parseEntry L s).1) ++ (parseEntry L bad).1
          :: post.map (fun s => (parseEntry L s).1) ∧
    ((getEnabledAlgorithms A (parseEntry L bad).1.encoding).isSome = true →
      (selectAlgorithm L A header).1 ≠ "") := by
  have hq := parseEntry_malformed L bad t hbad
  have hent : entries L header
      = pre.map (fun s => (parseEntry L s).1) ++ (parseEntry L bad).1
          :: post.map (fun s => (parseEntry L s).1) := by
    have : entries L header = (pieces L header).map (fun s => (parseEntry L s).1) := rfl
    rw [this, hsplit]
    simp
  refine ⟨?_, hq, hent, ?_⟩
  · rw [selectAlgorithm_snd, hsplit, List.filterMap_append, List.filterMap_cons_some hbad]
  · intro hen
    apply selectAlgorithm_some_of_survivor L A header hsort (parseEntry L bad).1
    rw [mem_survivors]
    refine ⟨?_, hen, by omega⟩
    rw [hent]
    simp

/-- C14, witness: `gzip;q=abc, br;q=0.5` records the one warning `abc`, gives
gzip the weight 1000 and returns `gzip`; the entry of `br` is parsed as in
`br;q=0.5` alone. -/
theorem malformed_weight_warns_witness :
    selectAlgorithm goLib defaultAlgorithms "gzip;q=abc, br;q=0.5" = ("gzip", ["abc"]) ∧
    entries goLib "gzip;q=abc, br;q=0.5"
      = [{ encoding := "gzip", q := 1000 }, { encoding := "br", q := 500 }] ∧
    entries goLib "br;q=0.5" = [{ encoding := "br", q := 500 }] ∧
    (selectAlgorithm goLib defaultAlgorithms "gzip;q=abc, br;q=0.5").2
      = ([] : List (List Char)).filterMap (malformedWeight goLib)
        ++ "abc" :: ["br;q=0.5".data].filterMap (malformedWeight goLib) :=
  ⟨by decide, by decide, by decide,
    (malformed_weight_warns goLib defaultAlgorithms "gzip;q=abc, br;q=0.5" insertionSort_spec
      [] ["br;q=0.5".data] "gzip;q=abc".data "abc" (by decide) (by decide)).1⟩

theorem getEnabledAlgorithms_none (A : Algorithms) (h : anyEnabled A = false) (k : String) :
    getEnabledAlgorithms A k = none := by
  simp only [anyEnabled, Bool.or_eq_false_iff] at h
  obtain ⟨⟨⟨h1, h2⟩, h3⟩, h4⟩ := h
  unfold getEnabledAlgorithms Algorithms.get
  split_ifs <;> simp [h1, h2, h3, h4]

/-- C16, as stated, fails: with every algorithm disabled, the declaration
`gzip;q=abc` still has its entry parsed, and the warning for the weight `abc`
is recorded. -/
theorem selectAlgorithm_none_enabled_counterexample :
    anyEnabled noAlgorithms = false ∧
    selectAlgorithm goLib noAlgorithms "gzip;q=abc" = ("", ["abc"]) := by
  decide

/-- C16, amended: when no algorithm is enabled, `selectAlgorithm` returns the
empty string for every declaration; the entries are parsed all the same, so
every malformed weight records its warning, and only an empty declaration
returns before the parsing. -/
theorem selectAlgorithm_none_enabled (L : GoLib) (A : Algorithms) (header : String)
    (hnone : anyEnabled A = false) :
    (selectAlgorithm L A header).1 = "" ∧
    (selectAlgorithm L A header).2 = (pieces L header).filterMap (malformedWeight L) ∧
    (normalize L header = [] → (selectAlgorithm L A header).2 = []) := by
  refine ⟨?_, selectAlgorithm_snd L A header, ?_⟩
  · apply selectAlgorithm_none_of_no_survivor
    rw [List.eq_nil_iff_forall_not_mem]
    intro e he
    rw [mem_survivors] at he
    rw [getEnabledAlgorithms_none A hnone] at he
    exact absurd he.2.1 (by simp)
  · intro hn
    simp [selectAlgorithm, hn]

/-- C16, witness: with every algorithm disabled, `gzip, br` gives none and no
warning, and `gzip;q=abc` gives none and the warning `abc`. -/
theorem selectAlgorithm_none_enabled_witness :
    selectAlgorithm goLib noAlgorithms "gzip, br" = ("", []) ∧
    (selectAlgorithm goLib noAlgorithms "gzip;q=abc").1 = "" ∧
    (selectAlgorithm goLib noAlgorithms "gzip;q=abc").2
      = (pieces goLib "gzip;q=abc").filterMap (malformedWeight goLib) :=
  ⟨by decide,
    (selectAlgorithm_none_enabled goLib noAlgorithms "gzip;q=abc" (by decide)).1,
    (selectAlgorithm_none_enabled goLib noAlgorithms "gzip;q=abc" (by decide)).2.1⟩

/-! ## Lemmas and theorems: gating and rejection in `Handler` -/

/-- The gate of `shouldCompress`: an `Accept` header containing
`text/event-stream`, a `Connection` header containing `Upgrade` in this
spelling, or an exclusion predicate that returns true. -/
theorem shouldCompress_gate (A : Algorithms) (cfg : compressOptions) (c : Request)
    (h : containsSub "text/event-stream".data (Header.Get c.Header "Accept").data = true ∨
      containsSub "Upgrade".data (Header.Get c.Header "Connection").data = true ∨
      ∃ f, cfg.excludeFunc = some f ∧ f c = true) :
    shouldCompress A cfg c = false := by
  unfold shouldCompress
  rcases h with h | h | ⟨f, hf, hfc⟩
  · simp [h]
  · simp [h]
  · split
    · rfl
    · simp [hf, hfc]

/-- When the gate `shouldCompress` is closed for the request the application
sees, `Handler` installs no encoder and leaves `Content-Encoding` and `Vary`
as they were. -/
theorem Handler_gated (L : GoLib) (A : Algorithms) (D : DecodeLib) (K : String → Codec)
    (pools : String → List resettableCompressor) (cfg : compressOptions)
    (c : Request) (w : ResponseWriter) (app : Request → List Bytes) (res : HandlerResult)
    (h : Handler L A D K pools cfg c w app = Except.ok res)
    (hgate : shouldCompress A cfg res.request = false) :
    res.encoder = none ∧
    res.writer.body = w.body ++ (app res.request).flatten ∧
    List.lookup "Content-Encoding" res.writer.header
      = List.lookup "Content-Encoding" w.header ∧
    List.lookup "Vary" res.writer.header = List.lookup "Vary" w.header := by
  cases hd : decompressRequest A D cfg c with
  | error e0 =>
    simp [Handler, hd] at h
  | ok r =>
    obtain ⟨c1, cf, err⟩ := r
    obtain ⟨herr, _⟩ := decompressRequest_cases A D cfg c c1 cf err hd
    subst herr
    by_cases hbranch : ((selectAlgorithm L A (Header.Get c1.Header "Accept-Encoding")).1 = ""
        || !shouldCompress A cfg c1) = true
    · simp only [Handler, hd, Bool.false_eq_true, if_false, hbranch, if_true] at h
      injection h with h
      subst h
      obtain ⟨hb, hh⟩ := foldl_Write (app c1) w
      refine ⟨rfl, hb, ?_, ?_⟩
      · show List.lookup "Content-Encoding" (ginHeader _ _ _) = _
        rw [lookup_ginHeader _ _ _ _ (by decide), hh]
      · show List.lookup "Vary" (ginHeader _ _ _) = _
        rw [lookup_ginHeader _ _ _ _ (by decide), hh]
    · obtain ⟨rw1, rw2, cerr, hw, hcl, _⟩ :=
        encoder_run (K (selectAlgorithm L A (Header.Get c1.Header "Accept-Encoding")).1) w
          cfg.minCompressBytes
          { name := (selectAlgorithm L A (Header.Get c1.Header "Accept-Encoding")).1,
            compressorPool :=
              pools (selectAlgorithm L A (Header.Get c1.Header "Accept-Encoding")).1 }
          (app c1)
      simp only [Handler, hd, Bool.false_eq_true, if_false, hbranch, hw, hcl] at h
      injection h with h
      subst h
      have hopen : shouldCompress A cfg c1 = true := by
        cases hsc : shouldCompress A cfg c1
        · exact absurd (by simp [hsc]) hbranch
        · rfl
      have hgate' : shouldCompress A cfg c1 = false := hgate
      rw [hopen] at hgate'
      exact absurd hgate' (by simp)

/-- C15, the code at a failing input: for `Connection: upgrade` the gate
`shouldCompress` lets the request through, `Handler` installs the response
encoder, the 4-byte body reaches the threshold 4 and is compressed, and
`Content-Encoding` and `Vary` are set. For `Connection: Upgrade` the same
request is not compressed. -/
theorem Handler_compresses_lowercase_upgrade :
    shouldCompress defaultAlgorithms (WithMinCompressBytes 4 newCompressOptions)
      lowerUpgradeRequest = true ∧
    (∃ res rw,
      Handler goLib defaultAlgorithms tagDecodeLib (fun _ => storedCodec) (fun _ => [])
        (WithMinCompressBytes 4 newCompressOptions) lowerUpgradeRequest freshWriter
        (fun _ => [[1, 2, 3, 4]]) = Except.ok res ∧
      res.encoder = some rw ∧ rw.Swapped = true ∧
      res.writer.body = Codec.compress storedCodec [[1, 2, 3, 4]] ∧
      List.lookup "Content-Encoding" res.writer.header = some ["gzip"] ∧
      List.lookup "Vary" res.writer.header = some ["Accept-Encoding"]) ∧
    (∃ res,
      Handler goLib defaultAlgorithms tagDecodeLib (fun _ => storedCodec) (fun _ => [])
        (WithMinCompressBytes 4 newCompressOptions) upperUpgradeRequest freshWriter
        (fun _ => [[1, 2, 3, 4]]) = Except.ok res ∧
      res.encoder = none ∧ res.writer.body = [1, 2, 3, 4] ∧
      List.lookup "Content-Encoding" res.writer.header = none ∧
      List.lookup "Vary" res.writer.header = none) :=
  ⟨by decide, ⟨_, _, rfl, rfl, by decide, by decide, by decide, by decide⟩,
    ⟨_, rfl, rfl, by decide, by decide, by decide⟩⟩

/-- No returning call of `decompressRequest` reports an error, so `Handler`
never takes its abort branch. -/
theorem Handler_never_aborts (L : GoLib) (A : Algorithms) (D : DecodeLib) (K : String → Codec)
    (pools : String → List resettableCompressor) (cfg : compressOptions)
    (c : Request) (w : ResponseWriter) (app : Request → List Bytes) (res : HandlerResult)
    (h : Handler L A D K pools cfg c w app = Except.ok res) : res.aborted = none := by
  unfold Handler at h
  cases hd : decompressRequest A D cfg c with
  | error e0 =>
    rw [hd] at h
    exact absurd h (by simp)
  | ok r =>
    obtain ⟨c1, cf, err⟩ := r
    obtain ⟨herr, _⟩ := decompressRequest_cases A D cfg c c1 cf err hd
    subst herr
    rw [hd] at h
    simp only [Bool.false_eq_true, if_false] at h
    split at h
    · injection h with h
      subst h
      rfl
    · split at h
      · exact absurd h (by simp)
      · split at h
        · exact absurd h (by simp)
        · injection h with h
          subst h
          rfl

/-- C17, the code at failing inputs. A body declared `gzip` that does not
start with the gzip header makes `getReader` panic: `decompressRequest`
returns nothing, and `Handler` panics instead of answering 400. A body
declared `br` that is not a brotli stream is accepted (the pooled reader is
built without looking at the body): `decompressRequest` returns the chain
without an error, `Handler` runs the application and does
not abort, although reading the body fails. In no execution does
`decompressRequest` return an error or `Handler` abort with 400. -/
theorem Handler_no_rejection_on_corrupt_body :
    decompressRequest defaultAlgorithms strictDecodeLib newCompressOptions badGzipRequest
      = Except.error "decompressor construction failed" ∧
    (∀ (w : ResponseWriter) (app : Request → List Bytes),
      ∀ res, Handler goLib defaultAlgorithms strictDecodeLib (fun _ => storedCodec)
        (fun _ => []) newCompressOptions badGzipRequest w app ≠ Except.ok res) ∧
    decompressRequest defaultAlgorithms tagDecodeLib newCompressOptions badBrotliRequest
      = Except.ok
          ({ Header := [],
             Body := RequestBody.composed
               (compressedBodyReader.mk [Reader.decomp "br" (Reader.raw [110, 111])]) },
           some (compressedBodyReader.mk [Reader.decomp "br" (Reader.raw [110, 111])]),
           false) ∧
    Reader.content tagDecodeLib (Reader.decomp "br" (Reader.raw [110, 111])) = none ∧
    (∃ res, Handler goLib defaultAlgorithms tagDecodeLib (fun _ => storedCodec)
        (fun _ => []) newCompressOptions badBrotliRequest freshWriter
        (fun _ => [[1]]) = Except.ok res ∧
      res.aborted = none ∧ res.writer.body = [1]) ∧
    (∀ (A : Algorithms) (D : DecodeLib) (cfg : compressOptions) (c c1 : Request)
      (cf : Option compressedBodyReader) (err : Bool),
      decompressRequest A D cfg c = Except.ok (c1, cf, err) → err = false) ∧
    (∀ (L : GoLib) (A : Algorithms) (D : DecodeLib) (K : String → Codec)
      (pools : String → List resettableCompressor) (cfg : compressOptions)
      (c : Request) (w : ResponseWriter) (app : Request → List Bytes) (res : HandlerResult),
      Handler L A D K pools cfg c w app = Except.ok res → res.aborted = none) := by
  refine ⟨rfl, ?_, rfl, by decide, ⟨_, rfl, rfl, by decide⟩, ?_, ?_⟩
  · intro w app res h
    have : Handler goLib defaultAlgorithms strictDecodeLib (fun _ => storedCodec)
        (fun _ => []) newCompressOptions badGzipRequest w app
        = Except.error "decompressor construction failed" := rfl
    rw [this] at h
    exact absurd h (by simp)
  · intro A D cfg c c1 cf err h
    exact (decompressRequest_cases A D cfg c c1 cf err h).1
  · intro L A D K pools cfg c w app res h
    exact Handler_never_aborts L A D K pools cfg c w app res h

/-- After `WithAlgo(t, false)` the token `t` is not enabled and, under the
contract of `sort.Slice`, `selectAlgorithm` does not return it. -/
theorem selectAlgorithm_not_disabled (L : GoLib) (A A1 : Algorithms) (header t : String)
    (hsort : SortSliceSpec L.sortSlice) (hw : WithAlgo t false A = Except.ok A1) :
    getEnabledAlgorithms A1 t = none ∧ (selectAlgorithm L A1 header).1 ≠ t := by
  have hdis : getEnabledAlgorithms A1 t = none := by
    unfold WithAlgo at hw
    split_ifs at hw with h1 h2 h3 h4
    · injection hw with hw
      subst hw h1
      simp [getEnabledAlgorithms, Algorithms.get, ZSTD, GZIP, BROTLI, DEFLATE]
    · injection hw with hw
      subst hw h2
      simp [getEnabledAlgorithms, Algorithms.get, ZSTD, GZIP, BROTLI, DEFLATE]
    · injection hw with hw
      subst hw h3
      simp [getEnabledAlgorithms, Algorithms.get, ZSTD, GZIP, BROTLI, DEFLATE]
    · injection hw with hw
      subst hw h4
      simp [getEnabledAlgorithms, Algorithms.get, ZSTD, GZIP, BROTLI, DEFLATE]
  refine ⟨hdis, ?_⟩
  intro hret
  have hne : t ≠ "" := by
    intro h
    subst h
    simp [WithAlgo, ZSTD, GZIP, BROTLI, DEFLATE] at hw
  obtain ⟨e, _, hetok, hen, _⟩ := selectAlgorithm_result_entry L A1 header hsort t hret hne
  rw [hetok, hdis] at hen
  exact absurd hen (by simp)

/-- C18, the code at a failing input: after `WithAlgo("gzip", false)` gzip is
not enabled and `selectAlgorithm` does not return it, but `decompressRequest`
still recognizes the token: for `Content-Encoding: gzip` it builds the gzip
decompressor, replaces the body and removes the header. -/
theorem decompressRequest_ignores_WithAlgo :
    WithAlgo "gzip" false defaultAlgorithms = Except.ok gzipDisabled ∧
    getEnabledAlgorithms gzipDisabled "gzip" = none ∧
    (selectAlgorithm goLib gzipDisabled "gzip").1 = "" ∧
    decompressRequest gzipDisabled tagDecodeLib newCompressOptions gzipRequest
      = Except.ok
          ({ Header := [],
             Body := RequestBody.composed
               (compressedBodyReader.mk [Reader.decomp "gzip" (Reader.raw [103, 7, 8])]) },
           some (compressedBodyReader.mk [Reader.decomp "gzip" (Reader.raw [103, 7, 8])]),
           false) ∧
    Reader.content tagDecodeLib (Reader.decomp "gzip" (Reader.raw [103, 7, 8])) = some [7, 8] :=
  ⟨rfl, by decide, by decide, rfl, by decide⟩

/-! ## Lemmas and theorems: the response encoder under faults, and its counters -/

/-- A `Write` on a writer that has swapped to an open compressor returns,
whatever the faults, and leaves the writer swapped to an open compressor. -/
theorem Write_keeps_swapped (K : Codec) (rw : respWriter) (b : Bytes) (f : Faults)
    (w : wrappedWriter) (hbuf : rw.buf = none) (hc : rw.compressor = some w)
    (hopen : w.c = false) :
    ∃ rw1 n err w1, rw.Write K b f = Except.ok (rw1, n, err) ∧
      rw1.buf = none ∧ rw1.compressor = some w1 ∧ w1.c = false := by
  cases hf : f.write.isSome <;>
    simp [respWriter.Write, respWriter.route, hbuf, hc, hopen, wrappedWriter.Write,
      resettableCompressor.Write, hf]

/-- The first `Write` on a new writer whose threshold is not positive swaps,
whatever the faults: the buffer is empty, so nothing is copied. -/
theorem Write_first_swaps (K : Codec) (w : ResponseWriter) (n : Int) (algo : algorithm)
    (b : Bytes) (f : Faults) (hn : n ≤ 0) :
    ∃ rw1 m err w1, (newResponseWriter w n algo).Write K b f = Except.ok (rw1, m, err) ∧
      rw1.buf = none ∧ rw1.compressor = some w1 ∧ w1.c = false := by
  have hge : n ≤ (b.length : Int) := by omega
  cases hf : f.write.isSome <;>
    simp [respWriter.Write, respWriter.route, newResponseWriter, hge, algorithm.getWriter,
      wrappedWriter.Write, resettableCompressor.Write, hf]

theorem writeSeq_keeps_swapped (K : Codec) (ops : List (Bytes × Faults)) :
    ∀ (rw : respWriter) (w : wrappedWriter), rw.buf = none → rw.compressor = some w →
      w.c = false →
      ∃ rw1 w1, rw.writeSeq K ops = Except.ok rw1 ∧
        rw1.buf = none ∧ rw1.compressor = some w1 ∧ w1.c = false := by
  induction ops with
  | nil =>
    intro rw w hbuf hc hopen
    exact ⟨rw, w, rfl, hbuf, hc, hopen⟩
  | cons op rest ih =>
    intro rw w hbuf hc hopen
    obtain ⟨b, f⟩ := op
    obtain ⟨rw1, n, err, w1, hw, hbuf1, hc1, hopen1⟩ :=
      Write_keeps_swapped K rw b f w hbuf hc hopen
    obtain ⟨rw2, w2, hw2, h2⟩ := ih rw1 w1 hbuf1 hc1 hopen1
    refine ⟨rw2, w2, ?_, h2⟩
    simp only [respWriter.writeSeq, hw]
    exact hw2

theorem Close_keeps_swapped (K : Codec) (rw : respWriter) (fault : Fault) (w : wrappedWriter)
    (hbuf : rw.buf = none) (hc : rw.compressor = some w) (hopen : w.c = false) :
    ∃ rw2, rw.Close K fault = Except.ok (rw2, fault.isSome) ∧ rw2.Swapped = true := by
  simp [respWriter.Close, hbuf, hc, hopen, wrappedWriter.Close, resettableCompressor.Close,
    respWriter.Swapped]

/-- C19, as stated, fails: with the threshold 0 and no write at all, `Close`
copies the empty buffer through and the encoder has not swapped. -/
theorem always_compress_counterexample :
    (WithMinCompressBytes 0 newCompressOptions).minCompressBytes = 0 ∧
    respWriter.writeSeq storedCodec
        (newResponseWriter freshWriter 0 { name := "gzip", compressorPool := [] }) []
      = Except.ok (newResponseWriter freshWriter 0 { name := "gzip", compressorPool := [] }) ∧
    respWriter.Close storedCodec
        (newResponseWriter freshWriter 0 { name := "gzip", compressorPool := [] }) none
      = Except.ok
          (newResponseWriter freshWriter 0 { name := "gzip", compressorPool := [] }, false) ∧
    (newResponseWriter freshWriter 0 { name := "gzip", compressorPool := [] }).Swapped
      = false :=
  ⟨rfl, rfl, rfl, rfl⟩

/-- C19, amended: with `WithMinCompressBytes(n)` for `n <= 0`, every sequence
of at least one producer write, of any sizes and whatever faults the writes
meet, leaves the encoder swapped after the first write already, and it is
swapped when `Close` returns. -/
theorem always_compress_after_a_write (K : Codec) (w : ResponseWriter) (n : Int)
    (algo : algorithm) (ops : List (Bytes × Faults)) (closeFault : Fault) (hn : n ≤ 0)
    (hne : ops ≠ []) :
    ∃ rw1 rw2,
      (newResponseWriter w (WithMinCompressBytes n newCompressOptions).minCompressBytes
        algo).writeSeq K ops = Except.ok rw1 ∧
      rw1.Swapped = true ∧
      rw1.Close K closeFault = Except.ok (rw2, closeFault.isSome) ∧
      rw2.Swapped = true := by
  have hthr : (WithMinCompressBytes n newCompressOptions).minCompressBytes = n := rfl
  rw [hthr]
  cases ops with
  | nil => exact absurd rfl hne
  | cons op rest =>
    obtain ⟨b, f⟩ := op
    obtain ⟨rw0, m, err, w0, hw0, hbuf0, hc0, hopen0⟩ := Write_first_swaps K w n algo b f hn
    obtain ⟨rw1, w1, hw1, hbuf1, hc1, hopen1⟩ :=
      writeSeq_keeps_swapped K rest rw0 w0 hbuf0 hc0 hopen0
    obtain ⟨rw2, hcl, hsw⟩ := Close_keeps_swapped K rw1 closeFault w1 hbuf1 hc1 hopen1
    refine ⟨rw1, rw2, ?_, by simp [respWriter.Swapped, hbuf1], hcl, hsw⟩
    simp only [respWriter.writeSeq, hw0]
    exact hw1

/-- C19, witness: threshold 0 and one write of no bytes: the encoder swaps. -/
theorem always_compress_after_a_write_witness :
    ∃ rw1 rw2,
      (newResponseWriter freshWriter (WithMinCompressBytes 0 newCompressOptions).minCompressBytes
        { name := "gzip", compressorPool := [] }).writeSeq storedCodec [([], noFault)]
        = Except.ok rw1 ∧
      rw1.Swapped = true ∧
      rw1.Close storedCodec none = Except.ok (rw2, (none : Fault).isSome) ∧
      rw2.Swapped = true :=
  always_compress_after_a_write storedCodec freshWriter 0
    { name := "gzip", compressorPool := [] } [([], noFault)] none (by decide) (by decide)

theorem callAll_eq_writeAll (K : Codec) (ops : List WriteOp) :
    ∀ rw : respWriter, rw.callAll K ops = rw.writeAll K (ops.map WriteOp.bytes) := by
  induction ops with
  | nil => intro rw; rfl
  | cons op rest ih =>
    intro rw
    cases op with
    | write b =>
      simp only [respWriter.callAll, List.map_cons, respWriter.writeAll, WriteOp.bytes]
      cases rw.Write K b noFault with
      | error e => rfl
      | ok r => exact ih r.1
    | writeString str =>
      simp only [respWriter.callAll, List.map_cons, respWriter.writeAll, WriteOp.bytes,
        respWriter.WriteString]
      cases rw.Write K (bytesOf str) noFault with
      | error e => rfl
      | ok r => exact ih r.1

theorem totalLength_eq_sum (chunks : List Bytes) :
    totalLength chunks = (((chunks.map List.length).sum : Nat) : Int) := by
  simp [totalLength, List.length_flatten]

/-- C20: after every sequence of fault-free `Write` and `WriteString` calls
on a new `respWriter`, for every threshold (so whether or not the encoder has
swapped) and every codec (so whatever the compressor emitted), `Size()` is
the sum of the lengths of the chunks handed over, and `Written()` is true
exactly when that sum is positive. -/
theorem Size_counts_accepted_bytes (K : Codec) (w : ResponseWriter) (threshold : Int)
    (algo : algorithm) (ops : List WriteOp) :
    ∃ rw1, (newResponseWriter w threshold algo).callAll K ops = Except.ok rw1 ∧
      rw1.Size = ((((ops.map WriteOp.bytes).map List.length).sum : Nat) : Int) ∧
      (rw1.Written = true ↔ 0 < ((ops.map WriteOp.bytes).map List.length).sum) := by
  obtain ⟨rw1, hw, _, hcnt, _⟩ :=
    writeAll_buffering K (ops.map WriteOp.bytes) (newResponseWriter w threshold algo) [] rfl
  have hsize : rw1.Size
      = ((((ops.map WriteOp.bytes).map List.length).sum : Nat) : Int) := by
    rw [respWriter.Size, hcnt, totalLength_eq_sum]
    simp [newResponseWriter]
  refine ⟨rw1, by rw [callAll_eq_writeAll]; exact hw, hsize, ?_⟩
  have hsize' : rw1.bytesWritten
      = ((((ops.map WriteOp.bytes).map List.length).sum : Nat) : Int) := hsize
  simp only [respWriter.Written, hsize', decide_eq_true_eq, gt_iff_lt]
  omega

/-- C20, an instance: `Write` of 2 bytes and `WriteString` of `héllo` (6
bytes) with the threshold 4: the encoder has swapped, `Size()` is 8, and
`Written()` is true; with no call, `Size()` is 0 and `Written()` is false. -/
theorem Size_counts_accepted_bytes_witness :
    (∃ rw1, (newResponseWriter freshWriter 4 { name := "gzip", compressorPool := [] }).callAll
        storedCodec [WriteOp.write [1, 2], WriteOp.writeString "héllo"] = Except.ok rw1 ∧
      rw1.Swapped = true ∧ rw1.Size = 8 ∧ rw1.Written = true) ∧
    (∃ rw1, (newResponseWriter freshWriter 4 { name := "gzip", compressorPool := [] }).callAll
        storedCodec [] = Except.ok rw1 ∧
      rw1.Size = ((((([] : List WriteOp).map WriteOp.bytes).map List.length).sum : Nat) : Int) ∧
      (rw1.Written = true ↔ 0 < ((([] : List WriteOp).map WriteOp.bytes).map List.length).sum)) :=
  ⟨⟨_, rfl, by decide, by decide, by decide⟩,
    Size_counts_accepted_bytes storedCodec freshWriter 4
      { name := "gzip", compressorPool := [] } []⟩

/-! ## Lemmas and theorems: the options on the registry -/

/-- The registered tokens are exactly the four keys of `algorithms`. -/
theorem get_none_iff (A : Algorithms) (t : String) :
    A.get t = none ↔ t ≠ "zstd" ∧ t ≠ "gzip" ∧ t ≠ "br" ∧ t ≠ "deflate" := by
  unfold Algorithms.get
  simp only [ZSTD, GZIP, BROTLI, DEFLATE]
  split_ifs <;> simp_all

/-- An option applied to an unknown token panics and leaves the registry as it
was. -/
theorem options_unknown (A : Algorithms) (t : String) (e : Bool) (p l : Int)
    (h : A.get t = none) :
    (WithAlgo t e A = Except.error "nil pointer dereference" ∧
      WithPriority t p A = Except.error "nil pointer dereference" ∧
      WithCompressLevel t l A = Except.error "nil pointer dereference") ∧
    registryAfter (WithAlgo t e) A = A ∧ registryAfter (WithPriority t p) A = A ∧
    registryAfter (WithCompressLevel t l) A = A := by
  obtain ⟨h1, h2, h3, h4⟩ := (get_none_iff A t).1 h
  simp [WithAlgo, WithPriority, WithCompressLevel, registryAfter, ZSTD, GZIP, BROTLI, DEFLATE,
    h1, h2, h3, h4]

/-- Go `WithAlgo` on a registered token sets `enable` of that descriptor and
nothing else. -/
theorem WithAlgo_known (A : Algorithms) (t : String) (e : Bool) (cfg : algorithmConfig)
    (h : A.get t = some cfg) :
    ∃ A1, WithAlgo t e A = Except.ok A1 ∧
      A1.get t = some { cfg with enable := e } ∧ ∀ k, k ≠ t → A1.get k = A.get k := by
  unfold Algorithms.get at h
  simp only [ZSTD, GZIP, BROTLI, DEFLATE] at h
  split_ifs at h with h1 h2 h3 h4
  all_goals
    subst_vars
    injection h with h
    subst h
    refine ⟨_, rfl, rfl, ?_⟩
    intro k hk
    simp only [Algorithms.get, ZSTD, GZIP, BROTLI, DEFLATE]
    split_ifs <;> simp_all

/-- Go `WithPriority` on a registered token sets `priority` of that descriptor
and nothing else. -/
theorem WithPriority_known (A : Algorithms) (t : String) (p : Int) (cfg : algorithmConfig)
    (h : A.get t = some cfg) :
    ∃ A1, WithPriority t p A = Except.ok A1 ∧
      A1.get t = some { cfg with priority := p } ∧ ∀ k, k ≠ t → A1.get k = A.get k := by
  unfold Algorithms.get at h
  simp only [ZSTD, GZIP, BROTLI, DEFLATE] at h
  split_ifs at h with h1 h2 h3 h4
  all_goals
    subst_vars
    injection h with h
    subst h
    refine ⟨_, rfl, rfl, ?_⟩
    intro k hk
    simp only [Algorithms.get, ZSTD, GZIP, BROTLI, DEFLATE]
    split_ifs <;> simp_all

/-- Go `WithCompressLevel` on a registered token sets `compressLevel` of that
descriptor and nothing else. -/
theorem WithCompressLevel_known (A : Algorithms) (t : String) (l : Int) (cfg : algorithmConfig)
    (h : A.get t = some cfg) :
    ∃ A1, WithCompressLevel t l A = Except.ok A1 ∧
      A1.get t = some { cfg with compressLevel := l } ∧ ∀ k, k ≠ t → A1.get k = A.get k := by
  unfold Algorithms.get at h
  simp only [ZSTD, GZIP, BROTLI, DEFLATE] at h
  split_ifs at h with h1 h2 h3 h4
  all_goals
    subst_vars
    injection h with h
    subst h
    refine ⟨_, rfl, rfl, ?_⟩
    intro k hk
    simp only [Algorithms.get, ZSTD, GZIP, BROTLI, DEFLATE]
    split_ifs <;> simp_all

/-- C21: a token is unknown to the registry exactly when it is none of `zstd`,
`gzip`, `br`, `deflate`. For an unknown token each of the applied options
`WithAlgo`, `WithPriority`, `WithCompressLevel` panics (nil pointer
dereference) and the registry is as it was. For a registered token with
descriptor `cfg` each of them returns, the descriptor of the token is `cfg`
with only the named field replaced, and the descriptor of every other token is
unchanged. -/
theorem options_fail_fast_on_unknown_token (A : Algorithms) (t : String) (e : Bool)
    (p l : Int) :
    (A.get t = none ↔ t ≠ "zstd" ∧ t ≠ "gzip" ∧ t ≠ "br" ∧ t ≠ "deflate") ∧
    (A.get t = none →
      (WithAlgo t e A = Except.error "nil pointer dereference" ∧
        WithPriority t p A = Except.error "nil pointer dereference" ∧
        WithCompressLevel t l A = Except.error "nil pointer dereference") ∧
      registryAfter (WithAlgo t e) A = A ∧ registryAfter (WithPriority t p) A = A ∧
      registryAfter (WithCompressLevel t l) A = A) ∧
    (∀ cfg, A.get t = some cfg →
      (∃ A1, WithAlgo t e A = Except.ok A1 ∧
        A1.get t = some { cfg with enable := e } ∧ ∀ k, k ≠ t → A1.get k = A.get k) ∧
      (∃ A1, WithPriority t p A = Except.ok A1 ∧
        A1.get t = some { cfg with priority := p } ∧ ∀ k, k ≠ t → A1.get k = A.get k) ∧
      (∃ A1, WithCompressLevel t l A = Except.ok A1 ∧
        A1.get t = some { cfg with compressLevel := l } ∧
        ∀ k, k ≠ t → A1.get k = A.get k)) :=
  ⟨get_none_iff A t, options_unknown A t e p l,
    fun cfg h => ⟨WithAlgo_known A t e cfg h, WithPriority_known A t p cfg h,
      WithCompressLevel_known A t l cfg h⟩⟩

/-- C21, instances on the default registry: the unknown token `lz4` makes the
three options panic and the registry stays the default one; `WithPriority` of
`gzip` to 500 returns a registry in which gzip has priority 500, is still
enabled with level -1, and `br` is as before. -/
theorem options_fail_fast_on_unknown_token_witness :
    ((WithAlgo "lz4" false defaultAlgorithms = Except.error "nil pointer dereference" ∧
        WithPriority "lz4" 500 defaultAlgorithms = Except.error "nil pointer dereference" ∧
        WithCompressLevel "lz4" 9 defaultAlgorithms
          = Except.error "nil pointer dereference") ∧
      registryAfter (WithAlgo "lz4" false) defaultAlgorithms = defaultAlgorithms ∧
      registryAfter (WithPriority "lz4" 500) defaultAlgorithms = defaultAlgorithms ∧
      registryAfter (WithCompressLevel "lz4" 9) defaultAlgorithms = defaultAlgorithms) ∧
    (∃ A1, WithPriority "gzip" 500 defaultAlgorithms = Except.ok A1 ∧
      A1.get "gzip" = some { enable := true, compressLevel := -1, priority := 500 } ∧
      A1.get "br" = defaultAlgorithms.get "br") :=
  ⟨(options_fail_fast_on_unknown_token defaultAlgorithms "lz4" false 500 9).2.1 (by decide),
    _, rfl, by decide, by decide⟩

/-! ## Lemmas and theorems: `Content-Length` on the response writer -/

theorem compressor_Write_header (K : Codec) (z : resettableCompressor) (sink : ResponseWriter)
    (b : Bytes) (fault : Fault) :
    (z.Write K sink b fault).2.1.header = sink.header := by
  unfold resettableCompressor.Write
  cases z.dst <;> simp [ResponseWriter.Write]

/-- The second half of `Write` leaves the response headers alone. -/
theorem route_header (K : Codec) (rw : respWriter) (b : Bytes) (fault : Fault)
    (r : respWriter × Int × Bool) (h : rw.route K b fault = Except.ok r) :
    r.1.ResponseWriter.header = rw.ResponseWriter.header := by
  unfold respWriter.route at h
  cases hbuf : rw.buf with
  | some buffered =>
    rw [hbuf] at h
    injection h with h
    subst h
    rfl
  | none =>
    rw [hbuf] at h
    cases hc : rw.compressor with
    | none => rw [hc] at h; exact absurd h (by simp)
    | some w =>
      rw [hc] at h
      have hh := compressor_Write_header K w.w rw.ResponseWriter b fault
      unfold wrappedWriter.Write at h
      by_cases hwc : w.c = true
      · simp [hwc] at h
      · simp only [hwc, Bool.false_eq_true, if_false] at h
        by_cases herr : (w.w.Write K rw.ResponseWriter b fault).2.2.2 = true
        · simp only [herr, if_true] at h
          injection h with h
          subst h
          exact hh
        · simp only [herr, Bool.false_eq_true, if_false] at h
          injection h with h
          subst h
          exact hh

/-- After `Write` the response headers are the headers before it with
`Content-Length` deleted. -/
theorem Write_header (K : Codec) (rw : respWriter) (b : Bytes) (f : Faults)
    (r : respWriter × Int × Bool) (h : rw.Write K b f = Except.ok r) :
    r.1.ResponseWriter.header = Header.Del rw.ResponseWriter.header "Content-Length" := by
  unfold respWriter.Write at h
  cases hbuf : rw.buf with
  | none =>
    simp only [hbuf] at h
    exact route_header K _ b f.write r h
  | some buffered =>
    simp only [hbuf] at h
    split_ifs at h with hthr hlen
    · exact route_header K _ b f.write r h
    · have hh := compressor_Write_header K (rw.algo.getWriter).1.w
        { rw.ResponseWriter with header := Header.Del rw.ResponseWriter.header "Content-Length" }
        buffered f.copy
      unfold wrappedWriter.Write at h
      by_cases hwc : (rw.algo.getWriter).1.c = true
      · simp [hwc] at h
      · simp only [hwc, Bool.false_eq_true, if_false] at h
        split_ifs at h with herr
        · injection h with h
          subst h
          exact hh
        · exact (route_header K _ b f.write r h).trans hh
    · exact route_header K _ b f.write r h

/-- Go `Write` gives the same result on a writer whose `Content-Length` has
already been deleted: nothing in it looks at the header before the deletion. -/
theorem Write_withoutContentLength (K : Codec) (rw : respWriter) (b : Bytes) (f : Faults) :
    rw.Write K b f = rw.withoutContentLength.Write K b f := by
  simp [respWriter.Write, respWriter.withoutContentLength, Header.Del_Del]

theorem WriteHeader_header (rw : respWriter) (code : Int) :
    (rw.WriteHeader code).ResponseWriter.header
      = Header.Del rw.ResponseWriter.header "Content-Length" ∧
    (rw.WriteHeader code).ResponseWriter.body = rw.ResponseWriter.body := by
  unfold respWriter.WriteHeader ResponseWriter.WriteHeader
  constructor <;> (simp only []; split_ifs <;> rfl)

theorem WriteHeader_withoutContentLength (rw : respWriter) (code : Int) :
    rw.WriteHeader code = rw.withoutContentLength.WriteHeader code := by
  simp [respWriter.WriteHeader, respWriter.withoutContentLength, Header.Del_Del]

/-- A write of the compressor leaves the headers alone and forwards at most
one call, made under the headers the framework writer has at that moment. -/
theorem compressor_WriteTraced_calls (K : Codec) (z : resettableCompressor)
    (sink : TracedWriter) (b : Bytes) (fault : Fault) :
    (z.WriteTraced K sink b fault).2.1.w.header = sink.w.header ∧
    (z.WriteTraced K sink b fault).2.1.calls = sink.calls ++
      (match z.dst with
       | Dest.sink => [Forwarded.body sink.w.header (K.onWrite z.written (accepted fault b))]
       | Dest.discard => []) := by
  unfold resettableCompressor.WriteTraced
  cases z.dst <;> simp [TracedWriter.Write, ResponseWriter.Write]

theorem compressor_WriteTraced_new (K : Codec) (z : resettableCompressor)
    (sink : TracedWriter) (b : Bytes) (fault : Fault) :
    (z.WriteTraced K sink b fault).2.1.w.header = sink.w.header ∧
    ∃ new, (z.WriteTraced K sink b fault).2.1.calls = sink.calls ++ new ∧
      ∀ e ∈ new, e.header = sink.w.header := by
  obtain ⟨h1, h2⟩ := compressor_WriteTraced_calls K z sink b fault
  refine ⟨h1, _, h2, ?_⟩
  intro e he
  cases hz : z.dst <;> rw [hz] at he <;> simp at he
  subst he
  rfl

/-- The second half of `Write` leaves the headers alone, and every call it
forwards is made under those headers. -/
theorem route_traced (K : Codec) (rw : tracedRespWriter) (b : Bytes) (fault : Fault)
    (r : tracedRespWriter × Int × Bool) (h : rw.route K b fault = Except.ok r) :
    r.1.ResponseWriter.w.header = rw.ResponseWriter.w.header ∧
    ∃ new, r.1.ResponseWriter.calls = rw.ResponseWriter.calls ++ new ∧
      ∀ e ∈ new, e.header = rw.ResponseWriter.w.header := by
  unfold tracedRespWriter.route at h
  cases hbuf : rw.buf with
  | some buffered =>
    rw [hbuf] at h
    injection h with h
    subst h
    exact ⟨rfl, [], by simp, by simp⟩
  | none =>
    rw [hbuf] at h
    cases hc : rw.compressor with
    | none => rw [hc] at h; exact absurd h (by simp)
    | some w =>
      rw [hc] at h
      have hh := compressor_WriteTraced_new K w.w rw.ResponseWriter b fault
      unfold wrappedWriter.WriteTraced at h
      by_cases hwc : w.c = true
      · simp [hwc] at h
      · simp only [hwc, Bool.false_eq_true, if_false] at h
        by_cases herr : (w.w.WriteTraced K rw.ResponseWriter b fault).2.2.2 = true
        · simp only [herr, if_true] at h
          injection h with h
          subst h
          exact hh
        · simp only [herr, Bool.false_eq_true, if_false] at h
          injection h with h
          subst h
          exact hh

/-- Every call a `Write` forwards is made under the headers of the writer
with `Content-Length` deleted, and these are the headers it leaves behind. -/
theorem Write_traced (K : Codec) (rw : tracedRespWriter) (b : Bytes) (f : Faults)
    (r : tracedRespWriter × Int × Bool) (h : rw.Write K b f = Except.ok r) :
    r.1.ResponseWriter.w.header = Header.Del rw.ResponseWriter.w.header "Content-Length" ∧
    ∃ new, r.1.ResponseWriter.calls = rw.ResponseWriter.calls ++ new ∧
      ∀ e ∈ new, e.header = Header.Del rw.ResponseWriter.w.header "Content-Length" := by
  unfold tracedRespWriter.Write at h
  cases hbuf : rw.buf with
  | none =>
    simp only [hbuf] at h
    exact route_traced K _ b f.write r h
  | some buffered =>
    simp only [hbuf] at h
    split_ifs at h with hthr hlen
    · exact route_traced K _ b f.write r h
    · have hh := compressor_WriteTraced_new K (rw.algo.getWriter).1.w
        (rw.ResponseWriter.DelHeader "Content-Length") buffered f.copy
      unfold wrappedWriter.WriteTraced at h
      by_cases hwc : (rw.algo.getWriter).1.c = true
      · simp [hwc] at h
      · simp only [hwc, Bool.false_eq_true, if_false] at h
        split_ifs at h with herr
        · injection h with h
          subst h
          exact hh
        · obtain ⟨hh1, new1, hc1, hn1⟩ := hh
          obtain ⟨hr1, new2, hc2, hn2⟩ := route_traced K _ b f.write r h
          refine ⟨hr1.trans hh1, new1 ++ new2, ?_, ?_⟩
          · rw [hc2]
            simp only []
            rw [hc1, List.append_assoc]
            rfl
          · intro e he
            rcases List.mem_append.mp he with he | he
            · exact hn1 e he
            · exact (hn2 e he).trans hh1
    · exact route_traced K _ b f.write r h

theorem compressor_WriteTraced_erase (K : Codec) (z : resettableCompressor)
    (sink : TracedWriter) (b : Bytes) (fault : Fault) :
    (z.WriteTraced K sink b fault).1 = (z.Write K sink.w b fault).1 ∧
    (z.WriteTraced K sink b fault).2.1.w = (z.Write K sink.w b fault).2.1 ∧
    (z.WriteTraced K sink b fault).2.2 = (z.Write K sink.w b fault).2.2 := by
  unfold resettableCompressor.WriteTraced resettableCompressor.Write
  cases z.dst <;> simp [TracedWriter.Write]

/-- Dropping the record of calls from the second half of a traced `Write`
gives the second half of `respWriter.Write`. -/
theorem route_erase (K : Codec) (rw : tracedRespWriter) (b : Bytes) (fault : Fault) :
    (rw.route K b fault).map eraseResult = rw.erase.route K b fault := by
  unfold tracedRespWriter.route respWriter.route
  cases hbuf : rw.buf with
  | some buffered =>
    simp [tracedRespWriter.erase, hbuf, Except.map, eraseResult]
  | none =>
    cases hc : rw.compressor with
    | none => simp [tracedRespWriter.erase, hbuf, hc, Except.map]
    | some w =>
      obtain ⟨e1, e2, e3⟩ := compressor_WriteTraced_erase K w.w rw.ResponseWriter b fault
      by_cases hwc : w.c = true
      · simp [tracedRespWriter.erase, hbuf, hc, Except.map, wrappedWriter.WriteTraced,
          wrappedWriter.Write, hwc]
      · have e4 : (w.w.WriteTraced K rw.ResponseWriter b fault).2.2.2
            = (w.w.Write K rw.ResponseWriter.w b fault).2.2.2 := by rw [e3]
        have e5 : (w.w.WriteTraced K rw.ResponseWriter b fault).2.2.1
            = (w.w.Write K rw.ResponseWriter.w b fault).2.2.1 := by rw [e3]
        by_cases herr : (w.w.Write K rw.ResponseWriter.w b fault).2.2.2 = true
        · simp [tracedRespWriter.erase, hbuf, hc, Except.map, wrappedWriter.WriteTraced,
            wrappedWriter.Write, hwc, eraseResult, e1, e2, e4, e5, herr]
        · simp [tracedRespWriter.erase, hbuf, hc, Except.map, wrappedWriter.WriteTraced,
            wrappedWriter.Write, hwc, eraseResult, e1, e2, e4, e5, herr]

/-- Dropping the record of calls from a traced `Write` gives
`respWriter.Write`: the traced writer is the same program, observed. -/
theorem Write_erase (K : Codec) (rw : tracedRespWriter) (b : Bytes) (f : Faults) :
    (rw.Write K b f).map eraseResult = rw.erase.Write K b f := by
  unfold tracedRespWriter.Write respWriter.Write
  cases hbuf : rw.buf with
  | none =>
    have hb : rw.erase.buf = none := hbuf
    simp only [hbuf, hb]
    exact route_erase K _ b f.write
  | some buffered =>
    have hb : rw.erase.buf = some buffered := hbuf
    have ht : rw.erase.threshold = rw.threshold := rfl
    simp only [hbuf, hb, ht]
    by_cases hthr : (buffered.length : Int) + (b.length : Int) ≥ rw.threshold
    · simp only [hthr, if_true]
      by_cases hlen : buffered.length = 0
      · simp only [hlen, if_true]
        exact route_erase K _ b f.write
      · simp only [hlen, if_false]
        have ha : rw.erase.algo = rw.algo := rfl
        simp only [ha]
        obtain ⟨e1, e2, e3⟩ := compressor_WriteTraced_erase K (rw.algo.getWriter).1.w
          (rw.ResponseWriter.DelHeader "Content-Length") buffered f.copy
        have e4 : ((rw.algo.getWriter).1.w.WriteTraced K
            (rw.ResponseWriter.DelHeader "Content-Length") buffered f.copy).2.2.2
            = ((rw.algo.getWriter).1.w.Write K
                (rw.ResponseWriter.DelHeader "Content-Length").w buffered f.copy).2.2.2 := by
          rw [e3]
        have e5 : ((rw.algo.getWriter).1.w.WriteTraced K
            (rw.ResponseWriter.DelHeader "Content-Length") buffered f.copy).2.2.1
            = ((rw.algo.getWriter).1.w.Write K
                (rw.ResponseWriter.DelHeader "Content-Length").w buffered f.copy).2.2.1 := by
          rw [e3]
        by_cases hwc : (rw.algo.getWriter).1.c = true
        · simp [wrappedWriter.WriteTraced, wrappedWriter.Write, hwc, Except.map]
        · by_cases herr : ((rw.algo.getWriter).1.w.Write K
              (rw.ResponseWriter.DelHeader "Content-Length").w buffered f.copy).2.2.2 = true
          · simp only [wrappedWriter.WriteTraced, wrappedWriter.Write, hwc, Bool.false_eq_true,
              if_false, e4, herr, if_true, Except.map, eraseResult, tracedRespWriter.erase, e1,
              e2, e5]
            exact (if_pos herr).symm
          · simp only [wrappedWriter.WriteTraced, wrappedWriter.Write, hwc, Bool.false_eq_true,
              if_false, e4, herr]
            rw [route_erase]
            simp only [tracedRespWriter.erase, e1, e2]
            exact (if_neg herr).symm
    · simp only [hthr, if_false]
      exact route_erase K _ b f.write

theorem WriteHeader_erase (rw : tracedRespWriter) (code : Int) :
    (rw.WriteHeader code).erase = rw.erase.WriteHeader code := rfl

/-- On a writer that has swapped, `Write` forwards the output of the
compressor in one call, made under the headers without `Content-Length`. -/
theorem Write_traced_swapped (K : Codec) (rw : tracedRespWriter) (b : Bytes) (f : Faults)
    (w : wrappedWriter) (hbuf : rw.buf = none) (hc : rw.compressor = some w)
    (hopen : w.c = false) (hdst : w.w.dst = Dest.sink) :
    ∃ rw1 n err, rw.Write K b f = Except.ok (rw1, n, err) ∧
      rw1.ResponseWriter.calls = rw.ResponseWriter.calls ++
        [Forwarded.body (Header.Del rw.ResponseWriter.w.header "Content-Length")
          (K.onWrite w.w.written (accepted f.write b))] := by
  cases hf : f.write.isSome <;>
    simp [tracedRespWriter.Write, tracedRespWriter.route, hbuf, hc, hopen, hdst,
      wrappedWriter.WriteTraced, resettableCompressor.WriteTraced, hf, TracedWriter.Write,
      TracedWriter.DelHeader]

/-- A fault-free `Write` that commits with a non-empty buffer forwards two
calls, the drained buffer and then the chunk, both made under the headers
without `Content-Length`. -/
theorem Write_traced_commit (K : Codec) (rw : tracedRespWriter) (b : Bytes)
    (buffered : Bytes) (hbuf : rw.buf = some buffered) (hne : buffered ≠ [])
    (hthr : rw.threshold ≤ (buffered.length : Int) + (b.length : Int)) :
    ∃ rw1, rw.Write K b noFault = Except.ok (rw1, (b.length : Int), false) ∧
      rw1.ResponseWriter.calls = rw.ResponseWriter.calls ++
        [Forwarded.body (Header.Del rw.ResponseWriter.w.header "Content-Length")
          (K.onWrite [] buffered),
         Forwarded.body (Header.Del rw.ResponseWriter.w.header "Content-Length")
          (K.onWrite [buffered] b)] := by
  have hne' : ¬ buffered = [] := hne
  simp [tracedRespWriter.Write, tracedRespWriter.route, hbuf, hthr, hne', algorithm.getWriter,
    wrappedWriter.WriteTraced, resettableCompressor.WriteTraced, resettableCompressor.Reset,
    noFault, accepted, TracedWriter.Write, TracedWriter.DelHeader, ResponseWriter.Write]

/-- C24: the framework writer records every call that reaches it together
with the response headers of that moment. Whenever `Write` or `WriteString`
of a `respWriter` returns (under every fault), and for `WriteHeader`: every
call the method forwarded to the framework writer, body bytes or status, was
made when the headers had no `Content-Length` and every other header was as
before the method; the headers it leaves behind are the same. `WriteHeader`
forwards exactly the status, after the deletion, and no body byte. On a
writer that has swapped, the output of the compressor reaches the sink in a
call made without `Content-Length`; so do the drained buffer and the chunk
when a fault-free `Write` commits. With the record dropped, the three methods
are `respWriter.Write`, `respWriter.WriteString` and
`respWriter.WriteHeader`. -/
theorem Content_Length_removed_before_forwarding (K : Codec) (rw : tracedRespWriter)
    (b : Bytes) (s : String) (code : Int) (f : Faults) :
    ((rw.Write K b f).map eraseResult = rw.erase.Write K b f ∧
      ∀ rw1 n err, rw.Write K b f = Except.ok (rw1, n, err) →
        (∃ new, rw1.ResponseWriter.calls = rw.ResponseWriter.calls ++ new ∧
          ∀ e ∈ new, List.lookup "Content-Length" e.header = none ∧
            ∀ k, k ≠ "Content-Length" →
              List.lookup k e.header = List.lookup k rw.ResponseWriter.w.header) ∧
        List.lookup "Content-Length" rw1.ResponseWriter.w.header = none ∧
        ∀ k, k ≠ "Content-Length" →
          List.lookup k rw1.ResponseWriter.w.header
            = List.lookup k rw.ResponseWriter.w.header) ∧
    ((rw.WriteString K s f).map eraseResult = rw.erase.WriteString K s f ∧
      ∀ rw1 n err, rw.WriteString K s f = Except.ok (rw1, n, err) →
        (∃ new, rw1.ResponseWriter.calls = rw.ResponseWriter.calls ++ new ∧
          ∀ e ∈ new, List.lookup "Content-Length" e.header = none ∧
            ∀ k, k ≠ "Content-Length" →
              List.lookup k e.header = List.lookup k rw.ResponseWriter.w.header) ∧
        List.lookup "Content-Length" rw1.ResponseWriter.w.header = none ∧
        ∀ k, k ≠ "Content-Length" →
          List.lookup k rw1.ResponseWriter.w.header
            = List.lookup k rw.ResponseWriter.w.header) ∧
    ((rw.WriteHeader code).erase = rw.erase.WriteHeader code ∧
      (rw.WriteHeader code).ResponseWriter.calls = rw.ResponseWriter.calls ++
        [Forwarded.status (Header.Del rw.ResponseWriter.w.header "Content-Length") code] ∧
      List.lookup "Content-Length" (Header.Del rw.ResponseWriter.w.header "Content-Length")
        = none ∧
      (∀ k, k ≠ "Content-Length" →
        List.lookup k (Header.Del rw.ResponseWriter.w.header "Content-Length")
          = List.lookup k rw.ResponseWriter.w.header) ∧
      (rw.WriteHeader code).ResponseWriter.w.header
        = Header.Del rw.ResponseWriter.w.header "Content-Length" ∧
      (rw.WriteHeader code).ResponseWriter.w.body = rw.ResponseWriter.w.body) ∧
    (∀ w, rw.buf = none → rw.compressor = some w → w.c = false → w.w.dst = Dest.sink →
      ∃ rw1 n err, rw.Write K b f = Except.ok (rw1, n, err) ∧
        rw1.ResponseWriter.calls = rw.ResponseWriter.calls ++
          [Forwarded.body (Header.Del rw.ResponseWriter.w.header "Content-Length")
            (K.onWrite w.w.written (accepted f.write b))]) ∧
    (∀ buffered, rw.buf = some buffered → buffered ≠ [] →
      rw.threshold ≤ (buffered.length : Int) + (b.length : Int) →
      ∃ rw1, rw.Write K b noFault = Except.ok (rw1, (b.length : Int), false) ∧
        rw1.ResponseWriter.calls = rw.ResponseWriter.calls ++
          [Forwarded.body (Header.Del rw.ResponseWriter.w.header "Content-Length")
            (K.onWrite [] buffered),
           Forwarded.body (Header.Del rw.ResponseWriter.w.header "Content-Length")
            (K.onWrite [buffered] b)]) := by
  have key : ∀ (c : Bytes) (rw1 : tracedRespWriter) (n : Int) (err : Bool),
      rw.Write K c f = Except.ok (rw1, n, err) →
        (∃ new, rw1.ResponseWriter.calls = rw.ResponseWriter.calls ++ new ∧
          ∀ e ∈ new, List.lookup "Content-Length" e.header = none ∧
            ∀ k, k ≠ "Content-Length" →
              List.lookup k e.header = List.lookup k rw.ResponseWriter.w.header) ∧
        List.lookup "Content-Length" rw1.ResponseWriter.w.header = none ∧
        ∀ k, k ≠ "Content-Length" →
          List.lookup k rw1.ResponseWriter.w.header
            = List.lookup k rw.ResponseWriter.w.header := by
    intro c rw1 n err h
    obtain ⟨hh, new, hcalls, hnew⟩ := Write_traced K rw c f (rw1, n, err) h
    have hh' : rw1.ResponseWriter.w.header
        = Header.Del rw.ResponseWriter.w.header "Content-Length" := hh
    refine ⟨⟨new, hcalls, ?_⟩, ?_, ?_⟩
    · intro e he
      rw [hnew e he]
      refine ⟨by rw [lookup_Del, if_pos rfl], ?_⟩
      intro k hk
      rw [lookup_Del, if_neg hk]
    · rw [hh', lookup_Del, if_pos rfl]
    · intro k hk
      rw [hh', lookup_Del, if_neg hk]
  refine ⟨⟨Write_erase K rw b f, key b⟩, ⟨Write_erase K rw (bytesOf s) f, key (bytesOf s)⟩,
    ⟨rfl, rfl, by rw [lookup_Del, if_pos rfl], ?_, ?_, ?_⟩,
    fun w hbuf hc hopen hdst => Write_traced_swapped K rw b f w hbuf hc hopen hdst,
    fun buffered hbuf hne hthr => Write_traced_commit K rw b buffered hbuf hne hthr⟩
  · intro k hk
    rw [lookup_Del, if_neg hk]
  · unfold tracedRespWriter.WriteHeader TracedWriter.WriteHeader TracedWriter.DelHeader
      ResponseWriter.WriteHeader
    simp only []
    split_ifs <;> rfl
  · unfold tracedRespWriter.WriteHeader TracedWriter.WriteHeader TracedWriter.DelHeader
      ResponseWriter.WriteHeader
    simp only []
    split_ifs <;> rfl

/-- C24, an instance: two bytes are buffered, the threshold is 4, and the
producer has set `Content-Length: 10` and `Content-Type`. `Write` of three
bytes commits: the framework writer receives the drained buffer and then the
chunk, both under the headers `Content-Type` only. `WriteHeader(404)` on the
same writer forwards the status under the headers `Content-Type` only. The
record tells the order apart: a `Write` of the framework writer made before
the deletion is recorded with `Content-Length: 10`. -/
theorem Content_Length_removed_before_forwarding_witness :
    List.lookup "Content-Length" midResponse.ResponseWriter.w.header = some ["10"] ∧
    ((midResponse.ResponseWriter.Write [1, 2]).DelHeader "Content-Length").calls
      = [Forwarded.body [("Content-Length", ["10"]), ("Content-Type", ["text/plain"])]
          [1, 2]] ∧
    ((midResponse.ResponseWriter.DelHeader "Content-Length").Write [1, 2]).calls
      = [Forwarded.body [("Content-Type", ["text/plain"])] [1, 2]] ∧
    (∃ rw1, midResponse.Write storedCodec [3, 4, 5] noFault = Except.ok (rw1, 3, false) ∧
      rw1.ResponseWriter.calls
        = [Forwarded.body [("Content-Type", ["text/plain"])] [1, 2],
           Forwarded.body [("Content-Type", ["text/plain"])] [3, 4, 5]] ∧
      rw1.ResponseWriter.w.body = [1, 2, 3, 4, 5] ∧
      ((∃ new, rw1.ResponseWriter.calls = midResponse.ResponseWriter.calls ++ new ∧
          ∀ e ∈ new, List.lookup "Content-Length" e.header = none ∧
            ∀ k, k ≠ "Content-Length" →
              List.lookup k e.header = List.lookup k midResponse.ResponseWriter.w.header) ∧
        List.lookup "Content-Length" rw1.ResponseWriter.w.header = none ∧
        ∀ k, k ≠ "Content-Length" →
          List.lookup k rw1.ResponseWriter.w.header
            = List.lookup k midResponse.ResponseWriter.w.header)) ∧
    (midResponse.WriteHeader 404).ResponseWriter
      = { w := { header := [("Content-Type", ["text/plain"])], body := [], status := 404,
                 size := -1 },
          calls := [Forwarded.status [("Content-Type", ["text/plain"])] 404] } :=
  ⟨by decide, by decide, by decide,
    ⟨_, rfl, by decide, by decide,
      (Content_Length_removed_before_forwarding storedCodec midResponse [3, 4, 5] "" 404
        noFault).1.2 _ 3 false rfl⟩,
    by decide⟩

/-! ## Lemmas and theorems: the announced length -/

theorem toDigitsCore_ne_nil (b : Nat) :
    ∀ (fuel n : Nat) (ds : List Char), (0 < fuel ∨ ds ≠ []) →
      Nat.toDigitsCore b fuel n ds ≠ [] := by
  intro fuel
  induction fuel with
  | zero =>
    intro n ds h
    rcases h with h | h
    · exact absurd h (by decide)
    · simpa [Nat.toDigitsCore] using h
  | succ f ih =>
    intro n ds _
    rw [Nat.toDigitsCore]
    split_ifs
    · simp
    · exact ih _ _ (Or.inr (by simp))

theorem Nat_repr_ne_empty (n : Nat) : Nat.repr n ≠ "" := by
  intro h
  have h1 : (Nat.repr n).data = [] := by rw [h]
  exact toDigitsCore_ne_nil 10 (n + 1) n [] (Or.inl (Nat.succ_pos n)) h1

/-- The decimal text of an integer is never empty. -/
theorem Int_toString_ne_empty (n : Int) : toString n ≠ "" := by
  cases n with
  | ofNat m => exact Nat_repr_ne_empty m
  | negSucc m =>
    intro h
    have h1 : (toString (Int.negSucc m)).data = [] := by rw [h]
    simp [toString, instToStringInt] at h1

theorem lookup_ginHeader_self (h : Header) (key value : String) (hv : value ≠ "") :
    List.lookup key (ginHeader h key value) = some [value] := by
  unfold ginHeader
  rw [if_neg hv, lookup_Set, if_pos rfl]

/-- The branch of `Handler` that installs the response encoder: the writes of
the producer, the `Close`, and the headers set afterwards. -/
theorem Handler_installed (L : GoLib) (A : Algorithms) (D : DecodeLib) (K : String → Codec)
    (pools : String → List resettableCompressor) (cfg : compressOptions)
    (c : Request) (w : ResponseWriter) (app : Request → List Bytes) (res : HandlerResult)
    (rw : respWriter)
    (h : Handler L A D K pools cfg c w app = Except.ok res) (henc : res.encoder = some rw) :
    ∃ rw1 rw2 err,
      (newResponseWriter w cfg.minCompressBytes
        { name := (selectAlgorithm L A (Header.Get res.request.Header "Accept-Encoding")).1,
          compressorPool :=
            pools (selectAlgorithm L A (Header.Get res.request.Header "Accept-Encoding")).1
        }).writeAll
          (K (selectAlgorithm L A (Header.Get res.request.Header "Accept-Encoding")).1)
          (app res.request) = Except.ok rw1 ∧
      rw1.Close (K (selectAlgorithm L A (Header.Get res.request.Header "Accept-Encoding")).1)
        none = Except.ok (rw2, err) ∧
      rw = { rw2 with ResponseWriter := res.writer } ∧
      res.writer.body = rw2.ResponseWriter.body ∧
      res.writer.header = ginHeader
        (if rw2.Swapped = true then
          ginHeader (ginHeader rw2.ResponseWriter.header "Vary" "Accept-Encoding")
            "Content-Encoding"
            (selectAlgorithm L A (Header.Get res.request.Header "Accept-Encoding")).1
         else rw2.ResponseWriter.header)
        "Content-Length" (toString rw2.Size) := by
  cases hd : decompressRequest A D cfg c with
  | error e0 =>
    simp [Handler, hd] at h
  | ok r =>
    obtain ⟨c1, cf, err⟩ := r
    obtain ⟨herr, _⟩ := decompressRequest_cases A D cfg c c1 cf err hd
    subst herr
    by_cases hbranch : ((selectAlgorithm L A (Header.Get c1.Header "Accept-Encoding")).1 = ""
        || !shouldCompress A cfg c1) = true
    · simp only [Handler, hd, Bool.false_eq_true, if_false, hbranch, if_true] at h
      injection h with h
      subst h
      exact absurd henc (by simp)
    · obtain ⟨rw1, rw2, cerr, hw, hcl, _, _, _⟩ :=
        encoder_run (K (selectAlgorithm L A (Header.Get c1.Header "Accept-Encoding")).1) w
          cfg.minCompressBytes
          { name := (selectAlgorithm L A (Header.Get c1.Header "Accept-Encoding")).1,
            compressorPool :=
              pools (selectAlgorithm L A (Header.Get c1.Header "Accept-Encoding")).1 }
          (app c1)
      simp only [Handler, hd, Bool.false_eq_true, if_false, hbranch, hw, hcl] at h
      injection h with h
      subst h
      simp only [Option.some.injEq] at henc
      subst henc
      exact ⟨rw1, rw2, cerr, hw, hcl, rfl, rfl, rfl⟩

/-- C26: whenever `Handler` returns with the response encoder installed, the
`Content-Length` response header is the decimal text of `Size()` of the
encoder, and `Size()` is the total number of bytes the producer wrote; when
the encoder has swapped, the sink holds, after what it held before, the
complete output of the compressor for a chunking of the payload; so the
header announces the length of the payload, whatever the length of what the
compressor wrote. -/
theorem Content_Length_is_uncompressed_size (L : GoLib) (A : Algorithms) (D : DecodeLib)
    (K : String → Codec) (pools : String → List resettableCompressor) (cfg : compressOptions)
    (c : Request) (w : ResponseWriter) (app : Request → List Bytes) (res : HandlerResult)
    (rw : respWriter)
    (h : Handler L A D K pools cfg c w app = Except.ok res) (henc : res.encoder = some rw) :
    List.lookup "Content-Length" res.writer.header = some [toString rw.Size] ∧
    rw.Size = totalLength (app res.request) ∧
    (rw.Swapped = true →
      ∃ written : List Bytes, written.flatten = (app res.request).flatten ∧
        res.writer.body = w.body ++ Codec.compress
          (K (selectAlgorithm L A (Header.Get res.request.Header "Accept-Encoding")).1)
          written) := by
  obtain ⟨rw1, rw2, err, hw, hcl, hrw, hbody, hhdr⟩ :=
    Handler_installed L A D K pools cfg c w app res rw h henc
  obtain ⟨rw1', hw', _, hcnt, _, hlow, hhigh⟩ :=
    writeAll_buffering (K (selectAlgorithm L A (Header.Get res.request.Header "Accept-Encoding")).1)
      (app res.request)
      (newResponseWriter w cfg.minCompressBytes
        { name := (selectAlgorithm L A (Header.Get res.request.Header "Accept-Encoding")).1,
          compressorPool :=
            pools (selectAlgorithm L A (Header.Get res.request.Header "Accept-Encoding")).1 })
      [] rfl
  rw [hw] at hw'
  injection hw' with hw'
  subst hw'
  have hsz : rw.Size = rw2.Size := by rw [hrw]; rfl
  have hsw : rw.Swapped = rw2.Swapped := by rw [hrw]; rfl
  have hcnt1 : rw1.bytesWritten = totalLength (app res.request) := by
    rw [hcnt]
    simp [newResponseWriter]
  have hthr : (newResponseWriter w cfg.minCompressBytes
      { name := (selectAlgorithm L A (Header.Get res.request.Header "Accept-Encoding")).1,
        compressorPool :=
          pools (selectAlgorithm L A (Header.Get res.request.Header "Accept-Encoding")).1
      }).threshold = cfg.minCompressBytes := rfl
  have hb0 : (newResponseWriter w cfg.minCompressBytes
      { name := (selectAlgorithm L A (Header.Get res.request.Header "Accept-Encoding")).1,
        compressorPool :=
          pools (selectAlgorithm L A (Header.Get res.request.Header "Accept-Encoding")).1
      }).ResponseWriter.body = w.body := rfl
  rw [hthr, hb0] at hlow hhigh
  simp only [List.length_nil, Nat.cast_zero, zero_add, List.nil_append] at hlow hhigh
  have hlen : List.lookup "Content-Length" res.writer.header = some [toString rw.Size] := by
    rw [hhdr, hsz]
    exact lookup_ginHeader_self _ _ _ (Int_toString_ne_empty _)
  by_cases hl : app res.request = [] ∨ totalLength (app res.request) < cfg.minCompressBytes
  · obtain ⟨hbuf, _, _, _⟩ := hlow hl
    obtain ⟨rw2', hcl', hsw', _, _, hbw, _, _⟩ := Close_buffering _ rw1 _ hbuf
    rw [hcl] at hcl'
    injection hcl' with hcl'
    injection hcl' with h1 h2
    subst h1
    refine ⟨hlen, by rw [hsz, respWriter.Size, hbw, hcnt1], ?_⟩
    intro hs
    rw [hsw, hsw'] at hs
    exact absurd hs (by simp)
  · have hne : app res.request ≠ [] := fun h => hl (Or.inl h)
    have hge : cfg.minCompressBytes ≤ totalLength (app res.request) := by
      by_contra hlt
      exact hl (Or.inr (not_le.mp hlt))
    obtain ⟨hbuf1, _, ww, pre, c0, post, hc, hopen, hdst, hsplit, _, _, hwr, hb⟩ :=
      hhigh hne hge
    obtain ⟨rw2', hcl', _, hbody2, _, hbw, _, _⟩ :=
      Close_swapped (K (selectAlgorithm L A (Header.Get res.request.Header "Accept-Encoding")).1)
        rw1 ww hbuf1 hc hopen hdst
    rw [hcl] at hcl'
    injection hcl' with hcl'
    injection hcl' with h1 h2
    subst h1
    refine ⟨hlen, by rw [hsz, respWriter.Size, hbw, hcnt1], ?_⟩
    intro _
    refine ⟨ww.w.written, ?_, ?_⟩
    · rw [hwr, hsplit]
      by_cases he : pre.flatten.length = 0
      · have hnil : pre.flatten = [] := List.length_eq_zero.mp he
        simp [hnil]
      · rw [if_neg he]
        simp
    · rw [hbody, hbody2, hb, Codec.compress, List.append_assoc]

/-- C26, an instance: `Accept-Encoding: gzip, zstd, br`, threshold 4, a
producer that writes 5 bytes. The encoder commits, the sink receives 6 bytes
(the payload and the trailer of the example codec), and `Content-Length`
announces 5, the value of `Size()`. -/
theorem Content_Length_is_uncompressed_size_witness :
    ∃ res rw,
      Handler goLib defaultAlgorithms tagDecodeLib (fun _ => storedCodec) (fun _ => [])
        (WithMinCompressBytes 4 newCompressOptions) smallRequest freshWriter
        (fun _ => [[1, 2, 3, 4, 5]]) = Except.ok res ∧
      res.encoder = some rw ∧ rw.Swapped = true ∧
      res.writer.body = [1, 2, 3, 4, 5, 5] ∧ res.writer.body.length = 6 ∧
      rw.Size = 5 ∧
      List.lookup "Content-Encoding" res.writer.header = some ["br"] ∧
      (List.lookup "Content-Length" res.writer.header = some [toString rw.Size] ∧
        rw.Size = totalLength ((fun _ => [[1, 2, 3, 4, 5]]) res.request) ∧
        (rw.Swapped = true →
          ∃ written : List Bytes,
            written.flatten = ((fun _ => [[1, 2, 3, 4, 5]]) res.request).flatten ∧
            res.writer.body = freshWriter.body ++ Codec.compress
              ((fun _ => storedCodec) (selectAlgorithm goLib defaultAlgorithms
                (Header.Get res.request.Header "Accept-Encoding")).1)
              written)) ∧
      List.lookup "Content-Length" res.writer.header = some ["5"] :=
  ⟨_, _, rfl, rfl, by decide, by decide, by decide, by decide, by decide,
    Content_Length_is_uncompressed_size goLib defaultAlgorithms tagDecodeLib
      (fun _ => storedCodec) (fun _ => []) (WithMinCompressBytes 4 newCompressOptions)
      smallRequest freshWriter (fun _ => [[1, 2, 3, 4, 5]]) _ _ rfl rfl,
    by decide⟩

/-! ## Lemmas and theorems: the order of the entries -/

/-- Splitting commutes with a character-wise map that keeps the separator
apart and a filter that keeps the separator. -/
theorem split_map_filter (sep : Char) (f : Char → Char) (p : Char → Bool)
    (hf : ∀ c, f c = sep ↔ c = sep) (hp : p sep = true) (s : List Char) :
    split sep ((s.filter p).map f) = (split sep s).map (fun t => (t.filter p).map f) := by
  induction s with
  | nil => simp [split]
  | cons c cs ih =>
    by_cases hc : c = sep
    · subst hc
      have hfc : f c = c := (hf c).2 rfl
      simp [split, List.filter_cons, hp, hfc, ih]
    · have hfc : ¬ f c = sep := fun e => hc ((hf c).1 e)
      obtain ⟨p0, ps, hsp⟩ : ∃ p0 ps, split sep cs = p0 :: ps := by
        cases h : split sep cs with
        | nil => exact absurd h (split_ne_nil sep cs)
        | cons p0 ps => exact ⟨p0, ps, rfl⟩
      rw [hsp] at ih
      by_cases hpc : p c = true
      · simp [split, List.filter_cons, hpc, hc, hfc, hsp, ih]
      · simp [split, List.filter_cons, hpc, hc, hsp, ih]

/-- The pieces of the normalised declaration are the normalised pieces of the
declaration. -/
theorem pieces_eq_map (L : GoLib) (f : Char → Char) (hmap : ∀ s, L.toLower s = s.map f)
    (hf : ∀ c, f c = ',' ↔ c = ',') (header : String) :
    pieces L header
      = (split ',' header.data).map (fun t => (t.filter (fun c => c != ' ')).map f) := by
  unfold pieces normalize removeSpaces
  rw [hmap]
  exact split_map_filter ',' f (fun c => c != ' ') hf (by decide) header.data

theorem pieces_perm (L : GoLib) (hlow : CharwiseLower L.toLower) (h1 h2 : String)
    (hperm : (split ',' h1.data).Perm (split ',' h2.data)) :
    (pieces L h1).Perm (pieces L h2) := by
  obtain ⟨f, hmap, hf⟩ := hlow
  rw [pieces_eq_map L f hmap hf, pieces_eq_map L f hmap hf]
  exact hperm.map _

theorem survivors_perm (L : GoLib) (A : Algorithms) (h1 h2 : String)
    (hperm : (pieces L h1).Perm (pieces L h2)) :
    (survivors L A h1).Perm (survivors L A h2) := by
  unfold survivors entries
  exact (List.Perm.map _ hperm).filter _

theorem priorityOf_enabled (A : Algorithms) (k : String) (cfg : algorithmConfig)
    (h : getEnabledAlgorithms A k = some cfg) :
    priorityOf (getEnabledAlgorithms A) k = cfg.priority := by
  simp [priorityOf, h]

/-- With pairwise distinct priorities the result depends only on the
surviving entries as a multiset. -/
theorem selectAlgorithm_perm (L : GoLib) (A : Algorithms) (h1 h2 : String)
    (hsort : SortSliceSpec L.sortSlice) (hdistinct : DistinctPriorities A)
    (hperm : (pieces L h1).Perm (pieces L h2)) :
    (selectAlgorithm L A h1).1 = (selectAlgorithm L A h2).1 := by
  have hs := survivors_perm L A h1 h2 hperm
  by_cases hnil : survivors L A h1 = []
  · have hnil2 : survivors L A h2 = [] := by
      rw [hnil] at hs
      exact hs.symm.eq_nil
    rw [selectAlgorithm_none_of_no_survivor L A h1 hnil,
      selectAlgorithm_none_of_no_survivor L A h2 hnil2]
  · have hnil2 : survivors L A h2 ≠ [] := by
      intro h
      rw [h] at hs
      exact hnil hs.eq_nil
    obtain ⟨e1, he1, ht1, hmax1⟩ := selectAlgorithm_spec L A h1 hsort hnil
    obtain ⟨e2, he2, ht2, hmax2⟩ := selectAlgorithm_spec L A h2 hsort hnil2
    have h12 := hmax1 e2 (hs.mem_iff.mpr he2)
    have h21 := hmax2 e1 (hs.mem_iff.mp he1)
    rw [less_eq_false_iff] at h12 h21
    have hq : e2.q = e1.q := le_antisymm h12.1 h21.1
    have hp1 := h12.2 hq
    have hp2 := h21.2 hq.symm
    have hen1 := ((mem_survivors L A h1 e1).1 he1).2.1
    have hen2 := ((mem_survivors L A h2 e2).1 he2).2.1
    obtain ⟨c1, hc1⟩ := Option.isSome_iff_exists.mp hen1
    obtain ⟨c2, hc2⟩ := Option.isSome_iff_exists.mp hen2
    rw [priorityOf_enabled A _ c1 hc1, priorityOf_enabled A _ c2 hc2] at hp1 hp2
    rw [← ht1, ← ht2]
    exact hdistinct _ _ c1 c2 hc1 hc2 (le_antisymm hp2 hp1)

theorem asciiToLower_charwise : CharwiseLower asciiToLower := by
  refine ⟨Char.toLower, fun s => rfl, ?_⟩
  intro c
  unfold Char.toLower
  by_cases h : c.toNat ≥ 65 ∧ c.toNat ≤ 90
  · simp only [h, and_self, if_true]
    constructor
    · intro he
      exfalso
      obtain ⟨h1, h2⟩ := h
      generalize c.toNat = n at h1 h2 he
      interval_cases n <;> exact absurd he (by decide)
    · intro he
      subst he
      exact absurd h (by decide)
  · simp only [h, if_false]

theorem defaultAlgorithms_distinct : DistinctPriorities defaultAlgorithms := by
  intro k1 k2 c1 c2 h1 h2 hp
  simp only [getEnabledAlgorithms, Algorithms.get, ZSTD, GZIP, BROTLI, DEFLATE,
    defaultAlgorithms] at h1 h2
  split_ifs at h1 h2 <;> simp_all
  all_goals (subst_vars; simp_all)

/-- C25: let `sort.Slice` meet its contract (any order among equal elements
is allowed, so the sort need not be stable), let `strings.ToLower` map
character by character, and let the enabled algorithms have pairwise distinct
priorities. If the comma-separated entries of one `Accept-Encoding`
declaration are a permutation of the entries of another, `selectAlgorithm`
returns the same token for both (or none for both). -/
theorem selectAlgorithm_order_independent (L : GoLib) (A : Algorithms) (h1 h2 : String)
    (hsort : SortSliceSpec L.sortSlice) (hlow : CharwiseLower L.toLower)
    (hdistinct : DistinctPriorities A)
    (hperm : (split ',' h1.data).Perm (split ',' h2.data)) :
    (selectAlgorithm L A h1).1 = (selectAlgorithm L A h2).1 :=
  selectAlgorithm_perm L A h1 h2 hsort hdistinct (pieces_perm L hlow h1 h2 hperm)

/-- C25, witness: with the default registry, `gzip,br;q=0.5,zstd` and its
permutation `zstd,gzip,br;q=0.5` both give `gzip`. -/
theorem selectAlgorithm_order_independent_witness :
    (split ',' "gzip,br;q=0.5,zstd".data).Perm (split ',' "zstd,gzip,br;q=0.5".data) ∧
    (selectAlgorithm goLib defaultAlgorithms "gzip,br;q=0.5,zstd").1 = "gzip" ∧
    (selectAlgorithm goLib defaultAlgorithms "gzip,br;q=0.5,zstd").1
      = (selectAlgorithm goLib defaultAlgorithms "zstd,gzip,br;q=0.5").1 :=
  ⟨by decide, by decide,
    selectAlgorithm_order_independent goLib defaultAlgorithms "gzip,br;q=0.5,zstd"
      "zstd,gzip,br;q=0.5" insertionSort_spec asciiToLower_charwise defaultAlgorithms_distinct
      (by decide)⟩

/-! ## Lemmas and theorems: the commit after a failed drain -/

/-- A fault-free sequence of writes on a new writer takes at most one
compressor from the pool. -/
theorem writeAll_acquires_at_most_once (K : Codec) (w : ResponseWriter) (threshold : Int)
    (algo : algorithm) (chunks : List Bytes) :
    ∃ rw1, (newResponseWriter w threshold algo).writeAll K chunks = Except.ok rw1 ∧
      ((rw1.Swapped = false ∧ rw1.compressor = none ∧ rw1.algo = algo) ∨
        (rw1.Swapped = true ∧ rw1.algo = (algo.getWriter).2 ∧
          ∃ ww, rw1.compressor = some ww ∧ ww.c = false)) := by
  obtain ⟨rw1, hw, _, _, _, hlow, hhigh⟩ :=
    writeAll_buffering K chunks (newResponseWriter w threshold algo) [] rfl
  refine ⟨rw1, hw, ?_⟩
  by_cases hl : chunks = [] ∨
      (([] : Bytes).length : Int) + totalLength chunks
        < (newResponseWriter w threshold algo).threshold
  · obtain ⟨hbuf, hc, halgo, _⟩ := hlow hl
    left
    exact ⟨by simp [respWriter.Swapped, hbuf], hc, halgo⟩
  · have hne : chunks ≠ [] := fun h => hl (Or.inl h)
    have hge : (newResponseWriter w threshold algo).threshold
        ≤ (([] : Bytes).length : Int) + totalLength chunks := by
      by_contra hlt
      exact hl (Or.inr (not_le.mp hlt))
    obtain ⟨hbuf, halgo, ww, _, _, _, hc, hopen, _⟩ := hhigh hne hge
    right
    exact ⟨by simp [respWriter.Swapped, hbuf], halgo, ww, hc, hopen⟩

/-- C23, the code at a failing input: threshold 4, two idle compressors in the
pool. `Write` of 2 bytes is buffered. The next `Write` reaches the threshold,
takes a compressor from the pool, and the drain of the buffer fails: the call
returns the error with the compressor held and the buffer still in place, so
`Swapped()` is false. The third `Write` reaches the threshold again and takes
a second compressor, which replaces the first; `Close` finalizes and releases
only the second, so one of the two instances never comes back to the pool.
When `Close` follows the failed `Write` directly, it copies the buffer
through and the compressor that was taken is neither closed nor released.
What holds in general: a fault-free sequence of writes takes at most one
compressor, and once `Swapped()` is true it stays true under every
`Write`, whatever its faults. -/
theorem failed_drain_acquires_second_compressor :
    (∃ rw2, (newResponseWriter freshWriter 4 twoIdle).writeSeq storedCodec
        [([1, 2], noFault), ([3, 4], copyFails)] = Except.ok rw2 ∧
      rw2.Swapped = false ∧ rw2.buf = some [1, 2] ∧
      rw2.compressor
        = some { w := { dst := Dest.sink, written := [[]], closed := false }, c := false } ∧
      rw2.algo.compressorPool.length = 1 ∧
      ∃ rw3, rw2.Write storedCodec [5, 6] noFault = Except.ok (rw3, 2, false) ∧
        rw3.Swapped = true ∧
        rw3.compressor
          = some { w := { dst := Dest.sink, written := [[1, 2], [5, 6]], closed := false },
                   c := false } ∧
        rw3.algo.compressorPool.length = 0 ∧
        ∃ rw4, rw3.Close storedCodec none = Except.ok (rw4, false) ∧
          rw4.algo.compressorPool.length = 1 ∧
          twoIdle.compressorPool.length = 2) ∧
    (∃ rw2 rw3, (newResponseWriter freshWriter 4 twoIdle).writeSeq storedCodec
        [([1, 2], noFault), ([3, 4], copyFails)] = Except.ok rw2 ∧
      rw2.Close storedCodec none = Except.ok (rw3, false) ∧
      rw3.Swapped = false ∧ rw3.ResponseWriter.body = [1, 2] ∧
      rw3.compressor
        = some { w := { dst := Dest.sink, written := [[]], closed := false }, c := false } ∧
      rw3.algo.compressorPool.length = 1) ∧
    (∀ (K : Codec) (w : ResponseWriter) (threshold : Int) (algo : algorithm)
        (chunks : List Bytes),
      ∃ rw1, (newResponseWriter w threshold algo).writeAll K chunks = Except.ok rw1 ∧
        ((rw1.Swapped = false ∧ rw1.compressor = none ∧ rw1.algo = algo) ∨
          (rw1.Swapped = true ∧ rw1.algo = (algo.getWriter).2 ∧
            ∃ ww, rw1.compressor = some ww ∧ ww.c = false))) ∧
    (∀ (K : Codec) (rw : respWriter) (b : Bytes) (f : Faults) (ww : wrappedWriter),
      rw.Swapped = true → rw.compressor = some ww → ww.c = false →
      ∃ rw1 n err, rw.Write K b f = Except.ok (rw1, n, err) ∧ rw1.Swapped = true) :=
  ⟨⟨_, rfl, by decide, by decide, by decide, by decide,
      _, rfl, by decide, by decide, by decide, _, rfl, by decide, by decide⟩,
    ⟨_, _, rfl, rfl, by decide, by decide, by decide, by decide⟩,
    writeAll_acquires_at_most_once,
    fun K rw b f ww hsw hc hopen => by
      have hbuf : rw.buf = none := by
        simpa [respWriter.Swapped] using hsw
      obtain ⟨rw1, n, err, _, hw, hbuf1, _, _⟩ := Write_keeps_swapped K rw b f ww hbuf hc hopen
      exact ⟨rw1, n, err, hw, by simp [respWriter.Swapped, hbuf1]⟩⟩

end Compress
